import Mathlib

/-!
# Service-discovery resolver `ClientEtcdV2` (util/service/clientV2.go)

A shallow embedding of the resolver's cache, its two response parsers, its
query functions, its construction and its watch loop, followed by theorems
about them.

Conventions of the embedding.

* A Go `string` is its sequence of bytes; a byte is written as the character
  with that code, so a string is a `List Char` (`Str`).
* A Go `map[K]V` is a finite map with pairwise distinct keys (`GoMap K V`);
  reading an absent key gives `none`, which stands for the zero value (`nil`
  for the pointer- and slice-valued maps used here).
* A Go pointer is an `Option`: `none` is `nil`.
* A run-time panic (slice bounds out of range, nil dereference, integer
  division by zero) is an explicit outcome.
* `int` is the 64-bit Go integer; the only `int`s computed here come out of
  `strconv.Atoi`, which already rejects values outside that range.
* The library functions `strconv.Atoi`, `sort.Ints` and `crc32.ChecksumIEEE`
  are modelled by their documented results; `json.Unmarshal` and the constants
  `BASE_LOC_DIST`, `BASE_LOC_DIST_V2` are parameters of the functions that use
  them, and the endpoint type `ServInfo` is a type parameter.
* The entries of `Node.Nodes` are non-nil pointers, as the etcd client decodes
  them.
* The goroutines are described by what they do to their channel: an attempt
  (`startWatch`) by the operations it performs on it, the coordinating loop
  (`watch`) by one iteration per receive that returns.
* Where a copy has to be told from an alias (`GetAllServAddr`), slices and maps
  are references into an explicit memory (`Heap`).
-/

namespace rocserv

/-! ## Strings, maps and library functions -/

/-- A Go string: the sequence of its bytes. -/
abbrev Str := List Char

/-- A Go map: association list with pairwise distinct keys. -/
abbrev GoMap (κ : Type) (ν : Type) := AList (fun _ : κ => ν)

/-- The Go expression `s[k:]` on a string: `none` is the run-time panic
raised when `k` exceeds `len(s)`. -/
def sliceFrom (s : Str) (k : Nat) : Option Str :=
  if k ≤ s.length then some (s.drop k) else none

/-- Value of a string of decimal digits, `none` when some byte is not a digit
(the accumulation loop of `strconv.Atoi`). -/
def atoiDigits : Nat → Str → Option Nat
  | n, [] => some n
  | n, ch :: rest =>
    if '0'.toNat ≤ ch.toNat ∧ ch.toNat ≤ '9'.toNat then
      atoiDigits (n * 10 + (ch.toNat - '0'.toNat)) rest
    else none

/-- Go's `strconv.Atoi` with a 64-bit `int`: an optional sign followed by at
least one decimal digit, the value lying in `[-2^63, 2^63 - 1]`; `none` is a
non-nil `err`. -/
def Atoi (s : Str) : Option Int :=
  match s with
  | [] => none
  | c :: rest =>
    let neg : Bool := c = '-'
    let ds : Str := if c = '-' ∨ c = '+' then rest else s
    if ds = [] then none
    else
      match atoiDigits 0 ds with
      | none => none
      | some n =>
        if neg then (if n ≤ 2 ^ 63 then some (-(n : Int)) else none)
        else (if n < 2 ^ 63 then some (n : Int) else none)

/-- One entry of the IEEE table of `hash/crc32` (`simpleMakeTable`):
eight shift-and-conditionally-xor steps with the reversed polynomial. -/
def crcTableEntry (i : Nat) : Nat :=
  (List.range 8).foldl
    (fun crc _ => if crc % 2 = 1 then (crc >>> 1) ^^^ 0xedb88320 else crc >>> 1) i

/-- Loop of `simpleUpdate` in `hash/crc32`:
`crc = tab[byte(crc)^v] ^ (crc >> 8)` for every byte `v`. -/
def crcUpdate (crc : Nat) (p : List Nat) : Nat :=
  p.foldl (fun crc v => crcTableEntry ((crc % 256) ^^^ (v % 256)) ^^^ (crc >>> 8)) crc

/-- Go's `crc32.ChecksumIEEE([]byte(key))`, a `uint32`. -/
def ChecksumIEEE (key : Str) : Nat :=
  (crcUpdate 0xffffffff (key.map Char.toNat)) ^^^ 0xffffffff

/-! ## Data model -/

/-- An etcd `client.Node`: key, directory flag, value and children. -/
inductive Node where
  | mk (Key : Str) (Dir : Bool) (Value : Str) (Nodes : List Node)

/-- Field `Key` of a node. -/
def Node.Key : Node → Str
  | .mk k _ _ _ => k

/-- Field `Dir` of a node. -/
def Node.Dir : Node → Bool
  | .mk _ d _ _ => d

/-- Field `Value` of a node. -/
def Node.Value : Node → Str
  | .mk _ _ v _ => v

/-- Field `Nodes` of a node. -/
def Node.Nodes : Node → List Node
  | .mk _ _ _ ns => ns

/-- An etcd `client.Response`; only its `Node` pointer is read by the parsers
(`Action` and `Index` are logged only). -/
structure Response where
  Node : Option Node

/-- The struct `RegData`, declared outside this file: the parsers use its field
`Servs` of type `map[string]*ServInfo`. -/
structure RegData (ServInfo : Type) where
  Servs : GoMap Str (Option ServInfo)

/-- The struct `servCopyStr`. -/
structure servCopyStr where
  servId : Int
  reg : Str

/-- The struct `servCopyData`. -/
structure servCopyData (ServInfo : Type) where
  servId : Int
  reg : Option (RegData ServInfo)

/-- The type `servCopyCollect`, `map[int]*servCopyData`. -/
abbrev servCopyCollect (ServInfo : Type) := GoMap Int (Option (servCopyData ServInfo))

/-- The fields of `configEtcd` read in this file. -/
structure configEtcd where
  etcdAddrs : List Str
  useBaseloc : Str

/-- The struct `ClientEtcdV2` without its store handle and its mutex: every
function below runs with the mutex held or on locals only. -/
structure ClientEtcdV2 (ServInfo : Type) where
  confEtcd : configEtcd
  servKey : Str
  servPath : Str
  distLoc : Str
  servList : GoMap Str (List (Option ServInfo))
  servCopy : servCopyCollect ServInfo

/-- What a call does besides returning normally. -/
inductive Outcome (σ : Type) where
  | panicked : Outcome σ
  | done : σ → Outcome σ

/-! ## Queries -/

section Queries
variable {ServInfo : Type}

/-- `ClientEtcdV2.GetServAddr`. The divisor is `uint32(len(p))`; a zero
divisor is the integer-division panic. -/
def GetServAddr (m : ClientEtcdV2 ServInfo) (processor key : Str) :
    Outcome (Option ServInfo) :=
  match m.servList.lookup processor with
  | some p =>
    if p.length > 0 then
      let h := ChecksumIEEE key
      let d := p.length % 2 ^ 32
      if d = 0 then .panicked
      else
        match p.get? (h % d) with
        | some e => .done e
        | none => .panicked
    else .done none
  | none => .done none

/-- `ClientEtcdV2.GetServAddrWithServid`. -/
def GetServAddrWithServid (m : ClientEtcdV2 ServInfo) (servid : Int) (processor _key : Str) :
    Option ServInfo :=
  match m.servCopy.lookup servid with
  | some (some c) =>
    match c.reg with
    | some reg =>
      match reg.Servs.lookup processor with
      | some (some p) => some p
      | _ => none
    | none => none
  | _ => none

end Queries

/-! ## Parsers -/

section Parsers
variable {ServInfo : Type}

/-- What `json.Unmarshal(data, &v)` leaves behind for a fresh `v`: the value of
`v` after the call (the zero value when nothing was decoded) and whether the
returned `err` is non-nil. -/
structure Decoded (α : Type) where
  val : α
  err : Bool

/-- How a loop or a function body ends: by a run-time panic, by an early
`return`, or by running to its end with the given result. -/
inductive Flow (σ : Type) where
  | panicked : Flow σ
  | returned : Flow σ
  | continued : σ → Flow σ

/-- Lines 245-250 and 314-317: `sid := n.Key[len(r.Node.Key)+1:]`, then
`strconv.Atoi(sid)`; `done none` is the branch `err != nil || id < 0`. -/
def childId (rootKey : Str) (n : Node) : Outcome (Option Int) :=
  match sliceFrom n.Key (rootKey.length + 1) with
  | none => .panicked
  | some sid =>
    match Atoi sid with
    | some id => if id < 0 then .done none else .done (some id)
    | none => .done none

/-- Lines 254-262: the loop over the children of a copy directory, storing the
value of every child whose key is `n.Key + "/reg"`. -/
def regLoop (n : Node) (id : Int) (idServ : GoMap Int servCopyStr) : GoMap Int servCopyStr :=
  n.Nodes.foldl
    (fun acc nc => if nc.Key = n.Key ++ "/reg".toList then acc.insert id ⟨id, nc.Value⟩ else acc)
    idServ

/-- Lines 239-264: the first loop of `parseResponseV2`. -/
def collectV2 (rootKey : Str) :
    List Node → GoMap Int servCopyStr → List Int → Flow (GoMap Int servCopyStr × List Int)
  | [], idServ, ids => .continued (idServ, ids)
  | n :: rest, idServ, ids =>
    if !n.Dir then .returned
    else
      match childId rootKey n with
      | .panicked => .panicked
      | .done none => collectV2 rootKey rest idServ ids
      | .done (some id) => collectV2 rootKey rest (regLoop n id idServ) (ids ++ [id])

/-- Lines 295-301 and 356-362: the loop `for k, v := range servs` appending
every endpoint of one document to the sequence of its processor. The entries
are visited in the order of the list that represents the map. -/
def addServs (servs : GoMap Str (Option ServInfo))
    (servList : GoMap Str (List (Option ServInfo))) : GoMap Str (List (Option ServInfo)) :=
  servs.entries.foldl
    (fun sl kv =>
      let sl1 := if (sl.lookup kv.1).isSome then sl else sl.insert kv.1 []
      sl1.insert kv.1 ((sl1.lookup kv.1).getD [] ++ [kv.2]))
    servList

/-- Lines 277-303: the second loop of `parseResponseV2`; `idServ[i].reg` panics
when `idServ` has no entry for `i`. -/
def buildV2 (unmarshal : Str → Decoded (RegData ServInfo)) (idServ : GoMap Int servCopyStr) :
    List Int → servCopyCollect ServInfo → GoMap Str (List (Option ServInfo)) →
      Outcome (servCopyCollect ServInfo × GoMap Str (List (Option ServInfo)))
  | [], servCopy, servList => .done (servCopy, servList)
  | i :: rest, servCopy, servList =>
    match idServ.lookup i with
    | none => .panicked
    | some c =>
      let regd := (unmarshal c.reg).val
      buildV2 unmarshal idServ rest (servCopy.insert i (some ⟨i, some regd⟩))
        (addServs regd.Servs servList)

/-- The body of `parseResponseV2` up to the call of `upServlist`:
`continued (servCopy, servList)` carries the arguments of that call. -/
def parseV2 (unmarshal : Str → Decoded (RegData ServInfo)) (root : Node) :
    Flow (servCopyCollect ServInfo × GoMap Str (List (Option ServInfo))) :=
  match collectV2 root.Key root.Nodes ∅ [] with
  | .panicked => .panicked
  | .returned => .returned
  | .continued (idServ, ids) =>
    match buildV2 unmarshal idServ (ids.insertionSort (· ≤ ·)) ∅ ∅ with
    | .panicked => .panicked
    | .done snap => .continued snap

/-- Lines 313-323: the first loop of `parseResponseV1`. -/
def collectV1 (rootKey : Str) :
    List Node → GoMap Int Str → List Int → Outcome (GoMap Int Str × List Int)
  | [], idServ, ids => .done (idServ, ids)
  | n :: rest, idServ, ids =>
    match childId rootKey n with
    | .panicked => .panicked
    | .done none => collectV1 rootKey rest idServ ids
    | .done (some id) => collectV1 rootKey rest (idServ.insert id n.Value) (ids ++ [id])

/-- Lines 336-364: the second loop of `parseResponseV1`; an absent `idServ[i]`
reads as the empty string. -/
def buildV1 (unmarshal : Str → Decoded (GoMap Str (Option ServInfo))) (idServ : GoMap Int Str) :
    List Int → servCopyCollect ServInfo → GoMap Str (List (Option ServInfo)) →
      servCopyCollect ServInfo × GoMap Str (List (Option ServInfo))
  | [], servCopy, servList => (servCopy, servList)
  | i :: rest, servCopy, servList =>
    let servs := (unmarshal ((idServ.lookup i).getD [])).val
    buildV1 unmarshal idServ rest (servCopy.insert i (some ⟨i, some ⟨servs⟩⟩))
      (addServs servs servList)

/-- The body of `parseResponseV1` up to the call of `upServlist`. -/
def parseV1 (unmarshal : Str → Decoded (GoMap Str (Option ServInfo))) (root : Node) :
    Flow (servCopyCollect ServInfo × GoMap Str (List (Option ServInfo))) :=
  match collectV1 root.Key root.Nodes ∅ [] with
  | .panicked => .panicked
  | .done (idServ, ids) =>
    .continued (buildV1 unmarshal idServ (ids.insertionSort (· ≤ ·)) ∅ ∅)

/-- `ClientEtcdV2.upServlist`. -/
def upServlist (m : ClientEtcdV2 ServInfo) (scopy : servCopyCollect ServInfo)
    (slist : GoMap Str (List (Option ServInfo))) : ClientEtcdV2 ServInfo :=
  { m with servList := slist, servCopy := scopy }

/-- `ClientEtcdV2.parseResponseV2`; `r.Node` nil is a nil dereference. -/
def parseResponseV2 (unmarshal : Str → Decoded (RegData ServInfo)) (m : ClientEtcdV2 ServInfo)
    (r : Response) : Outcome (ClientEtcdV2 ServInfo) :=
  match r.Node with
  | none => .panicked
  | some root =>
    match parseV2 unmarshal root with
    | .panicked => .panicked
    | .returned => .done m
    | .continued (servCopy, servList) => .done (upServlist m servCopy servList)

/-- `ClientEtcdV2.parseResponseV1`; `r.Node` nil is a nil dereference. -/
def parseResponseV1 (unmarshal : Str → Decoded (GoMap Str (Option ServInfo)))
    (m : ClientEtcdV2 ServInfo) (r : Response) : Outcome (ClientEtcdV2 ServInfo) :=
  match r.Node with
  | none => .panicked
  | some root =>
    match parseV1 unmarshal root with
    | .panicked => .panicked
    | .returned => .done m
    | .continued (servCopy, servList) => .done (upServlist m servCopy servList)

/-- `ClientEtcdV2.parseResponse`. `etcdGet path` is the response `r` of
`m.etcdClient.Get` on `path` with the recursive option, `none` when `r` is nil
(the accompanying `err` is only logged). The constants `BASE_LOC_DIST` and
`BASE_LOC_DIST_V2` are declared outside this file. -/
def parseResponse (BASE_LOC_DIST BASE_LOC_DIST_V2 : Str)
    (unmarshalV1 : Str → Decoded (GoMap Str (Option ServInfo)))
    (unmarshalV2 : Str → Decoded (RegData ServInfo))
    (etcdGet : Str → Option Response) (m : ClientEtcdV2 ServInfo) :
    Outcome (ClientEtcdV2 ServInfo) :=
  match etcdGet m.servPath with
  | none => .done m
  | some r =>
    match r.Node with
    | none => .panicked
    | some root =>
      if !root.Dir then .done m
      else if m.distLoc = BASE_LOC_DIST then parseResponseV1 unmarshalV1 m r
      else if m.distLoc = BASE_LOC_DIST_V2 then parseResponseV2 unmarshalV2 m r
      else .done m

/-- `ClientEtcdV2.GetAllServAddr`: a fresh map holding a fresh copy of every
sequence. -/
def GetAllServAddr (m : ClientEtcdV2 ServInfo) : GoMap Str (List (Option ServInfo)) :=
  m.servList.entries.foldl (fun rv kv => rv.insert kv.1 kv.2) ∅

end Parsers

/-! ## Construction -/

section Construction
variable {ServInfo : Type}

/-- The Go expression `fmt.Sprintf("%s/%s/%s", a, b, c)`. -/
def sprintfPath (a b c : Str) : Str :=
  a ++ "/".toList ++ b ++ "/".toList ++ c

/-- `checkDistVersion`. `clientGet path` tells whether `client.Get` on `path`
(with the recursive option) returns a nil `err`. The result is the returned
schema tag together with the paths read, in the order of the reads. The
constants `BASE_LOC_DIST` and `BASE_LOC_DIST_V2` are declared outside this
file. -/
def checkDistVersion (BASE_LOC_DIST BASE_LOC_DIST_V2 : Str) (clientGet : Str → Bool)
    (prefloc servlocation : Str) : Str × List Str :=
  let path := sprintfPath prefloc BASE_LOC_DIST_V2 servlocation
  if clientGet path then (BASE_LOC_DIST_V2, [path])
  else
    let path2 := sprintfPath prefloc BASE_LOC_DIST servlocation
    if clientGet path2 then (BASE_LOC_DIST, [path, path2])
    else (BASE_LOC_DIST_V2, [path, path2])

/-- `NewClientEtcdV2`. `etcdNew` is `etcd.New` on the configured endpoints
(`none` for a non-nil `err`), `newKeysAPI` is `etcd.NewKeysAPI` (`none` for a nil
client, otherwise the `Get` of the client as `checkDistVersion` uses it). The
result is the pair the function returns: an error and no resolver, or a
resolver and no error. The goroutine started by `cli.watch()` runs after the
fields are set and is described by `watchStep`. -/
def NewClientEtcdV2 {κ : Type} (BASE_LOC_DIST BASE_LOC_DIST_V2 : Str)
    (etcdNew : List Str → Option κ) (newKeysAPI : κ → Option (Str → Bool))
    (confEtcd : configEtcd) (servlocation : Str) : Except Str (ClientEtcdV2 ServInfo) :=
  match etcdNew confEtcd.etcdAddrs with
  | none => .error "create etchd client cfg error".toList
  | some c =>
    match newKeysAPI c with
    | none => .error "create etchd api error".toList
    | some client =>
      let distloc :=
        (checkDistVersion BASE_LOC_DIST BASE_LOC_DIST_V2 client confEtcd.useBaseloc
          servlocation).1
      .ok {
        confEtcd := confEtcd
        servKey := servlocation
        distLoc := distloc
        servPath := sprintfPath confEtcd.useBaseloc distloc servlocation
        servList := ∅
        servCopy := ∅ }

/-- `ClientEtcdV2.ServKey`. -/
def ServKey (m : ClientEtcdV2 ServInfo) : Str := m.servKey

/-- `ClientEtcdV2.ServPath`. -/
def ServPath (m : ClientEtcdV2 ServInfo) : Str := m.servPath

end Construction

/-! ## Watch loop -/

section Watch
variable {ServInfo : Type}

/-- An operation of a fetch/watch attempt on its event channel. -/
inductive ChanOp where
  | send : Option Response → ChanOp
  | close : ChanOp

/-- How far an attempt has got: it has returned, it has panicked, or it is
still running (blocked in `watcher.Next` for a result not yet delivered). -/
inductive Ending where
  | returned : Ending
  | panicked : Ending
  | running : Ending
  deriving DecidableEq

/-- Lines 159-170: the loop of `startWatch` over the results of the successive
calls of `watcher.Next`, each a response pointer and whether `err` is non-nil.
The log line before the send reads `resp.Node.Nodes`, a nil dereference when
`resp` or `resp.Node` is nil. -/
def watchNext : List (Option Response × Bool) → List ChanOp × Ending
  | [] => ([], .running)
  | (resp, err) :: rest =>
    if err then ([.close], .returned)
    else
      match resp with
      | none => ([], .panicked)
      | some r =>
        match r.Node with
        | none => ([], .panicked)
        | some _ =>
          let (ops, e) := watchNext rest
          (.send resp :: ops, e)

/-- `ClientEtcdV2.startWatch`: the operations on `chg`, in order, and how the
function ends. `get` is the result `(r, err != nil)` of the initial
`m.etcdClient.Get`, `watcher` the result of `m.etcdClient.Watcher` (`none` is
nil) given as the results of its successive `Next` calls. A send is counted as
done when the coordinating loop, which receives whenever its channel is set,
takes it. -/
def startWatch (get : Option Response × Bool)
    (watcher : Option (List (Option Response × Bool))) : List ChanOp × Ending :=
  if get.2 then ([.close], .returned)
  else
    match get.1 with
    | none => ([.send none], .panicked)
    | some r =>
      match r.Node with
      | none => ([.send get.1], .panicked)
      | some _ =>
        match watcher with
        | none => ([.send get.1], .returned)
        | some nexts =>
          let (ops, e) := watchNext nexts
          (.send get.1 :: ops, e)

/-- What the receive `r, ok := <-chg` of the coordinating loop gives as its
`k`-th result on the channel of an attempt: an event, the closure of the
channel, nothing yet (the attempt is still running), or nothing ever (the
attempt has ended without closing the channel, so the receive blocks for
good). -/
inductive Recv where
  | event : Option Response → Recv
  | closed : Recv
  | pending : Recv
  | never : Recv

/-- The `k`-th receive on a channel given what its attempt does. -/
def recvAt (attempt : List ChanOp × Ending) (k : Nat) : Recv :=
  match attempt.1.get? k with
  | some (.send r) => .event r
  | some .close => .closed
  | none => if attempt.2 = .running then .pending else .never

/-- Modelled from the spec: the backoff controller of
`github.com/shawnfeng/sutil/stime`, which is outside this repository: an
exponential backoff controller with an initial delay and a cap (milliseconds)
and the delay of the next wait. -/
structure BackOffCtrl where
  step : Nat
  ceil : Nat
  cur : Nat
  deriving DecidableEq

/-- Modelled from the spec: `stime.NewBackOffCtrl(step, ceil)`, starting at the
initial delay. -/
def NewBackOffCtrl (step ceil : Nat) : BackOffCtrl := ⟨step, ceil, step⟩

/-- Modelled from the spec: `Reset()`, back to the initial delay. -/
def BackOffCtrl.Reset (b : BackOffCtrl) : BackOffCtrl := { b with cur := b.step }

/-- Modelled from the spec: `BackOff()`, one wait of the current delay followed
by its growth (by `grow`, doubling for instance) up to the cap. -/
def BackOffCtrl.BackOff (grow : Nat → Nat) (b : BackOffCtrl) : BackOffCtrl :=
  { b with cur := min b.ceil (grow b.cur) }

/-- The variables of the goroutine of `watch`: the channel `chg` (`none` is
nil, otherwise the number of the attempt it belongs to), the backoff
controller, the number of attempts started so far, and the resolver. -/
structure WatchState (ServInfo : Type) where
  chg : Option Nat
  backoff : BackOffCtrl
  attempts : Nat
  cli : ClientEtcdV2 ServInfo

/-- Line 177 and 179: the state in which the goroutine of `watch` starts. -/
def watchInit (m : ClientEtcdV2 ServInfo) : WatchState ServInfo :=
  { chg := none, backoff := NewBackOffCtrl 10 5000, attempts := 0, cli := m }

/-- Lines 185-189: `if chg == nil { chg = make(...); go m.startWatch(chg) }`. -/
def ensureAttempt (s : WatchState ServInfo) : WatchState ServInfo :=
  match s.chg with
  | none => { s with chg := some s.attempts, attempts := s.attempts + 1 }
  | some _ => s

/-- What one receive delivers to the loop: the closure of the channel, or an
event together with the store as `parseResponse` will read it. -/
inductive WatchInput where
  | closed : WatchInput
  | event : Option Response → (Str → Option Response) → WatchInput

/-- Lines 183-202: one iteration of the loop in the goroutine of `watch`, for a
receive that returns. The log line of the event branch reads `r.Node.Key`, a
nil dereference when `r` or `r.Node` is nil. -/
def watchStep (BASE_LOC_DIST BASE_LOC_DIST_V2 : Str)
    (unmarshalV1 : Str → Decoded (GoMap Str (Option ServInfo)))
    (unmarshalV2 : Str → Decoded (RegData ServInfo)) (grow : Nat → Nat)
    (input : WatchInput) (s : WatchState ServInfo) : Outcome (WatchState ServInfo) :=
  let s1 := ensureAttempt s
  match input with
  | .closed => .done { s1 with chg := none, backoff := s1.backoff.BackOff grow }
  | .event r etcdGet =>
    match r with
    | none => .panicked
    | some resp =>
      match resp.Node with
      | none => .panicked
      | some _ =>
        match parseResponse BASE_LOC_DIST BASE_LOC_DIST_V2 unmarshalV1 unmarshalV2 etcdGet
            s1.cli with
        | .panicked => .panicked
        | .done m2 => .done { s1 with cli := m2, backoff := s1.backoff.Reset }

/-- The loop of `watch` run over the inputs of its successive receives. -/
def watchRun (BASE_LOC_DIST BASE_LOC_DIST_V2 : Str)
    (unmarshalV1 : Str → Decoded (GoMap Str (Option ServInfo)))
    (unmarshalV2 : Str → Decoded (RegData ServInfo)) (grow : Nat → Nat) :
    List WatchInput → WatchState ServInfo → Outcome (WatchState ServInfo)
  | [], s => .done s
  | input :: rest, s =>
    match watchStep BASE_LOC_DIST BASE_LOC_DIST_V2 unmarshalV1 unmarshalV2 grow input s with
    | .panicked => .panicked
    | .done s2 => watchRun BASE_LOC_DIST BASE_LOC_DIST_V2 unmarshalV1 unmarshalV2 grow rest s2

end Watch

/-! ## The cache in memory

`GetAllServAddr` once more, this time on the objects the Go values refer to,
to tell a copy from an alias. -/

section Memory
variable {ServInfo : Type}

/-- The part of the memory `GetAllServAddr` works on. A slice of type
`[]*ServInfo` is a reference to its backing array, a map of type
`map[string][]*ServInfo` is a reference to a map object whose values are such
slices; a reference is the position of the object in the list of the objects
allocated so far, and an allocation appends to that list. The backing array of
a slice holds exactly the elements of the slice. -/
structure Heap (ServInfo : Type) where
  arrays : List (List (Option ServInfo))
  maps : List (GoMap Str Nat)

/-- The sequence a map reference (`none` is the nil map) holds for the key `k`:
what `m[k]` reads, element by element. -/
def Heap.seqAt (h : Heap ServInfo) (mref : Option Nat) (k : Str) :
    Option (List (Option ServInfo)) :=
  match mref with
  | none => none
  | some r =>
    match h.maps[r]? with
    | none => none
    | some mp => (mp.lookup k).map (fun a => (h.arrays[a]?).getD [])

/-- The references of the map `mref` and of its slices are allocated. -/
def Heap.allocated (h : Heap ServInfo) (mref : Option Nat) : Bool :=
  match mref with
  | none => true
  | some r =>
    match h.maps[r]? with
    | none => false
    | some mp => mp.entries.all (fun kv => decide (kv.2 < h.arrays.length))

/-- Lines 417-421: one iteration of the loop of `GetAllServAddr`:
`n := make([]*ServInfo, len(v)); copy(n, v); rv[k] = n`, on the arrays
allocated so far and the map `rv`. -/
def copyEntry (st : List (List (Option ServInfo)) × GoMap Str Nat)
    (kv : Sigma fun _ : Str => Nat) : List (List (Option ServInfo)) × GoMap Str Nat :=
  (st.1 ++ [(st.1[kv.2]?).getD []], st.2.insert kv.1 st.1.length)

/-- `ClientEtcdV2.GetAllServAddr` on the memory: `servList` is the map the
resolver's field refers to. The result is the memory after the call and the
reference of the returned map `rv`, which is allocated after all the maps
there were. -/
def GetAllServAddrH (h : Heap ServInfo) (servList : Option Nat) : Heap ServInfo × Nat :=
  let entries : List (Sigma fun _ : Str => Nat) :=
    match servList with
    | none => []
    | some r => ((h.maps[r]?).map (fun mp => mp.entries)).getD []
  let res := entries.foldl copyEntry (h.arrays, ∅)
  ({ arrays := res.1, maps := h.maps ++ [res.2] }, h.maps.length)

/-- Writing the map object `r`: adding, removing or replacing entries of that
map. -/
def Heap.setMap (h : Heap ServInfo) (r : Nat) (mp : GoMap Str Nat) : Heap ServInfo :=
  { h with maps := h.maps.set r mp }

/-- Writing the backing array `a`: replacing elements of the slices that refer
to it. -/
def Heap.setArray (h : Heap ServInfo) (a : Nat) (l : List (Option ServInfo)) : Heap ServInfo :=
  { h with arrays := h.arrays.set a l }

/-- The resolver `m` of the value embedding describes the memory `h` in which
its field `servList` refers to the map `mref`. -/
def Represents (m : ClientEtcdV2 ServInfo) (h : Heap ServInfo) (mref : Option Nat) : Prop :=
  ∀ k, m.servList.lookup k = h.seqAt mref k

end Memory

/-! ## Auxiliary definitions for the proofs -/

section Auxiliary
variable {ServInfo : Type}

/-- Appending `l` to the sequence stored in a map slot; an absent slot stays
absent when nothing is appended. -/
def extend {α : Type} (o : Option (List α)) (l : List α) : Option (List α) :=
  match l with
  | [] => o
  | _ :: _ => some (o.getD [] ++ l)

/-- The second loop of either parser once the document of every copy id is
known: `doc i` is what the decoder leaves for copy `i`. -/
def buildWith (doc : Int → RegData ServInfo) :
    List Int → servCopyCollect ServInfo → GoMap Str (List (Option ServInfo)) →
      servCopyCollect ServInfo × GoMap Str (List (Option ServInfo))
  | [], servCopy, servList => (servCopy, servList)
  | i :: rest, servCopy, servList =>
    buildWith doc rest (servCopy.insert i (some ⟨i, some (doc i)⟩))
      (addServs (doc i).Servs servList)

/-- The document `parseResponseV1` decodes for copy `i`. -/
def docV1 (unmarshal : Str → Decoded (GoMap Str (Option ServInfo))) (idServ : GoMap Int Str)
    (i : Int) : RegData ServInfo :=
  ⟨(unmarshal ((idServ.lookup i).getD [])).val⟩

/-- The document `parseResponseV2` decodes for copy `i` (when `idServ` has it). -/
def docV2 (unmarshal : Str → Decoded (RegData ServInfo)) (idServ : GoMap Int servCopyStr)
    (i : Int) : RegData ServInfo :=
  match idServ.lookup i with
  | some c => (unmarshal c.reg).val
  | none => ⟨∅⟩

/-- The last value produced by `upd` along a list, `o` when there is none:
what a slot holds after a loop that overwrites it whenever `upd` fires. -/
def lastSome {α β : Type} (upd : β → Option α) (l : List β) (o : Option α) : Option α :=
  l.foldl (fun a x => (upd x).or a) o

/-- The valid copy id a child is named by, if any. -/
def copyIdOf (rootKey : Str) (n : Node) : Option Int :=
  match childId rootKey n with
  | .done (some i) => some i
  | _ => none

/-- The registration string of a copy directory: the value of its last child
whose key is the directory's key followed by `/reg`. -/
def regOf (n : Node) : Option Str :=
  lastSome (fun nc => if nc.Key = n.Key ++ "/reg".toList then some nc.Value else none) n.Nodes none

/-- The copies of a V1 directory in the order of its children: copy id and
registration string. -/
def copiesV1 (rootKey : Str) (ns : List Node) : List (Int × Option Str) :=
  ns.filterMap (fun n => (copyIdOf rootKey n).map (fun i => (i, some n.Value)))

/-- The copies of a V2 directory in the order of its children: copy id and
registration string, `none` for a copy directory without a `reg` child. -/
def copiesV2 (rootKey : Str) (ns : List Node) : List (Int × Option Str) :=
  ns.filterMap (fun n => (copyIdOf rootKey n).map (fun i => (i, regOf n)))

/-- The registration string held for copy id `i` after the copies `cs` have
been stored one after the other over a slot holding `acc`. -/
def lastReg (cs : List (Int × Option Str)) (i : Int) (acc : Option Str) : Option Str :=
  lastSome (fun c => if c.1 = i then c.2 else none) cs acc

/-- The valid copy ids of a directory in the order of its children. -/
def copyIds (rootKey : Str) (ns : List Node) : List Int :=
  ns.filterMap (copyIdOf rootKey)

/-- The document `parseResponseV1` records for copy id `i`, given the copies. -/
def docOfV1 (unmarshal : Str → Decoded (GoMap Str (Option ServInfo)))
    (cs : List (Int × Option Str)) (i : Int) : RegData ServInfo :=
  ⟨(unmarshal ((lastReg cs i none).getD [])).val⟩

/-- The document `parseResponseV2` records for copy id `i`, given the copies. -/
def docOfV2 (unmarshal : Str → Decoded (RegData ServInfo))
    (cs : List (Int × Option Str)) (i : Int) : RegData ServInfo :=
  match lastReg cs i none with
  | some s => (unmarshal s).val
  | none => ⟨∅⟩

/-- The pointer `e` is what the document of copy `j` in the copy index stores
for processor `p`: copy `j` is an origin of `e`. -/
def originates (sc : servCopyCollect ServInfo) (p : Str) (j : Int) (e : Option ServInfo) : Prop :=
  ∃ c reg, sc.lookup j = some (some c) ∧ c.reg = some reg ∧ reg.Servs.lookup p = some e

/-- The data-model invariant of a snapshot: the copy ids are non-negative and
unique, and every sequence of the processor index lists endpoints of copies of
the copy index with strictly ascending copy ids (so at most one per copy). -/
def SnapshotInvariant (sc : servCopyCollect ServInfo)
    (sl : GoMap Str (List (Option ServInfo))) : Prop :=
  (∀ i ∈ sc.keys, 0 ≤ i) ∧ sc.keys.Nodup ∧
    ∀ p l, sl.lookup p = some l →
      ∃ js : List Int, js.Sorted (· < ·) ∧ List.Forall₂ (originates sc p) js l

end Auxiliary

/-! ## Example data -/

/-- A cache whose processor index holds three endpoints for the processor `p`. -/
def demoCache : ClientEtcdV2 Nat where
  confEtcd := ⟨[], "/roc".toList⟩
  servKey := "svc".toList
  servPath := "/roc/dist2/svc".toList
  distLoc := "dist2".toList
  servList := (∅ : GoMap Str (List (Option Nat))).insert "p".toList [some 10, some 12, some 15]
  servCopy :=
    (∅ : servCopyCollect Nat).insert 2
      (some ⟨2, some ⟨(∅ : GoMap Str (Option Nat)).insert "p".toList (some 12)⟩⟩)

/-- A leaf node. -/
def leaf (key value : String) : Node := .mk key.toList false value.toList []

/-- A directory node. -/
def dir (key : String) (nodes : List Node) : Node := .mk key.toList true [] nodes

/-- The documents of the examples, endpoints being numbers: `{}` is the empty
document and `{"p":d}` with one decimal digit `d` gives processor `p` the
endpoint `d`; every other text is taken as undecodable. -/
def demoServs (s : Str) : Option (GoMap Str (Option Nat)) :=
  if s = "\x7b\x7d".toList then some ∅
  else
    match s.drop 5 with
    | [d, c] =>
      if s.take 5 = "\x7b\"p\":".toList ∧ [c] = "\x7d".toList ∧ d.isDigit = true then
        some ((∅ : GoMap Str (Option Nat)).insert "p".toList (some (d.toNat - '0'.toNat)))
      else none
    | _ => none

/-- Example decoder into `map[string]*ServInfo`: a text that is not decodable
gives an error and leaves the nil map. -/
def demoUnmarshalV1 (s : Str) : Decoded (GoMap Str (Option Nat)) :=
  match demoServs s with
  | some d => ⟨d, false⟩
  | none => ⟨∅, true⟩

/-- Example decoder into `RegData`: the text `{"servs":D}` with `D` a
document of `demoServs`; anything else gives an error and leaves the zero
value. -/
def demoUnmarshalV2 (s : Str) : Decoded (RegData Nat) :=
  let inner := (s.drop 9).dropLast
  if s = "\x7b\"servs\":".toList ++ inner ++ "\x7d".toList then
    match demoServs inner with
    | some d => ⟨⟨d⟩, false⟩
    | none => ⟨⟨∅⟩, true⟩
  else ⟨⟨∅⟩, true⟩

/-- A V1 directory with the copies 5, 0 and 2 (in this order), each declaring
processor `p`. -/
def demoTreeV1 : Node :=
  dir "/roc/dist/svc"
    [leaf "/roc/dist/svc/5" "\x7b\"p\":5\x7d", leaf "/roc/dist/svc/0" "\x7b\"p\":0\x7d",
     leaf "/roc/dist/svc/2" "\x7b\"p\":2\x7d"]

/-- A V2 directory with the copies 5, 0 and 2 (in this order), each declaring
processor `p`. -/
def demoTreeV2 : Node :=
  dir "/roc/dist2/svc"
    [dir "/roc/dist2/svc/5" [leaf "/roc/dist2/svc/5/reg" "\x7b\"servs\":\x7b\"p\":5\x7d\x7d"],
     dir "/roc/dist2/svc/0" [leaf "/roc/dist2/svc/0/reg" "\x7b\"servs\":\x7b\"p\":0\x7d\x7d"],
     dir "/roc/dist2/svc/2" [leaf "/roc/dist2/svc/2/reg" "\x7b\"servs\":\x7b\"p\":2\x7d\x7d"]]

/-- A V1 directory in which the names `1` and `01` denote the same copy id. -/
def demoTreeDup : Node :=
  dir "/roc/dist/svc"
    [leaf "/roc/dist/svc/1" "\x7b\"p\":7\x7d", leaf "/roc/dist/svc/01" "\x7b\"p\":7\x7d"]

/-- A V2 directory whose copy 0 has a `reg` child and whose copy directory 1
has none. -/
def demoTreeNoReg : Node :=
  dir "/roc/dist2/svc"
    [dir "/roc/dist2/svc/0" [leaf "/roc/dist2/svc/0/reg" "\x7b\"servs\":\x7b\"p\":0\x7d\x7d"],
     dir "/roc/dist2/svc/1" []]

/-- A V2 directory with the valid copy directory 1 followed by a leaf. -/
def demoTreeLeaf : Node :=
  dir "/roc/dist2/svc"
    [dir "/roc/dist2/svc/1" [leaf "/roc/dist2/svc/1/reg" "\x7b\"servs\":\x7b\"p\":1\x7d\x7d"],
     leaf "/roc/dist2/svc/note" "x"]

/-- A V1 directory with the copies 2 and 0 around a child with a non-numeric
name. -/
def demoTreeBadName : Node :=
  dir "/roc/dist/svc"
    [leaf "/roc/dist/svc/2" "\x7b\"p\":2\x7d", leaf "/roc/dist/svc/tmp" "\x7b\"p\":9\x7d",
     leaf "/roc/dist/svc/0" "\x7b\"p\":0\x7d"]

/-- A V2 directory with the copies 2 and 0 around a directory with a negative
name. -/
def demoTreeNegName : Node :=
  dir "/roc/dist2/svc"
    [dir "/roc/dist2/svc/2" [leaf "/roc/dist2/svc/2/reg" "\x7b\"servs\":\x7b\"p\":2\x7d\x7d"],
     dir "/roc/dist2/svc/-1" [leaf "/roc/dist2/svc/-1/reg" "\x7b\"servs\":\x7b\"p\":9\x7d\x7d"],
     dir "/roc/dist2/svc/0" [leaf "/roc/dist2/svc/0/reg" "\x7b\"servs\":\x7b\"p\":0\x7d\x7d"]]

/-- A cache whose schema tag is neither of the two known ones. -/
def demoCacheOtherTag : ClientEtcdV2 Nat :=
  { demoCache with distLoc := "dist3".toList }

/-- A V1 directory whose only children have invalid copy-id names. -/
def demoTreeNoCopies : Node :=
  dir "/roc/dist/svc" [leaf "/roc/dist/svc/tmp" "x", leaf "/roc/dist/svc/-4" "y"]

/-- A V2 directory whose only children are directories with invalid copy-id
names. -/
def demoTreeNoCopiesV2 : Node :=
  dir "/roc/dist2/svc"
    [dir "/roc/dist2/svc/tmp" [leaf "/roc/dist2/svc/tmp/reg" "x"], dir "/roc/dist2/svc/-4" []]

/-- A V1 directory whose copy 0 holds a text that is not JSON and whose copy 1
holds a decodable document. -/
def demoTreeUndecodable : Node :=
  dir "/roc/dist/svc" [leaf "/roc/dist/svc/0" "oops", leaf "/roc/dist/svc/1" "\x7b\"p\":1\x7d"]

/-- A V2 directory whose copy 0 has a `reg` text that is not JSON and whose
copy 1 has a decodable one. -/
def demoTreeUndecodableV2 : Node :=
  dir "/roc/dist2/svc"
    [dir "/roc/dist2/svc/0" [leaf "/roc/dist2/svc/0/reg" "oops"],
     dir "/roc/dist2/svc/1" [leaf "/roc/dist2/svc/1/reg" "\x7b\"servs\":\x7b\"p\":1\x7d\x7d"]]

/-- A V2 directory with the copy directory 2 and a leaf child with the
non-numeric name `tmp`. -/
def demoTreeLeafBadName : Node :=
  dir "/roc/dist2/svc"
    [dir "/roc/dist2/svc/2" [leaf "/roc/dist2/svc/2/reg" "\x7b\"servs\":\x7b\"p\":2\x7d\x7d"],
     leaf "/roc/dist2/svc/tmp" "x"]

/-- A V2 directory whose only child is a leaf with the non-numeric name `tmp`. -/
def demoTreeOnlyLeaf : Node :=
  dir "/roc/dist2/svc" [leaf "/roc/dist2/svc/tmp" "x"]

/-- A store in which only the V1 directory of `svc` exists. -/
def demoGetV1Only (path : Str) : Bool := path = "/roc/dist/svc".toList

/-- The copies of `demoTreeV2` in the order 2, 5, 0. -/
def demoTreeV2Shuffled : Node :=
  dir "/roc/dist2/svc"
    [dir "/roc/dist2/svc/2" [leaf "/roc/dist2/svc/2/reg" "\x7b\"servs\":\x7b\"p\":2\x7d\x7d"],
     dir "/roc/dist2/svc/5" [leaf "/roc/dist2/svc/5/reg" "\x7b\"servs\":\x7b\"p\":5\x7d\x7d"],
     dir "/roc/dist2/svc/0" [leaf "/roc/dist2/svc/0/reg" "\x7b\"servs\":\x7b\"p\":0\x7d\x7d"]]

/-- A V1 directory whose copy 0 holds the empty document `{}` and whose copy 1
declares `p`. -/
def demoTreeEmptyDoc : Node :=
  dir "/roc/dist/svc"
    [leaf "/roc/dist/svc/0" "\x7b\x7d", leaf "/roc/dist/svc/1" "\x7b\"p\":1\x7d"]

/-- A V2 directory whose copy 0 holds the empty document and whose copy 1
declares `p`. -/
def demoTreeEmptyDocV2 : Node :=
  dir "/roc/dist2/svc"
    [dir "/roc/dist2/svc/0" [leaf "/roc/dist2/svc/0/reg" "\x7b\"servs\":\x7b\x7d\x7d"],
     dir "/roc/dist2/svc/1" [leaf "/roc/dist2/svc/1/reg" "\x7b\"servs\":\x7b\"p\":1\x7d\x7d"]]

/-- A memory holding the backing array `[10, 12, 15]` and one map object that
maps `p` to the slice on that array: the processor index of `demoCache`. -/
def demoHeap : Heap Nat where
  arrays := [[some 10, some 12, some 15]]
  maps := [(∅ : GoMap Str Nat).insert "p".toList 0]

/-- A V1 directory in which the names `0` and `00` denote the same copy id: the
first child holds the empty document `{}`, the second declares `p`. -/
def demoTreeEmptyDocDup : Node :=
  dir "/roc/dist/svc"
    [leaf "/roc/dist/svc/0" "\x7b\x7d", leaf "/roc/dist/svc/00" "\x7b\"p\":5\x7d"]

/-! ## Lemmas about the parsers -/

section ParserLemmas
variable {ServInfo : Type}

theorem extend_nil {α : Type} (o : Option (List α)) : extend o [] = o := by
  simp [extend]

theorem extend_extend {α : Type} (o : Option (List α)) (l₁ l₂ : List α) :
    extend (extend o l₁) l₂ = extend o (l₁ ++ l₂) := by
  cases l₁ <;> cases l₂ <;> simp [extend]

/-- One iteration of the loop in `addServs`. -/
theorem addServs_step_lookup (sl : GoMap Str (List (Option ServInfo))) (k : Str)
    (v : Option ServInfo) (p : Str) :
    ((if (sl.lookup k).isSome then sl else sl.insert k []).insert k
        (((if (sl.lookup k).isSome then sl else sl.insert k []).lookup k).getD [] ++ [v])).lookup p
      = if p = k then some ((sl.lookup k).getD [] ++ [v]) else sl.lookup p := by
  by_cases hpk : p = k
  · subst hpk
    rw [AList.lookup_insert, if_pos rfl]
    cases h : sl.lookup p with
    | none => simp [AList.lookup_insert]
    | some l => simp [h]
  · rw [AList.lookup_insert_ne hpk, if_neg hpk]
    cases h : sl.lookup k with
    | none => simp [AList.lookup_insert_ne hpk]
    | some l => simp

theorem addServs_fold_lookup (l : List (Sigma fun _ : Str => Option ServInfo))
    (nd : l.NodupKeys) (sl : GoMap Str (List (Option ServInfo))) (p : Str) :
    (l.foldl
      (fun sl kv =>
        let sl1 := if (sl.lookup kv.1).isSome then sl else sl.insert kv.1 []
        sl1.insert kv.1 ((sl1.lookup kv.1).getD [] ++ [kv.2]))
      sl).lookup p = extend (sl.lookup p) (l.dlookup p).toList := by
  induction l generalizing sl with
  | nil => simp [extend]
  | cons kv t ih =>
    obtain ⟨k, v⟩ := kv
    have hk : k ∉ t.keys := List.not_mem_keys_of_nodupKeys_cons nd
    have ht : t.NodupKeys := List.nodupKeys_of_nodupKeys_cons nd
    rw [List.foldl_cons, ih ht]
    simp only []
    rw [addServs_step_lookup]
    by_cases hpk : p = k
    · subst hpk
      rw [if_pos rfl, List.dlookup_cons_eq, List.dlookup_eq_none.mpr hk]
      simp [extend]
    · rw [if_neg hpk, List.dlookup_cons_ne _ _ hpk]

/-- The processor index after one document has been added. -/
theorem addServs_lookup (servs : GoMap Str (Option ServInfo))
    (sl : GoMap Str (List (Option ServInfo))) (p : Str) :
    (addServs servs sl).lookup p = extend (sl.lookup p) (servs.lookup p).toList :=
  addServs_fold_lookup servs.entries servs.nodupKeys sl p

theorem buildV1_eq (unmarshal : Str → Decoded (GoMap Str (Option ServInfo)))
    (idServ : GoMap Int Str) (ids : List Int) (sc : servCopyCollect ServInfo)
    (sl : GoMap Str (List (Option ServInfo))) :
    buildV1 unmarshal idServ ids sc sl = buildWith (docV1 unmarshal idServ) ids sc sl := by
  induction ids generalizing sc sl with
  | nil => rfl
  | cons i rest ih => simp only [buildV1, buildWith, docV1, ih]

theorem buildV2_eq (unmarshal : Str → Decoded (RegData ServInfo))
    (idServ : GoMap Int servCopyStr) (ids : List Int) (sc : servCopyCollect ServInfo)
    (sl : GoMap Str (List (Option ServInfo))) :
    buildV2 unmarshal idServ ids sc sl =
      if ids.all (fun i => (idServ.lookup i).isSome) then
        .done (buildWith (docV2 unmarshal idServ) ids sc sl)
      else .panicked := by
  induction ids generalizing sc sl with
  | nil => rfl
  | cons i rest ih =>
    cases h : idServ.lookup i with
    | none => simp [buildV2, h]
    | some c => simp [buildV2, buildWith, docV2, h, ih]

theorem buildWith_servList (doc : Int → RegData ServInfo) (ids : List Int)
    (sc : servCopyCollect ServInfo) (sl : GoMap Str (List (Option ServInfo))) (p : Str) :
    (buildWith doc ids sc sl).2.lookup p =
      extend (sl.lookup p) (ids.filterMap (fun i => (doc i).Servs.lookup p)) := by
  induction ids generalizing sc sl with
  | nil => simp [buildWith, extend]
  | cons i rest ih =>
    rw [buildWith, ih, addServs_lookup, extend_extend]
    cases h : (doc i).Servs.lookup p <;> simp [List.filterMap_cons, h]

theorem buildWith_servCopy (doc : Int → RegData ServInfo) (ids : List Int)
    (sc : servCopyCollect ServInfo) (sl : GoMap Str (List (Option ServInfo))) (i : Int) :
    (buildWith doc ids sc sl).1.lookup i =
      if i ∈ ids then some (some ⟨i, some (doc i)⟩) else sc.lookup i := by
  induction ids generalizing sc sl with
  | nil => simp [buildWith]
  | cons j rest ih =>
    rw [buildWith, ih]
    by_cases hr : i ∈ rest
    · simp [hr]
    · by_cases hij : i = j
      · subst hij
        simp [hr, AList.lookup_insert]
      · simp [hr, hij, AList.lookup_insert_ne hij]

theorem lastSome_init {α β : Type} (upd : β → Option α) (l : List β) (o : Option α) :
    lastSome upd l o = (lastSome upd l none).or o := by
  induction l generalizing o with
  | nil => simp [lastSome]
  | cons x t ih =>
    have h1 : lastSome upd (x :: t) o = lastSome upd t ((upd x).or o) := rfl
    have h2 : lastSome upd (x :: t) none = lastSome upd t ((upd x).or none) := rfl
    rw [h1, h2, ih ((upd x).or o), ih ((upd x).or none), Option.or_none, Option.or_assoc]

theorem lastSome_cons {α β : Type} (upd : β → Option α) (x : β) (t : List β) (o : Option α) :
    lastSome upd (x :: t) o = lastSome upd t ((upd x).or o) := rfl

theorem regLoop_fold (key : Str) (id : Int) (l : List Node) (acc : GoMap Int servCopyStr)
    (j : Int) :
    ((l.foldl (fun acc nc => if nc.Key = key then acc.insert id ⟨id, nc.Value⟩ else acc)
        acc).lookup j).map servCopyStr.reg =
      if j = id then
        (lastSome (fun nc => if nc.Key = key then some nc.Value else none) l none).or
          ((acc.lookup j).map servCopyStr.reg)
      else (acc.lookup j).map servCopyStr.reg := by
  induction l generalizing acc with
  | nil => simp [lastSome]
  | cons nc t ih =>
    rw [List.foldl_cons, ih, lastSome_cons]
    by_cases hk : nc.Key = key
    · by_cases hj : j = id
      · subst hj
        simp only [hk, if_true, AList.lookup_insert, Option.map_some', Option.or_none]
        rw [lastSome_init _ t (some nc.Value), Option.or_assoc]
        simp
      · simp [hk, hj, AList.lookup_insert_ne hj]
    · simp [hk]

theorem regLoop_lookup (n : Node) (id : Int) (idServ : GoMap Int servCopyStr) (j : Int) :
    ((regLoop n id idServ).lookup j).map servCopyStr.reg =
      if j = id then (regOf n).or ((idServ.lookup j).map servCopyStr.reg)
      else (idServ.lookup j).map servCopyStr.reg :=
  regLoop_fold (n.Key ++ "/reg".toList) id n.Nodes idServ j

theorem copyIdOf_of_childId {rootKey : Str} {n : Node} {o : Option Int}
    (h : childId rootKey n = .done o) : copyIdOf rootKey n = o := by
  cases o <;> simp [copyIdOf, h]

theorem collectV1_spec (rootKey : Str) (ns : List Node) (idServ : GoMap Int Str)
    (ids : List Int) (r : GoMap Int Str × List Int)
    (h : collectV1 rootKey ns idServ ids = .done r) :
    r.2 = ids ++ (copiesV1 rootKey ns).map Prod.fst ∧
      ∀ i, r.1.lookup i = lastReg (copiesV1 rootKey ns) i (idServ.lookup i) := by
  induction ns generalizing idServ ids with
  | nil =>
    simp only [collectV1, Outcome.done.injEq] at h
    subst h
    simp [copiesV1, lastReg, lastSome]
  | cons n rest ih =>
    cases hc : childId rootKey n with
    | panicked => simp [collectV1, hc] at h
    | done o =>
      have hid := copyIdOf_of_childId hc
      cases o with
      | none =>
        simp only [collectV1, hc] at h
        have := ih idServ ids h
        simpa [copiesV1, hid] using this
      | some id =>
        simp only [collectV1, hc] at h
        obtain ⟨h1, h2⟩ := ih _ _ h
        refine ⟨?_, ?_⟩
        · simp [copiesV1, hid, h1] 
        · intro i
          rw [h2 i]
          by_cases hi : i = id
          · subst hi
            simp [copiesV1, hid, lastReg, lastSome_cons, AList.lookup_insert]
          · have hi2 : ¬ id = i := fun e => hi e.symm
            simp [copiesV1, hid, lastReg, lastSome_cons, AList.lookup_insert_ne hi, hi2]

theorem collectV1_total (rootKey : Str) (ns : List Node) (idServ : GoMap Int Str)
    (ids : List Int) (h : ∀ n ∈ ns, childId rootKey n ≠ .panicked) :
    ∃ r, collectV1 rootKey ns idServ ids = .done r := by
  induction ns generalizing idServ ids with
  | nil => exact ⟨_, rfl⟩
  | cons n rest ih =>
    have hrest : ∀ x ∈ rest, childId rootKey x ≠ .panicked :=
      fun x hx => h x (List.mem_cons_of_mem _ hx)
    cases hc : childId rootKey n with
    | panicked => exact absurd hc (h n (List.mem_cons_self _ _))
    | done o =>
      cases o with
      | none => simpa [collectV1, hc] using ih idServ ids hrest
      | some id => simpa [collectV1, hc] using ih _ _ hrest

theorem collectV2_spec (rootKey : Str) (ns : List Node) (idServ : GoMap Int servCopyStr)
    (ids : List Int) (r : GoMap Int servCopyStr × List Int)
    (h : collectV2 rootKey ns idServ ids = .continued r) :
    r.2 = ids ++ (copiesV2 rootKey ns).map Prod.fst ∧
      ∀ i, (r.1.lookup i).map servCopyStr.reg =
        lastReg (copiesV2 rootKey ns) i ((idServ.lookup i).map servCopyStr.reg) := by
  induction ns generalizing idServ ids with
  | nil =>
    simp only [collectV2, Flow.continued.injEq] at h
    subst h
    simp [copiesV2, lastReg, lastSome]
  | cons n rest ih =>
    cases hd : n.Dir with
    | false => simp [collectV2, hd] at h
    | true =>
      cases hc : childId rootKey n with
      | panicked => simp [collectV2, hd, hc] at h
      | done o =>
        have hid := copyIdOf_of_childId hc
        cases o with
        | none =>
          simp only [collectV2, hd, hc] at h
          have := ih idServ ids (by simpa using h)
          simpa [copiesV2, hid] using this
        | some id =>
          simp only [collectV2, hd, hc] at h
          obtain ⟨h1, h2⟩ := ih _ _ (by simpa using h)
          refine ⟨?_, ?_⟩
          · simp [copiesV2, hid, h1]
          · intro i
            rw [h2 i, regLoop_lookup]
            by_cases hi : i = id
            · subst hi
              simp [copiesV2, hid, lastReg, lastSome_cons]
            · have hi2 : ¬ id = i := fun e => hi e.symm
              simp [copiesV2, hid, lastReg, lastSome_cons, hi, hi2]

theorem collectV2_total (rootKey : Str) (ns : List Node) (idServ : GoMap Int servCopyStr)
    (ids : List Int) (h : ∀ n ∈ ns, n.Dir = true ∧ childId rootKey n ≠ .panicked) :
    ∃ r, collectV2 rootKey ns idServ ids = .continued r := by
  induction ns generalizing idServ ids with
  | nil => exact ⟨_, rfl⟩
  | cons n rest ih =>
    have hrest : ∀ x ∈ rest, x.Dir = true ∧ childId rootKey x ≠ .panicked :=
      fun x hx => h x (List.mem_cons_of_mem _ hx)
    obtain ⟨hd, hp⟩ := h n (List.mem_cons_self _ _)
    cases hc : childId rootKey n with
    | panicked => exact absurd hc hp
    | done o =>
      cases o with
      | none => simpa [collectV2, hc, hd] using ih idServ ids hrest
      | some id => simpa [collectV2, hc, hd] using ih _ _ hrest

theorem copiesV1_ids (rootKey : Str) (ns : List Node) :
    (copiesV1 rootKey ns).map Prod.fst = copyIds rootKey ns := by
  induction ns with
  | nil => rfl
  | cons n rest ih =>
    cases h : copyIdOf rootKey n <;> simp_all [copiesV1, copyIds, List.filterMap_cons]

theorem copiesV2_ids (rootKey : Str) (ns : List Node) :
    (copiesV2 rootKey ns).map Prod.fst = copyIds rootKey ns := by
  induction ns with
  | nil => rfl
  | cons n rest ih =>
    cases h : copyIdOf rootKey n <;> simp_all [copiesV2, copyIds, List.filterMap_cons]

theorem copyIdOf_nonneg {rootKey : Str} {n : Node} {i : Int}
    (h : copyIdOf rootKey n = some i) : 0 ≤ i := by
  unfold copyIdOf childId at h
  cases hs : sliceFrom n.Key (rootKey.length + 1) with
  | none => simp [hs] at h
  | some sid =>
    cases ha : Atoi sid with
    | none => simp [hs, ha] at h
    | some id =>
      by_cases hneg : id < 0
      · simp [hs, ha, hneg] at h
      · simp [hs, ha, hneg] at h
        omega

theorem copyIds_nonneg {rootKey : Str} {ns : List Node} {i : Int}
    (h : i ∈ copyIds rootKey ns) : 0 ≤ i := by
  obtain ⟨n, _, hn⟩ := List.mem_filterMap.mp h
  exact copyIdOf_nonneg hn

theorem mem_sort_iff (ids : List Int) (i : Int) :
    i ∈ ids.insertionSort (· ≤ ·) ↔ i ∈ ids :=
  (List.perm_insertionSort (· ≤ ·) ids).mem_iff

/-- What `parseResponseV1` hands to `upServlist`. -/
theorem parseV1_spec (unmarshal : Str → Decoded (GoMap Str (Option ServInfo))) (root : Node)
    (snap : servCopyCollect ServInfo × GoMap Str (List (Option ServInfo)))
    (h : parseV1 unmarshal root = .continued snap) :
    snap = buildWith (docOfV1 unmarshal (copiesV1 root.Key root.Nodes))
      ((copyIds root.Key root.Nodes).insertionSort (· ≤ ·)) ∅ ∅ := by
  unfold parseV1 at h
  cases hc : collectV1 root.Key root.Nodes ∅ [] with
  | panicked => simp [hc] at h
  | done r =>
    obtain ⟨idServ, ids⟩ := r
    obtain ⟨h1, h2⟩ := collectV1_spec _ _ _ _ _ hc
    simp only [hc, Flow.continued.injEq] at h
    have hdoc : docV1 unmarshal idServ = docOfV1 unmarshal (copiesV1 root.Key root.Nodes) := by
      funext i
      simp only [docV1, docOfV1]
      rw [h2 i]
      rfl
    simp only [List.nil_append] at h1
    rw [← h, buildV1_eq, hdoc, h1, copiesV1_ids]

theorem parseV1_total (unmarshal : Str → Decoded (GoMap Str (Option ServInfo))) (root : Node)
    (hp : ∀ n ∈ root.Nodes, childId root.Key n ≠ .panicked) :
    ∃ snap, parseV1 unmarshal root = .continued snap := by
  obtain ⟨r, hr⟩ := collectV1_total root.Key root.Nodes ∅ [] hp
  exact ⟨buildV1 unmarshal r.1 (r.2.insertionSort (· ≤ ·)) ∅ ∅, by simp only [parseV1, hr]⟩

/-- What `parseResponseV2` hands to `upServlist`, and that every collected copy
id then has a registration string. -/
theorem parseV2_spec (unmarshal : Str → Decoded (RegData ServInfo)) (root : Node)
    (snap : servCopyCollect ServInfo × GoMap Str (List (Option ServInfo)))
    (h : parseV2 unmarshal root = .continued snap) :
    (∀ i ∈ copyIds root.Key root.Nodes,
        (lastReg (copiesV2 root.Key root.Nodes) i none).isSome = true) ∧
    snap = buildWith (docOfV2 unmarshal (copiesV2 root.Key root.Nodes))
      ((copyIds root.Key root.Nodes).insertionSort (· ≤ ·)) ∅ ∅ := by
  unfold parseV2 at h
  cases hc : collectV2 root.Key root.Nodes ∅ [] with
  | panicked => simp [hc] at h
  | returned => simp [hc] at h
  | continued r =>
    obtain ⟨idServ, ids⟩ := r
    obtain ⟨h1, h2⟩ := collectV2_spec _ _ _ _ _ hc
    simp only [List.nil_append] at h1
    have h2' : ∀ i, (idServ.lookup i).map servCopyStr.reg =
        lastReg (copiesV2 root.Key root.Nodes) i none := by
      intro i
      rw [h2 i]
      rfl
    have hdoc : docV2 unmarshal idServ = docOfV2 unmarshal (copiesV2 root.Key root.Nodes) := by
      funext i
      simp only [docV2, docOfV2]
      rw [← h2' i]
      cases idServ.lookup i <;> rfl
    simp only [hc, buildV2_eq] at h
    by_cases hall : (ids.insertionSort (· ≤ ·)).all (fun i => (idServ.lookup i).isSome) = true
    · rw [if_pos hall] at h
      simp only [Flow.continued.injEq] at h
      refine ⟨?_, ?_⟩
      · intro i hi
        rw [← h2' i]
        have := List.all_eq_true.mp hall i
          ((mem_sort_iff ids i).mpr (by rw [h1, copiesV2_ids]; exact hi))
        simpa using this
      · rw [← h, hdoc, h1, copiesV2_ids]
    · rw [if_neg hall] at h
      simp at h

theorem parseV2_total (unmarshal : Str → Decoded (RegData ServInfo)) (root : Node)
    (hp : ∀ n ∈ root.Nodes, n.Dir = true ∧ childId root.Key n ≠ .panicked)
    (hreg : ∀ i ∈ copyIds root.Key root.Nodes,
      (lastReg (copiesV2 root.Key root.Nodes) i none).isSome = true) :
    ∃ snap, parseV2 unmarshal root = .continued snap := by
  obtain ⟨r, hr⟩ := collectV2_total root.Key root.Nodes ∅ [] hp
  obtain ⟨idServ, ids⟩ := r
  obtain ⟨h1, h2⟩ := collectV2_spec _ _ _ _ _ hr
  simp only [List.nil_append] at h1
  have hall : (ids.insertionSort (· ≤ ·)).all (fun i => (idServ.lookup i).isSome) = true := by
    apply List.all_eq_true.mpr
    intro i hi
    have hi' : i ∈ copyIds root.Key root.Nodes := by
      rw [← copiesV2_ids, ← h1]
      exact (mem_sort_iff ids i).mp hi
    have := hreg i hi'
    have h3 : (idServ.lookup i).map servCopyStr.reg =
        lastReg (copiesV2 root.Key root.Nodes) i none := by
      rw [h2 i]
      rfl
    rw [← h3] at this
    simpa using this
  exact ⟨buildWith (docV2 unmarshal idServ) (ids.insertionSort (· ≤ ·)) ∅ ∅,
    by simp only [parseV2, hr, buildV2_eq, if_pos hall]⟩

theorem lastReg_map_some (cs : List (Int × Str)) (hnd : (cs.map Prod.fst).Nodup) (i : Int)
    (acc : Option Str) :
    lastReg (cs.map (fun c => (c.1, some c.2))) i acc = (cs.lookup i).or acc := by
  induction cs generalizing acc with
  | nil => simp [lastReg, lastSome]
  | cons c t ih =>
    obtain ⟨j, s⟩ := c
    have hnd' : (t.map Prod.fst).Nodup := (List.nodup_cons.mp hnd).2
    have hj : j ∉ t.map Prod.fst := (List.nodup_cons.mp hnd).1
    have hstep : lastReg (((j, s) :: t).map (fun c => (c.1, some c.2))) i acc =
        lastReg (t.map (fun c => (c.1, some c.2))) i ((if j = i then some s else none).or acc) :=
      rfl
    rw [hstep, ih hnd']
    by_cases hji : j = i
    · subst hji
      have hnone : t.lookup j = none := by
        rw [List.lookup_eq_none_iff]
        intro p hp
        have hne : j ≠ p.1 := fun e => hj (List.mem_map.mpr ⟨p, hp, e.symm⟩)
        simpa using hne
      simp [hnone, List.lookup_cons]
    · have hij : (i == j) = false := by simpa using fun e : i = j => hji e.symm
      simp [hji, List.lookup_cons, hij]

theorem lookup_isSome_of_mem (cs : List (Int × Str)) (i : Int) (h : i ∈ cs.map Prod.fst) :
    ∃ s, cs.lookup i = some s := by
  induction cs with
  | nil => simp at h
  | cons c t ih =>
    obtain ⟨j, s⟩ := c
    by_cases hij : i = j
    · subst hij
      exact ⟨s, by simp [List.lookup_cons]⟩
    · have hbeq : (i == j) = false := by simpa using hij
      have ht : i ∈ t.map Prod.fst := by
        rw [List.map_cons] at h
        rcases List.mem_cons.mp h with e | e
        · exact absurd e hij
        · exact e
      obtain ⟨s', hs'⟩ := ih ht
      exact ⟨s', by simp [List.lookup_cons, hbeq, hs']⟩

theorem forall2_copiesV1 (rootKey : Str) (ns : List Node) (cs : List (Int × Str))
    (h : List.Forall₂ (fun n c => childId rootKey n = .done (some c.1) ∧ n.Value = c.2) ns cs) :
    copiesV1 rootKey ns = cs.map (fun c => (c.1, some c.2)) ∧
      ∀ n ∈ ns, childId rootKey n ≠ .panicked := by
  induction h with
  | nil => exact ⟨rfl, by simp⟩
  | cons hc _ ih =>
    obtain ⟨hid, hv⟩ := hc
    refine ⟨?_, ?_⟩
    · have := copyIdOf_of_childId hid
      simp only [copiesV1, List.filterMap_cons, this, Option.map_some', List.map_cons, hv]
      exact congrArg _ ih.1
    · intro n hn
      rcases List.mem_cons.mp hn with rfl | hn
      · rw [hid]; simp
      · exact ih.2 n hn

theorem forall2_copiesV2 (rootKey : Str) (ns : List Node) (cs : List (Int × Str))
    (h : List.Forall₂
      (fun n c => n.Dir = true ∧ childId rootKey n = .done (some c.1) ∧ regOf n = some c.2)
      ns cs) :
    copiesV2 rootKey ns = cs.map (fun c => (c.1, some c.2)) ∧
      ∀ n ∈ ns, n.Dir = true ∧ childId rootKey n ≠ .panicked := by
  induction h with
  | nil => exact ⟨rfl, by simp⟩
  | cons hc _ ih =>
    obtain ⟨hd, hid, hv⟩ := hc
    refine ⟨?_, ?_⟩
    · have := copyIdOf_of_childId hid
      simp only [copiesV2, List.filterMap_cons, this, Option.map_some', List.map_cons, hv]
      exact congrArg _ ih.1
    · intro n hn
      rcases List.mem_cons.mp hn with rfl | hn
      · exact ⟨hd, by rw [hid]; simp⟩
      · exact ih.2 n hn

theorem map_fst_map_some (cs : List (Int × Str)) :
    (cs.map (fun c => ((c.1, some c.2) : Int × Option Str))).map Prod.fst = cs.map Prod.fst := by
  simp [List.map_map, Function.comp_def]

theorem extend_none_eq_some {α : Type} {l l' : List α} (h : extend none l = some l') :
    l = l' := by
  cases l with
  | nil => simp [extend] at h
  | cons a t => simpa [extend] using h

theorem forall2_filter_filterMap {α β : Type} (f : α → Option β) (P : α → Prop) (l : List α)
    (hP : ∀ a ∈ l, P a) :
    List.Forall₂ (fun a b => P a ∧ f a = some b) (l.filter (fun a => (f a).isSome))
      (l.filterMap f) := by
  induction l with
  | nil => exact List.Forall₂.nil
  | cons a t ih =>
    have ht := ih (fun x hx => hP x (List.mem_cons_of_mem _ hx))
    cases h : f a with
    | none => simpa [List.filter_cons, List.filterMap_cons, h] using ht
    | some b =>
      simp only [List.filter_cons, List.filterMap_cons, h, Option.isSome_some, if_true]
      exact List.Forall₂.cons ⟨hP a (List.mem_cons_self _ _), h⟩ ht

theorem buildWith_keys (doc : Int → RegData ServInfo) (ids : List Int) (i : Int) :
    i ∈ (buildWith doc ids (∅ : servCopyCollect ServInfo) ∅).1.keys ↔ i ∈ ids := by
  rw [← AList.mem_keys, ← AList.lookup_isSome, buildWith_servCopy]
  by_cases h : i ∈ ids <;> simp [h]

theorem buildWith_invariant (doc : Int → RegData ServInfo) (ids : List Int)
    (hs : ids.Sorted (· < ·)) (h0 : ∀ i ∈ ids, 0 ≤ i) :
    SnapshotInvariant (buildWith doc ids (∅ : servCopyCollect ServInfo) ∅).1
      (buildWith doc ids (∅ : servCopyCollect ServInfo) ∅).2 := by
  refine ⟨?_, AList.keys_nodup _, ?_⟩
  · intro i hi
    exact h0 i ((buildWith_keys doc ids i).mp hi)
  · intro p l hl
    rw [buildWith_servList] at hl
    have hl' := extend_none_eq_some (by simpa using hl)
    refine ⟨ids.filter (fun i => ((doc i).Servs.lookup p).isSome), hs.filter _, ?_⟩
    rw [← hl']
    refine (forall2_filter_filterMap (fun i => (doc i).Servs.lookup p) (fun i => i ∈ ids) ids
      (fun _ h => h)).imp ?_
    intro j e ⟨hj, he⟩
    exact ⟨⟨j, some (doc j)⟩, doc j, by rw [buildWith_servCopy, if_pos hj], rfl, he⟩

theorem sorted_copyIds (rootKey : Str) (ns : List Node) (hnd : (copyIds rootKey ns).Nodup) :
    ((copyIds rootKey ns).insertionSort (· ≤ ·)).Sorted (· < ·) :=
  (List.sorted_insertionSort (· ≤ ·) _).lt_of_le
    ((List.perm_insertionSort (· ≤ ·) _).nodup_iff.mpr hnd)

theorem forall2_rel_of_mem {α β : Type} {R : α → β → Prop} {l : List α} {u : List β}
    (h : List.Forall₂ R l u) {a : α} (ha : a ∈ l) : ∃ b, R a b := by
  induction h with
  | nil => simp at ha
  | cons hab _ ih =>
    rcases List.mem_cons.mp ha with rfl | ha
    · exact ⟨_, hab⟩
    · exact ih ha

theorem not_snapshotInvariant_of_long_sequence (sc : servCopyCollect ServInfo)
    (sl : GoMap Str (List (Option ServInfo))) (p : Str) (l : List (Option ServInfo))
    (hl : sl.lookup p = some l) (hlen : sc.keys.length < l.length) :
    ¬ SnapshotInvariant sc sl := by
  rintro ⟨_, _, h⟩
  obtain ⟨js, hs, hf⟩ := h p l hl
  have hnd : js.Nodup := hs.imp (fun hlt => ne_of_lt hlt)
  have hsub : js ⊆ sc.keys := by
    intro j hj
    obtain ⟨e, c, reg, hc, _⟩ := forall2_rel_of_mem hf hj
    rw [← AList.mem_keys, ← AList.lookup_isSome, hc]
    rfl
  have h1 : js.length ≤ sc.keys.length := (List.subperm_of_subset hnd hsub).length_le
  have h2 : js.length = l.length := hf.length_eq
  omega

theorem childId_of_bad_name (rootKey name : Str) (n : Node)
    (hkey : n.Key = rootKey ++ '/' :: name)
    (hbad : Atoi name = none ∨ ∃ id, Atoi name = some id ∧ id < 0) :
    childId rootKey n = .done none := by
  have hs : sliceFrom n.Key (rootKey.length + 1) = some name := by
    have h1 : rootKey ++ '/' :: name = (rootKey ++ ['/']) ++ name := by simp
    have h2 : (rootKey ++ ['/']).length = rootKey.length + 1 := by simp
    unfold sliceFrom
    rw [hkey, h1, if_pos (by simp), ← h2, List.drop_left]
  unfold childId
  rw [hs]
  rcases hbad with h | ⟨id, h, hneg⟩
  · simp [h]
  · simp [h, hneg]

theorem collectV1_skip (rootKey : Str) (pre post : List Node) (bad : Node)
    (hbad : childId rootKey bad = .done none) (idServ : GoMap Int Str) (ids : List Int) :
    collectV1 rootKey (pre ++ bad :: post) idServ ids =
      collectV1 rootKey (pre ++ post) idServ ids := by
  induction pre generalizing idServ ids with
  | nil => simp [collectV1, hbad]
  | cons n rest ih =>
    cases hc : childId rootKey n with
    | panicked => simp [collectV1, hc]
    | done o =>
      cases o with
      | none => simpa [collectV1, hc] using ih idServ ids
      | some id => simpa [collectV1, hc] using ih _ _

theorem collectV2_skip (rootKey : Str) (pre post : List Node) (bad : Node)
    (hdir : bad.Dir = true) (hbad : childId rootKey bad = .done none)
    (idServ : GoMap Int servCopyStr) (ids : List Int) :
    collectV2 rootKey (pre ++ bad :: post) idServ ids =
      collectV2 rootKey (pre ++ post) idServ ids := by
  induction pre generalizing idServ ids with
  | nil => simp [collectV2, hbad, hdir]
  | cons n rest ih =>
    cases hd : n.Dir with
    | false => simp [collectV2, hd]
    | true =>
      cases hc : childId rootKey n with
      | panicked => simp [collectV2, hc, hd]
      | done o =>
        cases o with
        | none => simpa [collectV2, hc, hd] using ih idServ ids
        | some id => simpa [collectV2, hc, hd] using ih _ _

theorem collectV1_all_bad (rootKey : Str) (ns : List Node)
    (h : ∀ n ∈ ns, childId rootKey n = .done none) (idServ : GoMap Int Str) (ids : List Int) :
    collectV1 rootKey ns idServ ids = .done (idServ, ids) := by
  induction ns with
  | nil => rfl
  | cons n rest ih =>
    simp only [collectV1, h n (List.mem_cons_self _ _)]
    exact ih (fun x hx => h x (List.mem_cons_of_mem _ hx))

theorem collectV2_all_bad (rootKey : Str) (ns : List Node)
    (h : ∀ n ∈ ns, n.Dir = true ∧ childId rootKey n = .done none)
    (idServ : GoMap Int servCopyStr) (ids : List Int) :
    collectV2 rootKey ns idServ ids = .continued (idServ, ids) := by
  induction ns with
  | nil => rfl
  | cons n rest ih =>
    obtain ⟨hd, hc⟩ := h n (List.mem_cons_self _ _)
    simp only [collectV2, hd, hc]
    exact ih (fun x hx => h x (List.mem_cons_of_mem _ hx))

theorem queries_on_empty_snapshot (m : ClientEtcdV2 ServInfo) :
    (∀ processor key, GetServAddr (upServlist m ∅ ∅) processor key = .done none) ∧
      (∀ servid processor key,
        GetServAddrWithServid (upServlist m ∅ ∅) servid processor key = none) ∧
      GetAllServAddr (upServlist m ∅ ∅) = ∅ :=
  ⟨fun _ _ => rfl, fun _ _ _ => rfl, rfl⟩

theorem collectV1_no_panic (rootKey : Str) (ns : List Node) (idServ : GoMap Int Str)
    (ids : List Int) (r : GoMap Int Str × List Int)
    (h : collectV1 rootKey ns idServ ids = .done r) :
    ∀ n ∈ ns, childId rootKey n ≠ .panicked := by
  induction ns generalizing idServ ids with
  | nil => simp
  | cons n rest ih =>
    intro x hx
    cases hc : childId rootKey n with
    | panicked => simp [collectV1, hc] at h
    | done o =>
      have hrest : ∀ y ∈ rest, childId rootKey y ≠ .panicked := by
        cases o with
        | none => exact ih idServ ids (by simpa [collectV1, hc] using h)
        | some id => exact ih _ _ (by simpa [collectV1, hc] using h)
      rcases List.mem_cons.mp hx with rfl | hx
      · rw [hc]; simp
      · exact hrest x hx

theorem collectV2_shape (rootKey : Str) (ns : List Node) (idServ : GoMap Int servCopyStr)
    (ids : List Int) (r : GoMap Int servCopyStr × List Int)
    (h : collectV2 rootKey ns idServ ids = .continued r) :
    ∀ n ∈ ns, n.Dir = true ∧ childId rootKey n ≠ .panicked := by
  induction ns generalizing idServ ids with
  | nil => simp
  | cons n rest ih =>
    intro x hx
    cases hd : n.Dir with
    | false => simp [collectV2, hd] at h
    | true =>
      cases hc : childId rootKey n with
      | panicked => simp [collectV2, hc, hd] at h
      | done o =>
        have hrest : ∀ y ∈ rest, y.Dir = true ∧ childId rootKey y ≠ .panicked := by
          cases o with
          | none => exact ih idServ ids (by simpa [collectV2, hc, hd] using h)
          | some id => exact ih _ _ (by simpa [collectV2, hc, hd] using h)
        rcases List.mem_cons.mp hx with rfl | hx
        · exact ⟨hd, by rw [hc]; simp⟩
        · exact hrest x hx

theorem parseV1_no_panic (unmarshal : Str → Decoded (GoMap Str (Option ServInfo))) (root : Node)
    (snap : servCopyCollect ServInfo × GoMap Str (List (Option ServInfo)))
    (h : parseV1 unmarshal root = .continued snap) :
    ∀ n ∈ root.Nodes, childId root.Key n ≠ .panicked := by
  unfold parseV1 at h
  cases hc : collectV1 root.Key root.Nodes ∅ [] with
  | panicked => simp [hc] at h
  | done r => exact collectV1_no_panic _ _ _ _ _ hc

theorem parseV2_shape (unmarshal : Str → Decoded (RegData ServInfo)) (root : Node)
    (snap : servCopyCollect ServInfo × GoMap Str (List (Option ServInfo)))
    (h : parseV2 unmarshal root = .continued snap) :
    ∀ n ∈ root.Nodes, n.Dir = true ∧ childId root.Key n ≠ .panicked := by
  unfold parseV2 at h
  cases hc : collectV2 root.Key root.Nodes ∅ [] with
  | panicked => simp [hc] at h
  | returned => simp [hc] at h
  | continued r => exact collectV2_shape _ _ _ _ _ hc

theorem lastSome_append {α β : Type} (upd : β → Option α) (a b : List β) (o : Option α) :
    lastSome upd (a ++ b) o = lastSome upd b (lastSome upd a o) := by
  simp [lastSome, List.foldl_append]

theorem lastReg_insert_ne (a b : List (Int × Option Str)) (c : Int × Option Str) (j : Int)
    (acc : Option Str) (h : c.1 ≠ j) :
    lastReg (a ++ c :: b) j acc = lastReg (a ++ b) j acc := by
  simp [lastReg, lastSome_append, lastSome_cons, h]

theorem lastReg_absent (b : List (Int × Option Str)) (i : Int) (acc : Option Str)
    (h : i ∉ b.map Prod.fst) : lastReg b i acc = acc := by
  induction b generalizing acc with
  | nil => rfl
  | cons c t ih =>
    have hc : c.1 ≠ i := fun e => h (by simp [← e])
    have ht : i ∉ t.map Prod.fst := fun e => h (by simp at e ⊢; exact Or.inr e)
    have := ih acc ht
    simpa [lastReg, lastSome_cons, hc] using this

theorem lastReg_insert_eq (a b : List (Int × Option Str)) (i : Int) (v : Str)
    (acc : Option Str) (h : i ∉ b.map Prod.fst) :
    lastReg (a ++ (i, some v) :: b) i acc = some v := by
  have h1 : lastReg (a ++ (i, some v) :: b) i acc = lastReg b i (some v) := by
    simp [lastReg, lastSome_append, lastSome_cons]
  rw [h1, lastReg_absent b i _ h]

theorem copyIds_append (rootKey : Str) (a b : List Node) :
    copyIds rootKey (a ++ b) = copyIds rootKey a ++ copyIds rootKey b := by
  simp [copyIds]

theorem sort_split (a b : List Int) (i : Int) (hi : i ∉ a ++ b) :
    ∃ l₁ l₂, (a ++ i :: b).insertionSort (· ≤ ·) = l₁ ++ i :: l₂ ∧
      (a ++ b).insertionSort (· ≤ ·) = l₁ ++ l₂ ∧ i ∉ l₁ ++ l₂ := by
  have hmem : i ∈ (a ++ i :: b).insertionSort (· ≤ ·) :=
    (mem_sort_iff _ i).mpr (by simp)
  obtain ⟨l₁, l₂, hsplit, hl₁⟩ := List.eq_append_cons_of_mem hmem
  have herase : ((a ++ i :: b).insertionSort (· ≤ ·)).erase i = l₁ ++ l₂ := by
    rw [hsplit, List.erase_append_right _ hl₁, List.erase_cons_head]
  have hperm : List.Perm (((a ++ i :: b).insertionSort (· ≤ ·)).erase i)
      ((a ++ b).insertionSort (· ≤ ·)) := by
    have h1 := (List.perm_insertionSort (· ≤ ·) (a ++ i :: b)).erase i
    have h2 : List.Perm ((a ++ i :: b).erase i) (a ++ b) := by
      have hmid : List.Perm (a ++ i :: b) (i :: (a ++ b)) := List.perm_middle
      simpa using hmid.erase i
    exact (h1.trans h2).trans (List.perm_insertionSort (· ≤ ·) (a ++ b)).symm
  have hsorted : (((a ++ i :: b).insertionSort (· ≤ ·)).erase i).Sorted (· ≤ ·) :=
    (List.sorted_insertionSort (· ≤ ·) _).sublist (List.erase_sublist _ _)
  have heq := List.eq_of_perm_of_sorted hperm hsorted (List.sorted_insertionSort (· ≤ ·) _)
  refine ⟨l₁, l₂, hsplit, by rw [← heq, herase], ?_⟩
  intro hin
  rw [← herase, heq] at hin
  exact hi ((mem_sort_iff _ i).mp hin)

theorem getD_extend_none {α : Type} (l : List α) : (extend none l).getD [] = l := by
  cases l <;> simp [extend]


theorem buildWith_insert_copy (doc doc0 : Int → RegData ServInfo) (a b : List Int) (i : Int)
    (hi : i ∉ a ++ b) (hdoc : ∀ j, j ≠ i → doc j = doc0 j) :
    (buildWith doc ((a ++ i :: b).insertionSort (· ≤ ·)) ∅ ∅).1.lookup i =
        some (some ⟨i, some (doc i)⟩) ∧
    (∀ j, j ≠ i →
      (buildWith doc ((a ++ i :: b).insertionSort (· ≤ ·)) ∅ ∅).1.lookup j =
        (buildWith doc0 ((a ++ b).insertionSort (· ≤ ·)) ∅ ∅).1.lookup j) ∧
    (∀ p, (doc i).Servs.lookup p = none →
      (buildWith doc ((a ++ i :: b).insertionSort (· ≤ ·)) ∅ ∅).2.lookup p =
        (buildWith doc0 ((a ++ b).insertionSort (· ≤ ·)) ∅ ∅).2.lookup p) ∧
    (∀ p, ∃ l₁ l₂,
      ((buildWith doc0 ((a ++ b).insertionSort (· ≤ ·)) ∅ ∅).2.lookup p).getD [] = l₁ ++ l₂ ∧
      ((buildWith doc ((a ++ i :: b).insertionSort (· ≤ ·)) ∅ ∅).2.lookup p).getD [] =
        l₁ ++ ((doc i).Servs.lookup p).toList ++ l₂) := by
  obtain ⟨s₁, s₂, hs, hs0, hnot⟩ := sort_split a b i hi
  have hcongr : ∀ (p : Str) (l : List Int), (∀ j ∈ l, j ≠ i) →
      l.filterMap (fun j => (doc j).Servs.lookup p) =
        l.filterMap (fun j => (doc0 j).Servs.lookup p) := by
    intro p l hl
    apply List.filterMap_congr
    intro j hj
    rw [hdoc j (hl j hj)]
  have hne₁ : ∀ j ∈ s₁, j ≠ i := fun j hj e => hnot (by rw [← e]; simp [hj])
  have hne₂ : ∀ j ∈ s₂, j ≠ i := fun j hj e => hnot (by rw [← e]; simp [hj])
  have hfm : ∀ p, ((a ++ i :: b).insertionSort (· ≤ ·)).filterMap
        (fun j => (doc j).Servs.lookup p) =
      s₁.filterMap (fun j => (doc0 j).Servs.lookup p) ++ ((doc i).Servs.lookup p).toList ++
        s₂.filterMap (fun j => (doc0 j).Servs.lookup p) := by
    intro p
    rw [hs, List.filterMap_append, List.filterMap_cons, hcongr p s₁ hne₁]
    cases h : (doc i).Servs.lookup p <;> simp [hcongr p s₂ hne₂]
  have hfm0 : ∀ p, ((a ++ b).insertionSort (· ≤ ·)).filterMap
        (fun j => (doc0 j).Servs.lookup p) =
      s₁.filterMap (fun j => (doc0 j).Servs.lookup p) ++
        s₂.filterMap (fun j => (doc0 j).Servs.lookup p) := by
    intro p
    rw [hs0, List.filterMap_append]
  refine ⟨?_, ?_, ?_, ?_⟩
  · rw [buildWith_servCopy, if_pos ((mem_sort_iff _ i).mpr (by simp))]
  · intro j hj
    rw [buildWith_servCopy, buildWith_servCopy, hdoc j hj]
    have hiff : j ∈ (a ++ i :: b).insertionSort (· ≤ ·) ↔ j ∈ (a ++ b).insertionSort (· ≤ ·) := by
      rw [mem_sort_iff, mem_sort_iff]
      simp [hj]
    by_cases hm : j ∈ (a ++ b).insertionSort (· ≤ ·)
    · rw [if_pos hm, if_pos (hiff.mpr hm)]
    · rw [if_neg hm, if_neg (fun h => hm (hiff.mp h))]
  · intro p hp
    rw [buildWith_servList, buildWith_servList, hfm p, hfm0 p, hp]
    simp
  · intro p
    refine ⟨s₁.filterMap (fun j => (doc0 j).Servs.lookup p),
      s₂.filterMap (fun j => (doc0 j).Servs.lookup p), ?_, ?_⟩
    · rw [buildWith_servList, hfm0 p]
      exact getD_extend_none _
    · rw [buildWith_servList, hfm p]
      exact getD_extend_none _

theorem copiesV1_insert (rootKey : Str) (pre post : List Node) (bad : Node) (i : Int)
    (h : childId rootKey bad = .done (some i)) :
    copiesV1 rootKey (pre ++ bad :: post) =
      copiesV1 rootKey pre ++ (i, some bad.Value) :: copiesV1 rootKey post := by
  simp [copiesV1, List.filterMap_append, List.filterMap_cons, copyIdOf_of_childId h]

theorem copiesV2_insert (rootKey : Str) (pre post : List Node) (bad : Node) (i : Int)
    (h : childId rootKey bad = .done (some i)) :
    copiesV2 rootKey (pre ++ bad :: post) =
      copiesV2 rootKey pre ++ (i, regOf bad) :: copiesV2 rootKey post := by
  simp [copiesV2, List.filterMap_append, List.filterMap_cons, copyIdOf_of_childId h]

theorem copyIds_insert (rootKey : Str) (pre post : List Node) (bad : Node) (i : Int)
    (h : childId rootKey bad = .done (some i)) :
    copyIds rootKey (pre ++ bad :: post) = copyIds rootKey pre ++ i :: copyIds rootKey post := by
  simp [copyIds, List.filterMap_append, List.filterMap_cons, copyIdOf_of_childId h]

theorem copiesV1_append (rootKey : Str) (a b : List Node) :
    copiesV1 rootKey (a ++ b) = copiesV1 rootKey a ++ copiesV1 rootKey b := by
  simp [copiesV1]

theorem copiesV2_append (rootKey : Str) (a b : List Node) :
    copiesV2 rootKey (a ++ b) = copiesV2 rootKey a ++ copiesV2 rootKey b := by
  simp [copiesV2]

theorem buildWith_congr (doc doc2 : Int → RegData ServInfo) (ids : List Int)
    (sc : servCopyCollect ServInfo) (sl : GoMap Str (List (Option ServInfo)))
    (h : ∀ i ∈ ids, doc i = doc2 i) :
    buildWith doc ids sc sl = buildWith doc2 ids sc sl := by
  induction ids generalizing sc sl with
  | nil => rfl
  | cons i rest ih =>
    simp only [buildWith]
    rw [h i (List.mem_cons_self _ _)]
    exact ih _ _ (fun j hj => h j (List.mem_cons_of_mem _ hj))

/-- The snapshot of a V1 directory whose children are the copies `cs`. -/
theorem parseV1_of_copies (unmarshal : Str → Decoded (GoMap Str (Option ServInfo)))
    (root : Node) (cs : List (Int × Str))
    (hf : List.Forall₂ (fun n c => childId root.Key n = .done (some c.1) ∧ n.Value = c.2)
      root.Nodes cs)
    (hnd : (cs.map Prod.fst).Nodup) :
    parseV1 unmarshal root = .continued
      (buildWith (fun i => ⟨(unmarshal ((cs.lookup i).getD [])).val⟩)
        ((cs.map Prod.fst).insertionSort (· ≤ ·)) ∅ ∅) := by
  obtain ⟨hcs, hp⟩ := forall2_copiesV1 _ _ _ hf
  obtain ⟨snap, hsnap⟩ := parseV1_total unmarshal root hp
  have hspec := parseV1_spec unmarshal root _ hsnap
  rw [hsnap, hspec, ← copiesV1_ids, hcs, map_fst_map_some]
  congr 1
  apply buildWith_congr
  intro i _
  simp [docOfV1, lastReg_map_some cs hnd, Option.or_none]

/-- The snapshot of a V2 directory whose children are the copies `cs`. -/
theorem parseV2_of_copies (unmarshal : Str → Decoded (RegData ServInfo))
    (root : Node) (cs : List (Int × Str))
    (hf : List.Forall₂
      (fun n c => n.Dir = true ∧ childId root.Key n = .done (some c.1) ∧ regOf n = some c.2)
      root.Nodes cs)
    (hnd : (cs.map Prod.fst).Nodup) :
    parseV2 unmarshal root = .continued
      (buildWith (fun i => (unmarshal ((cs.lookup i).getD [])).val)
        ((cs.map Prod.fst).insertionSort (· ≤ ·)) ∅ ∅) := by
  obtain ⟨hcs, hp⟩ := forall2_copiesV2 _ _ _ hf
  have hreg : ∀ i ∈ copyIds root.Key root.Nodes,
      (lastReg (copiesV2 root.Key root.Nodes) i none).isSome = true := by
    intro i hi
    rw [← copiesV2_ids, hcs, map_fst_map_some] at hi
    obtain ⟨s, hs⟩ := lookup_isSome_of_mem cs i hi
    simp [hcs, lastReg_map_some cs hnd, hs]
  obtain ⟨snap, hsnap⟩ := parseV2_total unmarshal root hp hreg
  have hspec := (parseV2_spec unmarshal root _ hsnap).2
  rw [hsnap, hspec, ← copiesV2_ids, hcs, map_fst_map_some]
  congr 1
  apply buildWith_congr
  intro i hi
  obtain ⟨s, hs⟩ := lookup_isSome_of_mem cs i ((mem_sort_iff _ i).mp hi)
  simp [docOfV2, lastReg_map_some cs hnd, Option.or_none, hs]

theorem sort_eq_of_perm (a b : List Int) (h : List.Perm a b) :
    a.insertionSort (· ≤ ·) = b.insertionSort (· ≤ ·) :=
  List.eq_of_perm_of_sorted
    (((List.perm_insertionSort (· ≤ ·) a).trans h).trans (List.perm_insertionSort (· ≤ ·) b).symm)
    (List.sorted_insertionSort (· ≤ ·) a) (List.sorted_insertionSort (· ≤ ·) b)

theorem buildWith_agree (doc : Int → RegData ServInfo) (ids : List Int) :
    (∀ p l e, (buildWith doc ids (∅ : servCopyCollect ServInfo) ∅).2.lookup p = some l → e ∈ l →
      ∃ j, originates (buildWith doc ids (∅ : servCopyCollect ServInfo) ∅).1 p j e) ∧
    (∀ p j e, originates (buildWith doc ids (∅ : servCopyCollect ServInfo) ∅).1 p j e →
      ∃ l, (buildWith doc ids (∅ : servCopyCollect ServInfo) ∅).2.lookup p = some l ∧ e ∈ l) ∧
    (∀ p, (buildWith doc ids (∅ : servCopyCollect ServInfo) ∅).2.lookup p ≠ some []) := by
  refine ⟨?_, ?_, ?_⟩
  · intro p l e hl he
    rw [buildWith_servList] at hl
    have hl' := extend_none_eq_some (by simpa using hl)
    rw [← hl'] at he
    obtain ⟨j, hj, hje⟩ := List.mem_filterMap.mp he
    exact ⟨j, ⟨j, some (doc j)⟩, doc j, by rw [buildWith_servCopy, if_pos hj], rfl, hje⟩
  · intro p j e ⟨c, reg, hc, hr, he⟩
    rw [buildWith_servCopy] at hc
    by_cases hj : j ∈ ids
    · rw [if_pos hj] at hc
      simp only [Option.some.injEq] at hc
      subst hc
      simp only [Option.some.injEq] at hr
      subst hr
      have hmem : e ∈ ids.filterMap (fun i => (doc i).Servs.lookup p) :=
        List.mem_filterMap.mpr ⟨j, hj, he⟩
      refine ⟨ids.filterMap (fun i => (doc i).Servs.lookup p), ?_, hmem⟩
      rw [buildWith_servList]
      cases hfm : ids.filterMap (fun i => (doc i).Servs.lookup p) with
      | nil => rw [hfm] at hmem; simp at hmem
      | cons a t => simp [extend]
    · rw [if_neg hj] at hc
      simp at hc
  · intro p h
    rw [buildWith_servList] at h
    have := extend_none_eq_some (by simpa using h)
    rw [this] at h
    simp [extend] at h

theorem GetServAddr_mem (m : ClientEtcdV2 ServInfo) (processor key : Str) (e : ServInfo)
    (h : GetServAddr m processor key = .done (some e)) :
    ∃ l, m.servList.lookup processor = some l ∧ some e ∈ l := by
  unfold GetServAddr at h
  cases hl : m.servList.lookup processor with
  | none => simp [hl] at h
  | some l =>
    refine ⟨l, rfl, ?_⟩
    simp only [hl] at h
    split at h
    · split at h
      · cases h
      · split at h
        · rename_i x hg
          simp only [Outcome.done.injEq] at h
          subst h
          exact List.get?_mem hg
        · cases h
    · cases h

theorem GetServAddrWithServid_of_originates (m : ClientEtcdV2 ServInfo) (j : Int)
    (processor key : Str) (e : ServInfo) (h : originates m.servCopy processor j (some e)) :
    GetServAddrWithServid m j processor key = some e := by
  obtain ⟨c, reg, hc, hr, he⟩ := h
  simp [GetServAddrWithServid, hc, hr, he]

theorem docOfV1_insert (unmarshal : Str → Decoded (GoMap Str (Option ServInfo)))
    (key : Str) (pre post : List Node) (bad : Node) (i : Int)
    (hid : childId key bad = .done (some i)) (hpost : i ∉ copyIds key post) :
    docOfV1 unmarshal (copiesV1 key (pre ++ bad :: post)) i = ⟨(unmarshal bad.Value).val⟩ ∧
      ∀ j, j ≠ i → docOfV1 unmarshal (copiesV1 key (pre ++ bad :: post)) j =
        docOfV1 unmarshal (copiesV1 key (pre ++ post)) j := by
  refine ⟨?_, ?_⟩
  · simp only [docOfV1, copiesV1_insert key pre post bad i hid]
    rw [lastReg_insert_eq _ _ _ _ _ (by rw [copiesV1_ids]; exact hpost)]
    rfl
  · intro j hj
    simp only [docOfV1, copiesV1_insert key pre post bad i hid, copiesV1_append]
    rw [lastReg_insert_ne _ _ _ _ _ (fun e : (i, some bad.Value).1 = j => hj e.symm)]

theorem lastRegV2_insert (key : Str) (pre post : List Node) (bad : Node) (i : Int) (s : Str)
    (hid : childId key bad = .done (some i)) (hreg : regOf bad = some s)
    (hpost : i ∉ copyIds key post) :
    lastReg (copiesV2 key (pre ++ bad :: post)) i none = some s ∧
      ∀ j, j ≠ i → lastReg (copiesV2 key (pre ++ bad :: post)) j none =
        lastReg (copiesV2 key (pre ++ post)) j none := by
  refine ⟨?_, ?_⟩
  · rw [copiesV2_insert key pre post bad i hid, hreg]
    exact lastReg_insert_eq _ _ _ _ _ (by rw [copiesV2_ids]; exact hpost)
  · intro j hj
    rw [copiesV2_insert key pre post bad i hid, copiesV2_append]
    exact lastReg_insert_ne _ _ _ _ _ (fun e : (i, regOf bad).1 = j => hj e.symm)

theorem parseV1_remove_child (unmarshal : Str → Decoded (GoMap Str (Option ServInfo)))
    (key : Str) (isDir : Bool) (value : Str) (pre post : List Node) (bad : Node)
    (snap : servCopyCollect ServInfo × GoMap Str (List (Option ServInfo)))
    (h : parseV1 unmarshal (.mk key isDir value (pre ++ bad :: post)) = .continued snap) :
    ∃ snap0, parseV1 unmarshal (.mk key isDir value (pre ++ post)) = .continued snap0 := by
  have hp := parseV1_no_panic unmarshal _ _ h
  apply parseV1_total
  intro n hn
  simp only [Node.Nodes, Node.Key, List.mem_append, List.mem_cons] at hn hp ⊢
  rcases hn with hn | hn
  · exact hp n (Or.inl hn)
  · exact hp n (Or.inr (Or.inr hn))

theorem parseV2_remove_copy (unmarshal : Str → Decoded (RegData ServInfo))
    (key : Str) (isDir : Bool) (value : Str) (pre post : List Node) (bad : Node) (i : Int)
    (hid : childId key bad = .done (some i)) (huniq : i ∉ copyIds key (pre ++ post))
    (snap : servCopyCollect ServInfo × GoMap Str (List (Option ServInfo)))
    (h : parseV2 unmarshal (.mk key isDir value (pre ++ bad :: post)) = .continued snap) :
    ∃ snap0, parseV2 unmarshal (.mk key isDir value (pre ++ post)) = .continued snap0 := by
  have hp := parseV2_shape unmarshal _ _ h
  have hreg := (parseV2_spec unmarshal _ _ h).1
  simp only [Node.Nodes, Node.Key] at hp hreg
  apply parseV2_total
  · intro n hn
    simp only [Node.Nodes, Node.Key, List.mem_append] at hn ⊢
    rcases hn with hn | hn
    · exact hp n (by simp [hn])
    · exact hp n (by simp [hn])
  · intro j hj
    simp only [Node.Nodes, Node.Key] at hj ⊢
    have hji : j ≠ i := fun e => huniq (e ▸ hj)
    have hj' : j ∈ copyIds key (pre ++ bad :: post) := by
      rw [copyIds_insert key pre post bad i hid]
      rw [copyIds_append] at hj
      simp only [List.mem_append, List.mem_cons] at hj ⊢
      rcases hj with hj | hj
      · exact Or.inl hj
      · exact Or.inr (Or.inr hj)
    have := hreg j hj'
    rw [copiesV2_insert key pre post bad i hid,
      lastReg_insert_ne _ _ _ _ _ (fun e : (i, regOf bad).1 = j => hji e.symm)] at this
    rw [copiesV2_append]
    exact this

theorem watchStep_backoff (BASE_LOC_DIST BASE_LOC_DIST_V2 : Str)
    (unmarshalV1 : Str → Decoded (GoMap Str (Option ServInfo)))
    (unmarshalV2 : Str → Decoded (RegData ServInfo)) (grow : Nat → Nat)
    (input : WatchInput) (s s2 : WatchState ServInfo)
    (h : watchStep BASE_LOC_DIST BASE_LOC_DIST_V2 unmarshalV1 unmarshalV2 grow input s =
      .done s2) :
    s2.backoff.step = s.backoff.step ∧ s2.backoff.ceil = s.backoff.ceil := by
  have he : (ensureAttempt s).backoff = s.backoff := by
    unfold ensureAttempt
    cases s.chg <;> rfl
  unfold watchStep at h
  cases input with
  | closed =>
    simp only [Outcome.done.injEq] at h
    subst h
    simp [BackOffCtrl.BackOff, he]
  | event r etcdGet =>
    cases r with
    | none => simp at h
    | some resp =>
      cases hn : resp.Node with
      | none => simp [hn] at h
      | some node =>
        simp only [hn] at h
        split at h
        · cases h
        · simp only [Outcome.done.injEq] at h
          subst h
          simp [BackOffCtrl.Reset, he]

theorem watchRun_backoff (BASE_LOC_DIST BASE_LOC_DIST_V2 : Str)
    (unmarshalV1 : Str → Decoded (GoMap Str (Option ServInfo)))
    (unmarshalV2 : Str → Decoded (RegData ServInfo)) (grow : Nat → Nat)
    (inputs : List WatchInput) (s s2 : WatchState ServInfo)
    (h : watchRun BASE_LOC_DIST BASE_LOC_DIST_V2 unmarshalV1 unmarshalV2 grow inputs s =
      .done s2) :
    s2.backoff.step = s.backoff.step ∧ s2.backoff.ceil = s.backoff.ceil := by
  induction inputs generalizing s with
  | nil =>
    simp only [watchRun, Outcome.done.injEq] at h
    subst h
    exact ⟨rfl, rfl⟩
  | cons input rest ih =>
    unfold watchRun at h
    cases hs : watchStep BASE_LOC_DIST BASE_LOC_DIST_V2 unmarshalV1 unmarshalV2 grow input s with
    | panicked => simp [hs] at h
    | done s1 =>
      simp only [hs] at h
      obtain ⟨h1, h2⟩ := ih s1 h
      obtain ⟨h3, h4⟩ := watchStep_backoff _ _ _ _ _ _ _ _ hs
      exact ⟨h1.trans h3, h2.trans h4⟩

theorem copyEntry_fold_prefix (l : List (Sigma fun _ : Str => Nat))
    (arrs : List (List (Option ServInfo))) (rv : GoMap Str Nat) :
    ∃ e, (l.foldl copyEntry (arrs, rv)).1 = arrs ++ e := by
  induction l generalizing arrs rv with
  | nil => exact ⟨[], by simp⟩
  | cons kv t ih =>
    obtain ⟨e, he⟩ := ih (arrs ++ [(arrs[kv.2]?).getD []]) (rv.insert kv.1 arrs.length)
    exact ⟨[(arrs[kv.2]?).getD []] ++ e, by
      rw [List.foldl_cons]
      simp only [copyEntry]
      rw [he, List.append_assoc]⟩

theorem copyEntry_fold (base : List (List (Option ServInfo)))
    (l : List (Sigma fun _ : Str => Nat)) (nd : l.NodupKeys)
    (hl : ∀ kv ∈ l, kv.2 < base.length)
    (ext : List (List (Option ServInfo))) (rv : GoMap Str Nat) :
    (∃ ext2, (l.foldl copyEntry (base ++ ext, rv)).1 = base ++ ext2) ∧
    ∀ k,
      (∀ a, l.dlookup k = some a →
        ∃ n, (l.foldl copyEntry (base ++ ext, rv)).2.lookup k = some n ∧
          base.length ≤ n ∧
          (l.foldl copyEntry (base ++ ext, rv)).1[n]? = some ((base[a]?).getD [])) ∧
      (l.dlookup k = none →
        (l.foldl copyEntry (base ++ ext, rv)).2.lookup k = rv.lookup k) := by
  induction l generalizing ext rv with
  | nil =>
    refine ⟨⟨ext, rfl⟩, fun k => ⟨fun a h => by simp at h, fun _ => rfl⟩⟩
  | cons kv t ih =>
    obtain ⟨k0, a0⟩ := kv
    have hk0 : k0 ∉ t.keys := List.not_mem_keys_of_nodupKeys_cons nd
    have ht : t.NodupKeys := List.nodupKeys_of_nodupKeys_cons nd
    have ha0 : a0 < base.length := hl ⟨k0, a0⟩ (List.mem_cons_self _ _)
    have hread : ((base ++ ext)[a0]?).getD [] = (base[a0]?).getD [] := by
      rw [List.getElem?_append_left ha0]
    have hstep : copyEntry (base ++ ext, rv) ⟨k0, a0⟩ =
        (base ++ (ext ++ [(base[a0]?).getD []]), rv.insert k0 (base ++ ext).length) := by
      simp only [copyEntry, hread, List.append_assoc]
    rw [List.foldl_cons, hstep]
    obtain ⟨⟨ext2, hext2⟩, hk⟩ := ih ht (fun kv hkv => hl kv (List.mem_cons_of_mem _ hkv))
      (ext ++ [(base[a0]?).getD []]) (rv.insert k0 (base ++ ext).length)
    refine ⟨⟨ext2, hext2⟩, ?_⟩
    intro k
    by_cases hkk : k = k0
    · subst hkk
      refine ⟨?_, fun h => by simp [List.dlookup_cons_eq] at h⟩
      intro a ha
      rw [List.dlookup_cons_eq] at ha
      simp only [Option.some.injEq] at ha
      subst ha
      have hnone := (hk k).2 (List.dlookup_eq_none.mpr hk0)
      refine ⟨(base ++ ext).length, ?_, by simp, ?_⟩
      · rw [hnone, AList.lookup_insert]
      · obtain ⟨e, he⟩ := copyEntry_fold_prefix t
          (base ++ (ext ++ [(base[a0]?).getD []])) (rv.insert k (base ++ ext).length)
        rw [he, ← List.append_assoc base, List.append_assoc (base ++ ext),
          List.getElem?_append_right (Nat.le_refl _)]
        simp
    · rw [List.dlookup_cons_ne _ _ hkk]
      refine ⟨fun a ha => (hk k).1 a ha, fun h => ?_⟩
      rw [(hk k).2 h, AList.lookup_insert_ne hkk]

theorem insert_fold_lookup {ν : Type} (l : List (Sigma fun _ : Str => ν)) (nd : l.NodupKeys)
    (rv : GoMap Str ν) (k : Str) :
    (l.foldl (fun rv kv => rv.insert kv.1 kv.2) rv).lookup k =
      (l.dlookup k).or (rv.lookup k) := by
  induction l generalizing rv with
  | nil => simp
  | cons kv t ih =>
    obtain ⟨k0, v0⟩ := kv
    have hk0 : k0 ∉ t.keys := List.not_mem_keys_of_nodupKeys_cons nd
    rw [List.foldl_cons, ih (List.nodupKeys_of_nodupKeys_cons nd)]
    by_cases hkk : k = k0
    · subst hkk
      rw [List.dlookup_eq_none.mpr hk0, List.dlookup_cons_eq]
      simp [AList.lookup_insert]
    · rw [List.dlookup_cons_ne _ _ hkk, AList.lookup_insert_ne hkk]

theorem GetAllServAddr_lookup (m : ClientEtcdV2 ServInfo) (k : Str) :
    (GetAllServAddr m).lookup k = m.servList.lookup k := by
  unfold GetAllServAddr
  rw [insert_fold_lookup _ m.servList.nodupKeys]
  simp [AList.lookup]

theorem allocated_lt (h : Heap ServInfo) (r : Nat) (mp : GoMap Str Nat)
    (hm : h.maps[r]? = some mp) (hwf : h.allocated (some r) = true) (k : Str) (a : Nat)
    (hk : mp.lookup k = some a) : a < h.arrays.length := by
  simp only [Heap.allocated, hm, List.all_eq_true, decide_eq_true_eq] at hwf
  exact hwf ⟨k, a⟩ (AList.mem_lookup_iff.mp hk)

theorem seqAt_congr (h1 h2 : Heap ServInfo) (r : Nat) (mp : GoMap Str Nat)
    (hm1 : h1.maps[r]? = some mp) (hm2 : h2.maps[r]? = some mp)
    (ha : ∀ k a, mp.lookup k = some a → h2.arrays[a]? = h1.arrays[a]?) (k : Str) :
    h2.seqAt (some r) k = h1.seqAt (some r) k := by
  simp only [Heap.seqAt, hm1, hm2]
  cases hk : mp.lookup k with
  | none => rfl
  | some a => simp [ha k a hk]

theorem GetAllServAddrH_facts (h : Heap ServInfo) (r : Nat) (mp : GoMap Str Nat)
    (hm : h.maps[r]? = some mp) (hwf : h.allocated (some r) = true) :
    ∃ e rvm, GetAllServAddrH h (some r) =
        ({ arrays := h.arrays ++ e, maps := h.maps ++ [rvm] }, h.maps.length) ∧
      ∀ k,
        (∀ a, mp.lookup k = some a →
          ∃ n, rvm.lookup k = some n ∧ h.arrays.length ≤ n ∧
            (h.arrays ++ e)[n]? = some ((h.arrays[a]?).getD [])) ∧
        (mp.lookup k = none → rvm.lookup k = none) := by
  have hl : ∀ kv ∈ mp.entries, kv.2 < h.arrays.length := by
    intro kv hkv
    exact allocated_lt h r mp hm hwf kv.1 kv.2 (AList.mem_lookup_iff.mpr hkv)
  obtain ⟨⟨e, he⟩, hk⟩ := copyEntry_fold h.arrays mp.entries mp.nodupKeys hl [] ∅
  simp only [List.append_nil] at he hk
  refine ⟨e, (mp.entries.foldl copyEntry (h.arrays, ∅)).2, ?_, ?_⟩
  · simp only [GetAllServAddrH, hm, Option.map_some', Option.getD_some, he]
  · intro k
    rw [← he]
    exact ⟨fun a ha => (hk k).1 a ha, fun hn => by
      rw [(hk k).2 hn]
      exact AList.lookup_empty k⟩

/-- A copy whose registration string decodes without error to the empty
document is recorded as it is. Take a directory with a child `bad` named by
the valid copy id `i`, no other child denoting `i`; in every snapshot a parser
publishes for it the copy index maps `i` to the empty document, the parser also
publishes a snapshot for the directory without `bad`, the two processor indexes
are the same and the two copy indexes agree on every other copy id, and
afterwards `GetServAddrWithServid` returns nil for copy `i` and every
processor. -/
theorem empty_document_recorded
    (unmarshalV1 : Str → Decoded (GoMap Str (Option ServInfo)))
    (unmarshalV2 : Str → Decoded (RegData ServInfo))
    (key : Str) (isDir : Bool) (value : Str) (pre post : List Node) (bad : Node) (i : Int)
    (hid : childId key bad = .done (some i)) (huniq : i ∉ copyIds key (pre ++ post))
    (sc : servCopyCollect ServInfo) (sl : GoMap Str (List (Option ServInfo))) :
    ((unmarshalV1 bad.Value).err = false → (unmarshalV1 bad.Value).val = ∅ →
      parseV1 unmarshalV1 (.mk key isDir value (pre ++ bad :: post)) = .continued (sc, sl) →
      sc.lookup i = some (some ⟨i, some ⟨∅⟩⟩) ∧
      (∃ sc0 sl0,
        parseV1 unmarshalV1 (.mk key isDir value (pre ++ post)) = .continued (sc0, sl0) ∧
        (∀ p, sl.lookup p = sl0.lookup p) ∧ ∀ j, j ≠ i → sc.lookup j = sc0.lookup j) ∧
      ∀ (m : ClientEtcdV2 ServInfo) (processor k : Str),
        GetServAddrWithServid (upServlist m sc sl) i processor k = none) ∧
    (∀ s, regOf bad = some s → (unmarshalV2 s).err = false → (unmarshalV2 s).val.Servs = ∅ →
      parseV2 unmarshalV2 (.mk key isDir value (pre ++ bad :: post)) = .continued (sc, sl) →
      sc.lookup i = some (some ⟨i, some (unmarshalV2 s).val⟩) ∧
      (∃ sc0 sl0,
        parseV2 unmarshalV2 (.mk key isDir value (pre ++ post)) = .continued (sc0, sl0) ∧
        (∀ p, sl.lookup p = sl0.lookup p) ∧ ∀ j, j ≠ i → sc.lookup j = sc0.lookup j) ∧
      ∀ (m : ClientEtcdV2 ServInfo) (processor k : Str),
        GetServAddrWithServid (upServlist m sc sl) i processor k = none) := by
  have hpost : i ∉ copyIds key post := fun h => huniq (by rw [copyIds_append]; simp [h])
  have huniq' : i ∉ copyIds key pre ++ copyIds key post := by
    rw [← copyIds_append]; exact huniq
  refine ⟨?_, ?_⟩
  · intro _ hempty h
    obtain ⟨⟨sc0, sl0⟩, h0⟩ := parseV1_remove_child unmarshalV1 key isDir value pre post bad _ h
    have hspec := parseV1_spec unmarshalV1 _ _ h
    have hspec0 := parseV1_spec unmarshalV1 _ _ h0
    simp only [Node.Nodes, Node.Key] at hspec hspec0
    rw [copyIds_insert key pre post bad i hid] at hspec
    rw [copyIds_append] at hspec0
    obtain ⟨hdoci, hdoc⟩ := docOfV1_insert unmarshalV1 key pre post bad i hid hpost
    obtain ⟨h1, h2, h3, _⟩ := buildWith_insert_copy _ _ _ _ i huniq' hdoc
    rw [← hspec, ← hspec0] at h2 h3
    rw [← hspec] at h1
    rw [hdoci] at h1 h3
    simp only [hempty] at h1 h3
    refine ⟨h1, ⟨sc0, sl0, h0, fun p => h3 p (AList.lookup_empty p), h2⟩, ?_⟩
    intro m processor k
    simp [GetServAddrWithServid, upServlist, h1]
  · intro s hreg _ hempty h
    obtain ⟨⟨sc0, sl0⟩, h0⟩ :=
      parseV2_remove_copy unmarshalV2 key isDir value pre post bad i hid huniq _ h
    have hspec := (parseV2_spec unmarshalV2 _ _ h).2
    have hspec0 := (parseV2_spec unmarshalV2 _ _ h0).2
    simp only [Node.Nodes, Node.Key] at hspec hspec0
    rw [copyIds_insert key pre post bad i hid] at hspec
    rw [copyIds_append] at hspec0
    obtain ⟨hlasti, hlast⟩ := lastRegV2_insert key pre post bad i s hid hreg hpost
    have hdoc : ∀ j, j ≠ i →
        docOfV2 unmarshalV2 (copiesV2 key (pre ++ bad :: post)) j =
          docOfV2 unmarshalV2 (copiesV2 key (pre ++ post)) j := by
      intro j hj
      simp only [docOfV2, hlast j hj]
    have hdoci : docOfV2 unmarshalV2 (copiesV2 key (pre ++ bad :: post)) i =
        (unmarshalV2 s).val := by
      simp only [docOfV2, hlasti]
    obtain ⟨h1, h2, h3, _⟩ := buildWith_insert_copy _ _ _ _ i huniq' hdoc
    rw [← hspec, ← hspec0] at h2 h3
    rw [← hspec] at h1
    rw [hdoci] at h1 h3
    refine ⟨h1, ⟨sc0, sl0, h0, fun p => h3 p (by rw [hempty]; exact AList.lookup_empty p), h2⟩,
      ?_⟩
    intro m processor k
    simp [GetServAddrWithServid, upServlist, h1, hempty]

/-- Adding a child whose id check does not panic keeps `parseResponseV1`
publishing. -/
theorem parseV1_add_child (unmarshal : Str → Decoded (GoMap Str (Option ServInfo)))
    (key : Str) (isDir : Bool) (value : Str) (pre post : List Node) (bad : Node)
    (hbad : childId key bad ≠ .panicked)
    (snap0 : servCopyCollect ServInfo × GoMap Str (List (Option ServInfo)))
    (h0 : parseV1 unmarshal (.mk key isDir value (pre ++ post)) = .continued snap0) :
    ∃ snap, parseV1 unmarshal (.mk key isDir value (pre ++ bad :: post)) = .continued snap := by
  have hp0 := parseV1_no_panic unmarshal _ _ h0
  apply parseV1_total
  intro n hn
  simp only [Node.Nodes, Node.Key, List.mem_append, List.mem_cons] at hn hp0 ⊢
  rcases hn with hn | rfl | hn
  · exact hp0 n (Or.inl hn)
  · exact hbad
  · exact hp0 n (Or.inr hn)

/-- Adding a copy directory with a `reg` child, named by an id no other child
denotes, keeps `parseResponseV2` publishing. -/
theorem parseV2_add_copy (unmarshal : Str → Decoded (RegData ServInfo))
    (key : Str) (isDir : Bool) (value : Str) (pre post : List Node) (bad : Node) (i : Int)
    (s : Str) (hid : childId key bad = .done (some i)) (hdir : bad.Dir = true)
    (hreg : regOf bad = some s) (huniq : i ∉ copyIds key (pre ++ post))
    (snap0 : servCopyCollect ServInfo × GoMap Str (List (Option ServInfo)))
    (h0 : parseV2 unmarshal (.mk key isDir value (pre ++ post)) = .continued snap0) :
    ∃ snap, parseV2 unmarshal (.mk key isDir value (pre ++ bad :: post)) = .continued snap := by
  have hpost : i ∉ copyIds key post := fun h => huniq (by rw [copyIds_append]; simp [h])
  have hp0 := parseV2_shape unmarshal _ _ h0
  have hreg0 := (parseV2_spec unmarshal _ _ h0).1
  simp only [Node.Nodes, Node.Key] at hp0 hreg0
  obtain ⟨hlasti, hlast⟩ := lastRegV2_insert key pre post bad i s hid hreg hpost
  apply parseV2_total
  · intro n hn
    simp only [Node.Nodes, Node.Key, List.mem_append, List.mem_cons] at hn hp0 ⊢
    rcases hn with hn | rfl | hn
    · exact hp0 n (Or.inl hn)
    · exact ⟨hdir, by rw [hid]; simp⟩
    · exact hp0 n (Or.inr hn)
  · intro j hj
    simp only [Node.Nodes, Node.Key] at hj ⊢
    by_cases hji : j = i
    · rw [hji, hlasti]; rfl
    · rw [hlast j hji]
      apply hreg0
      rw [copyIds_insert key pre post bad i hid] at hj
      rw [copyIds_append]
      simp only [List.mem_append, List.mem_cons] at hj ⊢
      rcases hj with h | h | h
      · exact Or.inl h
      · exact absurd h hji
      · exact Or.inr h

/-- When the loop over `watcher.Next` returns, it has sent the responses it got
and then closed the channel. -/
theorem watchNext_returned (nexts : List (Option Response × Bool))
    (h : (watchNext nexts).2 = .returned) :
    ∃ evs : List (Option Response),
      (watchNext nexts).1 = evs.map ChanOp.send ++ [.close] ∧
        ∀ r ∈ evs, ∃ e ∈ nexts, e.1 = r := by
  induction nexts with
  | nil => simp [watchNext] at h
  | cons x rest ih =>
    obtain ⟨resp, err⟩ := x
    cases err with
    | true => exact ⟨[], by simp [watchNext], by simp⟩
    | false =>
      cases resp with
      | none => simp [watchNext] at h
      | some r =>
        cases hn : r.Node with
        | none => simp [watchNext, hn] at h
        | some n =>
          have h2 : (watchNext rest).2 = .returned := by
            simpa [watchNext, hn] using h
          obtain ⟨evs, he, hm⟩ := ih h2
          refine ⟨some r :: evs, by simp [watchNext, hn, he], ?_⟩
          intro q hq
          rcases List.mem_cons.1 hq with rfl | hq
          · exact ⟨(some r, false), by simp, rfl⟩
          · obtain ⟨e, hemem, hee⟩ := hm q hq
            exact ⟨e, List.mem_cons_of_mem _ hemem, hee⟩

/-- The receives on a channel on which the events `evs` are sent and which is
then closed. -/
theorem recvAt_sends_close (ops : List ChanOp) (e : Ending) (evs : List (Option Response))
    (h : ops = evs.map ChanOp.send ++ [.close]) :
    (∀ k (hk : k < evs.length), recvAt (ops, e) k = .event (evs.get ⟨k, hk⟩)) ∧
      recvAt (ops, e) evs.length = .closed := by
  subst h
  refine ⟨?_, ?_⟩
  · intro k hk
    have : (evs.map ChanOp.send ++ [ChanOp.close]).get? k = some (.send (evs.get ⟨k, hk⟩)) := by
      rw [List.get?_eq_getElem?, List.getElem?_append_left (by simpa using hk)]
      simp [List.getElem?_eq_getElem hk]
    simp only [recvAt, this]
  · have : (evs.map ChanOp.send ++ [ChanOp.close]).get? evs.length = some .close := by
      rw [List.get?_eq_getElem?, List.getElem?_append_right (by simp)]
      simp
    simp only [recvAt, this]

end ParserLemmas

/-! ## Theorems -/

section Claims
variable {ServInfo : Type}

/-- The IEEE check value: the checksum of `123456789` is `0xcbf43926`. -/
theorem ChecksumIEEE_check : ChecksumIEEE "123456789".toList = 0xcbf43926 := by
  set_option maxRecDepth 100000 in decide

/-- C1: `GetServAddr` returns nil when the processor is absent from the
processor index or its sequence is empty; otherwise (the sequence length
fitting the `uint32` divisor) the index `ChecksumIEEE key % len` is in range and
the call returns exactly the element at that index; the result depends on the
processor index, the processor and the key only. -/
theorem GetServAddr_spec (m : ClientEtcdV2 ServInfo) (processor key : Str) :
    (m.servList.lookup processor = none → GetServAddr m processor key = .done none) ∧
    (m.servList.lookup processor = some [] → GetServAddr m processor key = .done none) ∧
    (∀ p : List (Option ServInfo), m.servList.lookup processor = some p → p ≠ [] →
      p.length < 2 ^ 32 →
      ∃ h : ChecksumIEEE key % p.length < p.length,
        GetServAddr m processor key = .done (p.get ⟨ChecksumIEEE key % p.length, h⟩)) ∧
    (∀ m2 : ClientEtcdV2 ServInfo, m2.servList = m.servList →
      GetServAddr m2 processor key = GetServAddr m processor key) := by
  refine ⟨?_, ?_, ?_, ?_⟩
  · intro h
    simp [GetServAddr, h]
  · intro h
    simp [GetServAddr, h]
  · intro p hp hne hlt
    have hpos : 0 < p.length := List.length_pos.mpr hne
    have hidx : ChecksumIEEE key % p.length < p.length := Nat.mod_lt _ hpos
    refine ⟨hidx, ?_⟩
    have hd : p.length % 2 ^ 32 = p.length := Nat.mod_eq_of_lt hlt
    have hd0 : p.length % 2 ^ 32 ≠ 0 := by omega
    have hget : p.get? (ChecksumIEEE key % p.length) =
        some (p.get ⟨ChecksumIEEE key % p.length, hidx⟩) := List.get?_eq_get hidx
    simp only [GetServAddr, hp, gt_iff_lt, hpos, if_true, hd]
    rw [if_neg (by omega), hget]
  · intro m2 h
    simp [GetServAddr, h]

/-- Witness for C1 on `demoCache`: key `a` has checksum `3904355907`, which is
`0` modulo `3`. -/
theorem GetServAddr_spec_witness :
    ∃ h : ChecksumIEEE "a".toList % 3 < 3,
      GetServAddr demoCache "p".toList "a".toList =
        .done ([some 10, some 12, some 15].get ⟨ChecksumIEEE "a".toList % 3, h⟩) :=
  (GetServAddr_spec demoCache "p".toList "a".toList).2.2.1 [some 10, some 12, some 15]
    (by decide) (by decide) (by decide)

/-- C2: `GetServAddrWithServid` returns exactly the pointer stored at
`servCopy[servid].reg.Servs[processor]` when the copy id and the processor are
both present, nil when the copy id is absent, nil when the processor is absent
from that copy's document, and the same result for every key. -/
theorem GetServAddrWithServid_spec (m : ClientEtcdV2 ServInfo) (servid : Int)
    (processor key : Str) :
    (∀ (c : servCopyData ServInfo) (reg : RegData ServInfo) (e : Option ServInfo),
      m.servCopy.lookup servid = some (some c) → c.reg = some reg →
      reg.Servs.lookup processor = some e →
      GetServAddrWithServid m servid processor key = e) ∧
    (m.servCopy.lookup servid = none → GetServAddrWithServid m servid processor key = none) ∧
    (∀ (c : servCopyData ServInfo) (reg : RegData ServInfo),
      m.servCopy.lookup servid = some (some c) → c.reg = some reg →
      reg.Servs.lookup processor = none →
      GetServAddrWithServid m servid processor key = none) ∧
    (∀ key2 : Str,
      GetServAddrWithServid m servid processor key2 =
        GetServAddrWithServid m servid processor key) := by
  refine ⟨?_, ?_, ?_, ?_⟩
  · intro c reg e hc hr he
    cases e <;> simp [GetServAddrWithServid, hc, hr, he]
  · intro hc
    simp [GetServAddrWithServid, hc]
  · intro c reg hc hr he
    simp [GetServAddrWithServid, hc, hr, he]
  · intro key2
    rfl

/-- Witness for C2 on `demoCache`: copy 2 stores endpoint `12` for `p`. -/
theorem GetServAddrWithServid_spec_witness :
    GetServAddrWithServid demoCache 2 "p".toList "k".toList = some 12 :=
  (GetServAddrWithServid_spec demoCache 2 "p".toList "k".toList).1
    ⟨2, some ⟨(∅ : GoMap Str (Option Nat)).insert "p".toList (some 12)⟩⟩
    ⟨(∅ : GoMap Str (Option Nat)).insert "p".toList (some 12)⟩ (some 12)
    rfl rfl (by decide)

/-- C3: for a directory whose children are named by pairwise distinct valid copy
ids (V1: each child holds its registration string `c.2` as value; V2: each
child is a directory whose `reg` child holds it), the parser reaches
`upServlist` and the published processor index maps every processor `p` to the
endpoints `p` has in the documents of the copies, taken in ascending order of
copy id whatever the order of the children; the key `p` is absent when no copy
declares it. -/
theorem parse_processorIndex_ascending
    (unmarshalV1 : Str → Decoded (GoMap Str (Option ServInfo)))
    (unmarshalV2 : Str → Decoded (RegData ServInfo)) :
    (∀ (root : Node) (cs : List (Int × Str)),
      List.Forall₂ (fun n c => childId root.Key n = .done (some c.1) ∧ n.Value = c.2)
        root.Nodes cs →
      (cs.map Prod.fst).Nodup →
      ∃ sc sl, parseV1 unmarshalV1 root = .continued (sc, sl) ∧
        ∀ p, sl.lookup p = extend none
          (((cs.map Prod.fst).insertionSort (· ≤ ·)).filterMap
            (fun i => (cs.lookup i).bind (fun s => (unmarshalV1 s).val.lookup p)))) ∧
    (∀ (root : Node) (cs : List (Int × Str)),
      List.Forall₂
        (fun n c => n.Dir = true ∧ childId root.Key n = .done (some c.1) ∧ regOf n = some c.2)
        root.Nodes cs →
      (cs.map Prod.fst).Nodup →
      ∃ sc sl, parseV2 unmarshalV2 root = .continued (sc, sl) ∧
        ∀ p, sl.lookup p = extend none
          (((cs.map Prod.fst).insertionSort (· ≤ ·)).filterMap
            (fun i => (cs.lookup i).bind (fun s => (unmarshalV2 s).val.Servs.lookup p)))) := by
  refine ⟨?_, ?_⟩
  · intro root cs hf hnd
    obtain ⟨hcs, hp⟩ := forall2_copiesV1 _ _ _ hf
    obtain ⟨⟨sc, sl⟩, hsnap⟩ := parseV1_total unmarshalV1 root hp
    refine ⟨sc, sl, hsnap, ?_⟩
    intro p
    have hspec := parseV1_spec unmarshalV1 root _ hsnap
    have hsl : sl = (buildWith (docOfV1 unmarshalV1 (copiesV1 root.Key root.Nodes))
        ((copyIds root.Key root.Nodes).insertionSort (· ≤ ·)) ∅ ∅).2 := by rw [← hspec]
    rw [hsl, buildWith_servList, ← copiesV1_ids, hcs, map_fst_map_some]
    congr 1
    apply List.filterMap_congr
    intro i hi
    obtain ⟨s, hs⟩ := lookup_isSome_of_mem cs i ((mem_sort_iff _ i).mp hi)
    simp [docOfV1, lastReg_map_some cs hnd, Option.or_none, hs]
  · intro root cs hf hnd
    obtain ⟨hcs, hp⟩ := forall2_copiesV2 _ _ _ hf
    have hreg : ∀ i ∈ copyIds root.Key root.Nodes,
        (lastReg (copiesV2 root.Key root.Nodes) i none).isSome = true := by
      intro i hi
      rw [← copiesV2_ids, hcs, map_fst_map_some] at hi
      obtain ⟨s, hs⟩ := lookup_isSome_of_mem cs i hi
      simp [hcs, lastReg_map_some cs hnd, hs]
    obtain ⟨⟨sc, sl⟩, hsnap⟩ := parseV2_total unmarshalV2 root hp hreg
    refine ⟨sc, sl, hsnap, ?_⟩
    intro p
    have hspec := (parseV2_spec unmarshalV2 root _ hsnap).2
    have hsl : sl = (buildWith (docOfV2 unmarshalV2 (copiesV2 root.Key root.Nodes))
        ((copyIds root.Key root.Nodes).insertionSort (· ≤ ·)) ∅ ∅).2 := by rw [← hspec]
    rw [hsl, buildWith_servList, ← copiesV2_ids, hcs, map_fst_map_some]
    congr 1
    apply List.filterMap_congr
    intro i hi
    obtain ⟨s, hs⟩ := lookup_isSome_of_mem cs i ((mem_sort_iff _ i).mp hi)
    simp [docOfV2, lastReg_map_some cs hnd, Option.or_none, hs]

/-- Witness for C3: the V1 and the V2 directory with copies 5, 0, 2 yield the
sequence of copy 0, copy 2, copy 5 for `p`. -/
theorem parse_processorIndex_ascending_witness :
    (∃ sc sl, parseV1 demoUnmarshalV1 demoTreeV1 = .continued (sc, sl) ∧
      sl.lookup "p".toList = some [some 0, some 2, some 5]) ∧
    (∃ sc sl, parseV2 demoUnmarshalV2 demoTreeV2 = .continued (sc, sl) ∧
      sl.lookup "p".toList = some [some 0, some 2, some 5]) := by
  refine ⟨?_, ?_⟩
  · obtain ⟨sc, sl, h, hp⟩ :=
      (parse_processorIndex_ascending demoUnmarshalV1 demoUnmarshalV2).1 demoTreeV1
        [(5, "\x7b\"p\":5\x7d".toList), (0, "\x7b\"p\":0\x7d".toList),
         (2, "\x7b\"p\":2\x7d".toList)]
        (List.Forall₂.cons ⟨rfl, rfl⟩
          (List.Forall₂.cons ⟨rfl, rfl⟩ (List.Forall₂.cons ⟨rfl, rfl⟩ List.Forall₂.nil)))
        (by decide)
    exact ⟨sc, sl, h, (hp "p".toList).trans (by decide)⟩
  · obtain ⟨sc, sl, h, hp⟩ :=
      (parse_processorIndex_ascending demoUnmarshalV1 demoUnmarshalV2).2 demoTreeV2
        [(5, "\x7b\"servs\":\x7b\"p\":5\x7d\x7d".toList),
         (0, "\x7b\"servs\":\x7b\"p\":0\x7d\x7d".toList),
         (2, "\x7b\"servs\":\x7b\"p\":2\x7d\x7d".toList)]
        (List.Forall₂.cons ⟨rfl, rfl, rfl⟩
          (List.Forall₂.cons ⟨rfl, rfl, rfl⟩ (List.Forall₂.cons ⟨rfl, rfl, rfl⟩ List.Forall₂.nil)))
        (by decide)
    exact ⟨sc, sl, h, (hp "p".toList).trans (by decide)⟩

/-- C4 fails as stated: for the V1 directory with children `1` and `01`, both
holding `{"p":7}`, the published processor index lists two endpoints for `p`
while the copy index holds the single copy 1, so the sequence is not strictly
ordered by copy id of origin. -/
theorem parse_snapshotInvariant_fails_on_duplicate_ids :
    ∃ sc sl, parseV1 demoUnmarshalV1 demoTreeDup = .continued (sc, sl) ∧
      sl.lookup "p".toList = some [some 7, some 7] ∧ sc.keys = [1] ∧
      ¬ SnapshotInvariant sc sl :=
  ⟨_, _, rfl, by decide, by decide,
    not_snapshotInvariant_of_long_sequence _ _ "p".toList [some 7, some 7] (by decide)
      (by decide)⟩

/-- C4 (as amended): when no two valid child names denote the same integer,
the snapshot published by either parser satisfies the data-model invariant:
copy ids unique and non-negative, every processor sequence strictly ordered by
ascending copy id of origin. -/
theorem parse_snapshotInvariant
    (unmarshalV1 : Str → Decoded (GoMap Str (Option ServInfo)))
    (unmarshalV2 : Str → Decoded (RegData ServInfo)) :
    (∀ (root : Node) (sc : servCopyCollect ServInfo) (sl : GoMap Str (List (Option ServInfo))),
      parseV1 unmarshalV1 root = .continued (sc, sl) →
      (copyIds root.Key root.Nodes).Nodup → SnapshotInvariant sc sl) ∧
    (∀ (root : Node) (sc : servCopyCollect ServInfo) (sl : GoMap Str (List (Option ServInfo))),
      parseV2 unmarshalV2 root = .continued (sc, sl) →
      (copyIds root.Key root.Nodes).Nodup → SnapshotInvariant sc sl) := by
  refine ⟨?_, ?_⟩
  · intro root sc sl h hnd
    have hspec := parseV1_spec unmarshalV1 root _ h
    have hinv := buildWith_invariant (docOfV1 unmarshalV1 (copiesV1 root.Key root.Nodes)) _
      (sorted_copyIds root.Key root.Nodes hnd)
      (fun i hi => copyIds_nonneg ((mem_sort_iff _ i).mp hi))
    rw [← hspec] at hinv
    exact hinv
  · intro root sc sl h hnd
    have hspec := (parseV2_spec unmarshalV2 root _ h).2
    have hinv := buildWith_invariant (docOfV2 unmarshalV2 (copiesV2 root.Key root.Nodes)) _
      (sorted_copyIds root.Key root.Nodes hnd)
      (fun i hi => copyIds_nonneg ((mem_sort_iff _ i).mp hi))
    rw [← hspec] at hinv
    exact hinv

/-- Witness for C4 (as amended): the V1 and the V2 directory with copies
5, 0, 2. -/
theorem parse_snapshotInvariant_witness :
    (∃ sc sl, parseV1 demoUnmarshalV1 demoTreeV1 = .continued (sc, sl) ∧
      SnapshotInvariant sc sl) ∧
    (∃ sc sl, parseV2 demoUnmarshalV2 demoTreeV2 = .continued (sc, sl) ∧
      SnapshotInvariant sc sl) :=
  ⟨⟨_, _, rfl,
      (parse_snapshotInvariant demoUnmarshalV1 demoUnmarshalV2).1 demoTreeV1 _ _ rfl
        (by decide)⟩,
    ⟨_, _, rfl,
      (parse_snapshotInvariant demoUnmarshalV1 demoUnmarshalV2).2 demoTreeV2 _ _ rfl
        (by decide)⟩⟩

/-- C5 (defect): on a V2 directory in which copy directory 1 has no `reg`
child, `parseResponseV2` does not complete: the second loop dereferences the
absent `idServ[1]` and panics, whatever the decoder and the cache; nothing is
published, copy 0 included. -/
theorem parseResponseV2_panics_on_missing_reg
    (unmarshal : Str → Decoded (RegData ServInfo)) (m : ClientEtcdV2 ServInfo) :
    parseV2 unmarshal demoTreeNoReg = .panicked ∧
      parseResponseV2 unmarshal m ⟨some demoTreeNoReg⟩ = .panicked :=
  ⟨rfl, rfl⟩

/-- C6 fails as stated: for the V1 directory whose copy 0 holds the text
`oops`, on which decoding fails and leaves the nil map, the published copy
index has an entry for copy 0 (with the empty document); the copy is not
skipped. -/
theorem parse_keeps_undecodable_copy :
    (demoUnmarshalV1 "oops".toList).err = true ∧
      ∃ sc sl, parseV1 demoUnmarshalV1 demoTreeUndecodable = .continued (sc, sl) ∧
        sc.lookup 0 = some (some ⟨0, some ⟨∅⟩⟩) ∧ sc.keys = [1, 0] :=
  ⟨rfl, _, _, rfl, rfl, rfl⟩

/-- C6 (as amended): a copy whose registration string is not decodable is not
skipped. Take a directory with a child `bad` named by the valid copy id `i`,
no other child denoting `i`, on whose registration string the decoder reports an
error; whenever the parser publishes a snapshot for the directory without
`bad`, it publishes one for the directory with it, in which the copy index maps
`i` to the document the failed decode left behind and agrees with the other
snapshot on every other copy id, and every processor sequence is the other
snapshot's sequence with the left-over endpoint of copy `i` (if any) inserted;
for a processor absent from the left-over document the two processor indexes
agree. -/
theorem parse_records_undecodable_copy
    (unmarshalV1 : Str → Decoded (GoMap Str (Option ServInfo)))
    (unmarshalV2 : Str → Decoded (RegData ServInfo))
    (key : Str) (isDir : Bool) (value : Str) (pre post : List Node) (bad : Node) (i : Int)
    (hid : childId key bad = .done (some i)) (huniq : i ∉ copyIds key (pre ++ post)) :
    ((unmarshalV1 bad.Value).err = true →
      ∀ sc0 sl0, parseV1 unmarshalV1 (.mk key isDir value (pre ++ post)) = .continued (sc0, sl0) →
      ∃ sc sl, parseV1 unmarshalV1 (.mk key isDir value (pre ++ bad :: post)) =
          .continued (sc, sl) ∧
        sc.lookup i = some (some ⟨i, some ⟨(unmarshalV1 bad.Value).val⟩⟩) ∧
        (∀ j, j ≠ i → sc.lookup j = sc0.lookup j) ∧
        (∀ p, (unmarshalV1 bad.Value).val.lookup p = none → sl.lookup p = sl0.lookup p) ∧
        (∀ p, ∃ l₁ l₂, (sl0.lookup p).getD [] = l₁ ++ l₂ ∧
          (sl.lookup p).getD [] = l₁ ++ ((unmarshalV1 bad.Value).val.lookup p).toList ++ l₂)) ∧
    (∀ s, bad.Dir = true → regOf bad = some s → (unmarshalV2 s).err = true →
      ∀ sc0 sl0, parseV2 unmarshalV2 (.mk key isDir value (pre ++ post)) = .continued (sc0, sl0) →
      ∃ sc sl, parseV2 unmarshalV2 (.mk key isDir value (pre ++ bad :: post)) =
          .continued (sc, sl) ∧
        sc.lookup i = some (some ⟨i, some (unmarshalV2 s).val⟩) ∧
        (∀ j, j ≠ i → sc.lookup j = sc0.lookup j) ∧
        (∀ p, (unmarshalV2 s).val.Servs.lookup p = none → sl.lookup p = sl0.lookup p) ∧
        (∀ p, ∃ l₁ l₂, (sl0.lookup p).getD [] = l₁ ++ l₂ ∧
          (sl.lookup p).getD [] = l₁ ++ ((unmarshalV2 s).val.Servs.lookup p).toList ++ l₂)) := by
  have hbadp : childId key bad ≠ .panicked := by rw [hid]; simp
  have hipost : i ∉ (copiesV1 key post).map Prod.fst := by
    rw [copiesV1_ids]
    intro h
    exact huniq (by rw [copyIds_append]; simp [h])
  have hipost2 : i ∉ (copiesV2 key post).map Prod.fst := by
    rw [copiesV2_ids]
    intro h
    exact huniq (by rw [copyIds_append]; simp [h])
  have huniq' : i ∉ copyIds key pre ++ copyIds key post := by
    rw [← copyIds_append]; exact huniq
  refine ⟨?_, ?_⟩
  · intro _ sc0 sl0 h0
    have hp0 := parseV1_no_panic unmarshalV1 _ _ h0
    have hp : ∀ n ∈ (Node.mk key isDir value (pre ++ bad :: post)).Nodes,
        childId (Node.mk key isDir value (pre ++ bad :: post)).Key n ≠ .panicked := by
      intro n hn
      simp only [Node.Nodes, Node.Key, List.mem_append, List.mem_cons] at hn hp0 ⊢
      rcases hn with hn | rfl | hn
      · exact hp0 n (Or.inl hn)
      · exact hbadp
      · exact hp0 n (Or.inr hn)
    obtain ⟨⟨sc, sl⟩, hsnap⟩ := parseV1_total unmarshalV1 _ hp
    have hspec := parseV1_spec unmarshalV1 _ _ hsnap
    have hspec0 := parseV1_spec unmarshalV1 _ _ h0
    simp only [Node.Nodes, Node.Key] at hspec hspec0
    rw [copyIds_insert key pre post bad i hid] at hspec
    rw [copyIds_append] at hspec0
    have hdoc : ∀ j, j ≠ i →
        docOfV1 unmarshalV1 (copiesV1 key (pre ++ bad :: post)) j =
          docOfV1 unmarshalV1 (copiesV1 key (pre ++ post)) j := by
      intro j hj
      simp only [docOfV1, copiesV1_insert key pre post bad i hid, copiesV1_append]
      rw [lastReg_insert_ne _ _ _ _ _ (fun e : (i, some bad.Value).1 = j => hj e.symm)]
    have hdoci : docOfV1 unmarshalV1 (copiesV1 key (pre ++ bad :: post)) i =
        ⟨(unmarshalV1 bad.Value).val⟩ := by
      simp only [docOfV1, copiesV1_insert key pre post bad i hid]
      rw [lastReg_insert_eq _ _ _ _ _ hipost]
      rfl
    obtain ⟨h1, h2, h3, h4⟩ := buildWith_insert_copy _ _ _ _ i huniq' hdoc
    rw [← hspec, ← hspec0] at h2 h3 h4
    rw [← hspec] at h1
    rw [hdoci] at h1 h3 h4
    exact ⟨sc, sl, hsnap, h1, h2, h3, h4⟩
  · intro s hdir hreg _ sc0 sl0 h0
    have hp0 := parseV2_shape unmarshalV2 _ _ h0
    obtain ⟨hreg0, hspec0⟩ := parseV2_spec unmarshalV2 _ _ h0
    simp only [Node.Nodes, Node.Key] at hspec0 hreg0
    have hp : ∀ n ∈ (Node.mk key isDir value (pre ++ bad :: post)).Nodes,
        n.Dir = true ∧
          childId (Node.mk key isDir value (pre ++ bad :: post)).Key n ≠ .panicked := by
      intro n hn
      simp only [Node.Nodes, Node.Key, List.mem_append, List.mem_cons] at hn hp0 ⊢
      rcases hn with hn | rfl | hn
      · exact hp0 n (Or.inl hn)
      · exact ⟨hdir, hbadp⟩
      · exact hp0 n (Or.inr hn)
    have hlast : ∀ j, j ≠ i →
        lastReg (copiesV2 key (pre ++ bad :: post)) j none =
          lastReg (copiesV2 key (pre ++ post)) j none := by
      intro j hj
      rw [copiesV2_insert key pre post bad i hid, copiesV2_append]
      exact lastReg_insert_ne _ _ _ _ _ (fun e : (i, regOf bad).1 = j => hj e.symm)
    have hlasti : lastReg (copiesV2 key (pre ++ bad :: post)) i none = some s := by
      rw [copiesV2_insert key pre post bad i hid, hreg]
      exact lastReg_insert_eq _ _ _ _ _ hipost2
    have hregs : ∀ j ∈ copyIds (Node.mk key isDir value (pre ++ bad :: post)).Key
          (Node.mk key isDir value (pre ++ bad :: post)).Nodes,
        (lastReg (copiesV2 (Node.mk key isDir value (pre ++ bad :: post)).Key
          (Node.mk key isDir value (pre ++ bad :: post)).Nodes) j none).isSome = true := by
      intro j hj
      simp only [Node.Nodes, Node.Key] at hj ⊢
      by_cases hji : j = i
      · rw [hji, hlasti]; rfl
      · rw [hlast j hji]
        apply hreg0
        rw [copyIds_insert key pre post bad i hid] at hj
        rw [copyIds_append]
        simp only [List.mem_append, List.mem_cons] at hj ⊢
        rcases hj with h | h | h
        · exact Or.inl h
        · exact absurd h hji
        · exact Or.inr h
    obtain ⟨⟨sc, sl⟩, hsnap⟩ := parseV2_total unmarshalV2 _ hp hregs
    have hspec := (parseV2_spec unmarshalV2 _ _ hsnap).2
    simp only [Node.Nodes, Node.Key] at hspec
    rw [copyIds_insert key pre post bad i hid] at hspec
    rw [copyIds_append] at hspec0
    have hdoc : ∀ j, j ≠ i →
        docOfV2 unmarshalV2 (copiesV2 key (pre ++ bad :: post)) j =
          docOfV2 unmarshalV2 (copiesV2 key (pre ++ post)) j := by
      intro j hj
      simp only [docOfV2, hlast j hj]
    have hdoci : docOfV2 unmarshalV2 (copiesV2 key (pre ++ bad :: post)) i =
        (unmarshalV2 s).val := by
      simp only [docOfV2, hlasti]
    obtain ⟨h1, h2, h3, h4⟩ := buildWith_insert_copy _ _ _ _ i huniq' hdoc
    rw [← hspec, ← hspec0] at h2 h3 h4
    rw [← hspec] at h1
    rw [hdoci] at h1 h3 h4
    exact ⟨sc, sl, hsnap, h1, h2, h3, h4⟩

/-- Witness for C6 (as amended): copy 0 with the undecodable text `oops` next to
copy 1, in a V1 and in a V2 directory: copy 0 is recorded with the empty
document and the sequence of `p` is that of copy 1 alone. -/
theorem parse_records_undecodable_copy_witness :
    (∃ sc sl, parseV1 demoUnmarshalV1 demoTreeUndecodable = .continued (sc, sl) ∧
      sc.lookup 0 = some (some ⟨0, some ⟨∅⟩⟩) ∧ sl.lookup "p".toList = some [some 1]) ∧
    (∃ sc sl, parseV2 demoUnmarshalV2 demoTreeUndecodableV2 = .continued (sc, sl) ∧
      sc.lookup 0 = some (some ⟨0, some ⟨∅⟩⟩) ∧ sl.lookup "p".toList = some [some 1]) := by
  refine ⟨?_, ?_⟩
  · obtain ⟨sc, sl, h, h1, _, h3, _⟩ :=
      (parse_records_undecodable_copy demoUnmarshalV1 demoUnmarshalV2 "/roc/dist/svc".toList
        true [] [] [leaf "/roc/dist/svc/1" "\x7b\"p\":1\x7d"] (leaf "/roc/dist/svc/0" "oops") 0
        rfl (by decide)).1 rfl _ _ rfl
    exact ⟨sc, sl, h, h1, (h3 "p".toList rfl).trans (by decide)⟩
  · obtain ⟨sc, sl, h, h1, _, h3, _⟩ :=
      (parse_records_undecodable_copy demoUnmarshalV1 demoUnmarshalV2 "/roc/dist2/svc".toList
        true [] []
        [dir "/roc/dist2/svc/1"
          [leaf "/roc/dist2/svc/1/reg" "\x7b\"servs\":\x7b\"p\":1\x7d\x7d"]]
        (dir "/roc/dist2/svc/0" [leaf "/roc/dist2/svc/0/reg" "oops"]) 0
        rfl (by decide)).2 "oops".toList rfl rfl rfl _ _ rfl
    exact ⟨sc, sl, h, h1, (h3 "p".toList rfl).trans (by decide)⟩

/-- C7 (defect): on a V2 directory holding the valid copy directory 1 and a
leaf child, `parseResponseV2` returns at the leaf before `upServlist`: nothing
is published, the cache is left as it was and copy 1 is not served. -/
theorem parseResponseV2_returns_on_leaf_child
    (unmarshal : Str → Decoded (RegData ServInfo)) (m : ClientEtcdV2 ServInfo) :
    parseV2 unmarshal demoTreeLeaf = .returned ∧
      parseResponseV2 unmarshal m ⟨some demoTreeLeaf⟩ = .done m :=
  ⟨rfl, rfl⟩

/-- C8 (defect): a leaf child with an invalid name is not skipped by
`parseResponseV2`: on the V2 directory with copy 2 and the leaf `tmp` the parser
returns before `upServlist`, while on the directory without that leaf it
publishes copy 2. -/
theorem parseV2_leaf_with_bad_name_not_skipped :
    Atoi "tmp".toList = none ∧
      parseV2 demoUnmarshalV2 demoTreeLeafBadName = .returned ∧
      ∃ sc sl,
        parseV2 demoUnmarshalV2
            (dir "/roc/dist2/svc"
              [dir "/roc/dist2/svc/2"
                [leaf "/roc/dist2/svc/2/reg" "\x7b\"servs\":\x7b\"p\":2\x7d\x7d"]]) =
          .continued (sc, sl) ∧
        sl.lookup "p".toList = some [some 2] :=
  ⟨by decide, rfl, _, _, rfl, by decide⟩

/-- Where the id check is reached (for `parseResponseV2`: on a child
directory), a child whose name is not a decimal integer or denotes a negative
integer is skipped: both
parsers do on the directory exactly what they do on the directory without that
child, so the same snapshot is published and sibling copies are parsed. -/
theorem parse_skips_bad_copy_id
    (unmarshalV1 : Str → Decoded (GoMap Str (Option ServInfo)))
    (unmarshalV2 : Str → Decoded (RegData ServInfo))
    (key : Str) (isDir : Bool) (value : Str) (pre post : List Node) (bad : Node) (name : Str)
    (hkey : bad.Key = key ++ '/' :: name)
    (hbad : Atoi name = none ∨ ∃ id, Atoi name = some id ∧ id < 0) :
    parseV1 unmarshalV1 (.mk key isDir value (pre ++ bad :: post)) =
        parseV1 unmarshalV1 (.mk key isDir value (pre ++ post)) ∧
      (∀ m : ClientEtcdV2 ServInfo,
        parseResponseV1 unmarshalV1 m ⟨some (.mk key isDir value (pre ++ bad :: post))⟩ =
          parseResponseV1 unmarshalV1 m ⟨some (.mk key isDir value (pre ++ post))⟩) ∧
      (bad.Dir = true →
        parseV2 unmarshalV2 (.mk key isDir value (pre ++ bad :: post)) =
          parseV2 unmarshalV2 (.mk key isDir value (pre ++ post)) ∧
        ∀ m : ClientEtcdV2 ServInfo,
          parseResponseV2 unmarshalV2 m ⟨some (.mk key isDir value (pre ++ bad :: post))⟩ =
            parseResponseV2 unmarshalV2 m ⟨some (.mk key isDir value (pre ++ post))⟩) := by
  have hc := childId_of_bad_name key name bad hkey hbad
  have h1 : parseV1 unmarshalV1 (.mk key isDir value (pre ++ bad :: post)) =
      parseV1 unmarshalV1 (.mk key isDir value (pre ++ post)) := by
    simp only [parseV1, Node.Key, Node.Nodes, collectV1_skip key pre post bad hc]
  refine ⟨h1, ?_, ?_⟩
  · intro m
    simp only [parseResponseV1, h1]
  · intro hdir
    have h2 : parseV2 unmarshalV2 (.mk key isDir value (pre ++ bad :: post)) =
        parseV2 unmarshalV2 (.mk key isDir value (pre ++ post)) := by
      simp only [parseV2, Node.Key, Node.Nodes, collectV2_skip key pre post bad hdir hc]
    exact ⟨h2, fun m => by simp only [parseResponseV2, h2]⟩

/-- Example of the skip: the child `tmp` between the copies 2 and 0 of a V1
directory and the child directory `-1` between the copies 2 and 0 of a V2
directory are skipped; the copies 0 and 2 are published in this order. -/
theorem parse_skips_bad_copy_id_witness :
    (parseV1 demoUnmarshalV1 demoTreeBadName =
        parseV1 demoUnmarshalV1
          (dir "/roc/dist/svc"
            [leaf "/roc/dist/svc/2" "\x7b\"p\":2\x7d", leaf "/roc/dist/svc/0" "\x7b\"p\":0\x7d"]) ∧
      ∃ sc sl, parseV1 demoUnmarshalV1 demoTreeBadName = .continued (sc, sl) ∧
        sl.lookup "p".toList = some [some 0, some 2]) ∧
    (parseV2 demoUnmarshalV2 demoTreeNegName =
        parseV2 demoUnmarshalV2
          (dir "/roc/dist2/svc"
            [dir "/roc/dist2/svc/2"
              [leaf "/roc/dist2/svc/2/reg" "\x7b\"servs\":\x7b\"p\":2\x7d\x7d"],
             dir "/roc/dist2/svc/0"
              [leaf "/roc/dist2/svc/0/reg" "\x7b\"servs\":\x7b\"p\":0\x7d\x7d"]]) ∧
      ∃ sc sl, parseV2 demoUnmarshalV2 demoTreeNegName = .continued (sc, sl) ∧
        sl.lookup "p".toList = some [some 0, some 2]) :=
  ⟨⟨(parse_skips_bad_copy_id demoUnmarshalV1 demoUnmarshalV2 "/roc/dist/svc".toList true []
      [leaf "/roc/dist/svc/2" "\x7b\"p\":2\x7d"] [leaf "/roc/dist/svc/0" "\x7b\"p\":0\x7d"]
      (leaf "/roc/dist/svc/tmp" "\x7b\"p\":9\x7d") "tmp".toList rfl (Or.inl (by decide))).1,
    _, _, rfl, by decide⟩,
   ⟨((parse_skips_bad_copy_id demoUnmarshalV1 demoUnmarshalV2 "/roc/dist2/svc".toList true []
      [dir "/roc/dist2/svc/2" [leaf "/roc/dist2/svc/2/reg" "\x7b\"servs\":\x7b\"p\":2\x7d\x7d"]]
      [dir "/roc/dist2/svc/0" [leaf "/roc/dist2/svc/0/reg" "\x7b\"servs\":\x7b\"p\":0\x7d\x7d"]]
      (dir "/roc/dist2/svc/-1"
        [leaf "/roc/dist2/svc/-1/reg" "\x7b\"servs\":\x7b\"p\":9\x7d\x7d"])
      "-1".toList rfl (Or.inr ⟨-1, by decide, by decide⟩)).2.2 rfl).1,
    _, _, rfl, by decide⟩⟩

/-- C9: `parseResponse` leaves the resolver, hence its cached snapshot and the
result of every later query, exactly as it was when the read gives no response,
when the root node of the response is a leaf, and when the schema tag is
neither `BASE_LOC_DIST` nor `BASE_LOC_DIST_V2`. -/
theorem parseResponse_abort_keeps_cache (BASE_LOC_DIST BASE_LOC_DIST_V2 : Str)
    (unmarshalV1 : Str → Decoded (GoMap Str (Option ServInfo)))
    (unmarshalV2 : Str → Decoded (RegData ServInfo))
    (etcdGet : Str → Option Response) (m : ClientEtcdV2 ServInfo) :
    (etcdGet m.servPath = none →
      parseResponse BASE_LOC_DIST BASE_LOC_DIST_V2 unmarshalV1 unmarshalV2 etcdGet m = .done m) ∧
    (∀ (r : Response) (root : Node), etcdGet m.servPath = some r → r.Node = some root →
      root.Dir = false →
      parseResponse BASE_LOC_DIST BASE_LOC_DIST_V2 unmarshalV1 unmarshalV2 etcdGet m = .done m) ∧
    (∀ (r : Response) (root : Node), etcdGet m.servPath = some r → r.Node = some root →
      m.distLoc ≠ BASE_LOC_DIST → m.distLoc ≠ BASE_LOC_DIST_V2 →
      parseResponse BASE_LOC_DIST BASE_LOC_DIST_V2 unmarshalV1 unmarshalV2 etcdGet m = .done m) := by
  refine ⟨?_, ?_, ?_⟩
  · intro h
    simp [parseResponse, h]
  · intro r root hr hn hd
    simp [parseResponse, hr, hn, hd]
  · intro r root hr hn h1 h2
    simp [parseResponse, hr, hn, h1, h2]

/-- Witness for C9 on `demoCache`: a failed read, a leaf as root of the
response, and a cache with the unknown schema tag `dist3`. -/
theorem parseResponse_abort_keeps_cache_witness :
    parseResponse "dist".toList "dist2".toList demoUnmarshalV1 demoUnmarshalV2
        (fun _ => none) demoCache = .done demoCache ∧
      parseResponse "dist".toList "dist2".toList demoUnmarshalV1 demoUnmarshalV2
        (fun _ => some ⟨some (leaf "/roc/dist2/svc" "x")⟩) demoCache = .done demoCache ∧
      parseResponse "dist".toList "dist2".toList demoUnmarshalV1 demoUnmarshalV2
        (fun _ => some ⟨some demoTreeV2⟩) demoCacheOtherTag = .done demoCacheOtherTag :=
  ⟨(parseResponse_abort_keeps_cache "dist".toList "dist2".toList demoUnmarshalV1 demoUnmarshalV2
      (fun _ => none) demoCache).1 rfl,
   (parseResponse_abort_keeps_cache "dist".toList "dist2".toList demoUnmarshalV1 demoUnmarshalV2
      (fun _ => some ⟨some (leaf "/roc/dist2/svc" "x")⟩) demoCache).2.1 _ _ rfl rfl rfl,
   (parseResponse_abort_keeps_cache "dist".toList "dist2".toList demoUnmarshalV1 demoUnmarshalV2
      (fun _ => some ⟨some demoTreeV2⟩) demoCacheOtherTag).2.2 _ _ rfl rfl (by decide)
      (by decide)⟩

/-- C10 (defect): `parseResponseV2` publishes nothing for a directory without
valid copies when a child is a leaf: on the V2 directory whose only child is
the leaf `tmp` the parser returns before `upServlist`; the cache stays
`demoCache`, whose processor index still answers a query for `p`. -/
theorem parseResponseV2_only_leaf_publishes_nothing :
    Atoi "tmp".toList = none ∧
      parseV2 demoUnmarshalV2 demoTreeOnlyLeaf = .returned ∧
      parseResponseV2 demoUnmarshalV2 demoCache ⟨some demoTreeOnlyLeaf⟩ = .done demoCache ∧
      GetServAddr demoCache "p".toList "a".toList = .done (some 10) :=
  ⟨by decide, rfl, rfl, by
    set_option maxRecDepth 100000 in rfl⟩

/-- Where no child is a leaf under `parseResponseV2`: on a directory with zero
valid copies (every child, if any, has a name
that is not a decimal integer or denotes a negative one; for `parseResponseV2`
the children are directories) the parser reaches `upServlist` with the empty
snapshot, and afterwards `GetServAddr` and `GetServAddrWithServid` return nil for
every argument and `GetAllServAddr` returns the empty map, none of them
panicking. -/
theorem parse_no_copies_publishes_empty
    (unmarshalV1 : Str → Decoded (GoMap Str (Option ServInfo)))
    (unmarshalV2 : Str → Decoded (RegData ServInfo)) (root : Node) (m : ClientEtcdV2 ServInfo) :
    ((∀ n ∈ root.Nodes, ∃ name, n.Key = root.Key ++ '/' :: name ∧
        (Atoi name = none ∨ ∃ id, Atoi name = some id ∧ id < 0)) →
      parseV1 unmarshalV1 root = .continued (∅, ∅) ∧
      ∃ m2, parseResponseV1 unmarshalV1 m ⟨some root⟩ = .done m2 ∧
        (∀ processor key, GetServAddr m2 processor key = .done none) ∧
        (∀ servid processor key, GetServAddrWithServid m2 servid processor key = none) ∧
        GetAllServAddr m2 = ∅) ∧
    ((∀ n ∈ root.Nodes, n.Dir = true ∧ ∃ name, n.Key = root.Key ++ '/' :: name ∧
        (Atoi name = none ∨ ∃ id, Atoi name = some id ∧ id < 0)) →
      parseV2 unmarshalV2 root = .continued (∅, ∅) ∧
      ∃ m2, parseResponseV2 unmarshalV2 m ⟨some root⟩ = .done m2 ∧
        (∀ processor key, GetServAddr m2 processor key = .done none) ∧
        (∀ servid processor key, GetServAddrWithServid m2 servid processor key = none) ∧
        GetAllServAddr m2 = ∅) := by
  refine ⟨?_, ?_⟩
  · intro h
    have hc : ∀ n ∈ root.Nodes, childId root.Key n = .done none := by
      intro n hn
      obtain ⟨name, hk, hb⟩ := h n hn
      exact childId_of_bad_name root.Key name n hk hb
    have hp : parseV1 unmarshalV1 root = .continued (∅, ∅) := by
      simp only [parseV1, collectV1_all_bad root.Key root.Nodes hc]
      rfl
    exact ⟨hp, upServlist m ∅ ∅, by simp only [parseResponseV1, hp],
      queries_on_empty_snapshot m⟩
  · intro h
    have hc : ∀ n ∈ root.Nodes, n.Dir = true ∧ childId root.Key n = .done none := by
      intro n hn
      obtain ⟨hd, name, hk, hb⟩ := h n hn
      exact ⟨hd, childId_of_bad_name root.Key name n hk hb⟩
    have hp : parseV2 unmarshalV2 root = .continued (∅, ∅) := by
      simp only [parseV2, collectV2_all_bad root.Key root.Nodes hc]
      rfl
    exact ⟨hp, upServlist m ∅ ∅, by simp only [parseResponseV2, hp],
      queries_on_empty_snapshot m⟩

/-- Example of the empty snapshot: a V1 directory and a V2 directory whose children are named
`tmp` and `-4`, parsed over `demoCache`. -/
theorem parse_no_copies_publishes_empty_witness :
    (parseV1 demoUnmarshalV1 demoTreeNoCopies = .continued (∅, ∅) ∧
      ∃ m2, parseResponseV1 demoUnmarshalV1 demoCache ⟨some demoTreeNoCopies⟩ = .done m2 ∧
        (∀ processor key, GetServAddr m2 processor key = .done none) ∧
        (∀ servid processor key, GetServAddrWithServid m2 servid processor key = none) ∧
        GetAllServAddr m2 = ∅) ∧
    (parseV2 demoUnmarshalV2 demoTreeNoCopiesV2 = .continued (∅, ∅) ∧
      ∃ m2, parseResponseV2 demoUnmarshalV2 demoCache ⟨some demoTreeNoCopiesV2⟩ = .done m2 ∧
        (∀ processor key, GetServAddr m2 processor key = .done none) ∧
        (∀ servid processor key, GetServAddrWithServid m2 servid processor key = none) ∧
        GetAllServAddr m2 = ∅) :=
  ⟨(parse_no_copies_publishes_empty demoUnmarshalV1 demoUnmarshalV2 demoTreeNoCopies
      demoCache).1 (by
        intro n hn
        simp only [demoTreeNoCopies, dir, Node.Nodes, List.mem_cons, List.mem_singleton,
          List.not_mem_nil, or_false] at hn
        rcases hn with rfl | rfl
        · exact ⟨"tmp".toList, rfl, Or.inl (by decide)⟩
        · exact ⟨"-4".toList, rfl, Or.inr ⟨-4, by decide, by decide⟩⟩),
   (parse_no_copies_publishes_empty demoUnmarshalV1 demoUnmarshalV2 demoTreeNoCopiesV2
      demoCache).2 (by
        intro n hn
        simp only [demoTreeNoCopiesV2, dir, Node.Nodes, List.mem_cons, List.mem_singleton,
          List.not_mem_nil, or_false] at hn
        rcases hn with rfl | rfl
        · exact ⟨rfl, "tmp".toList, rfl, Or.inl (by decide)⟩
        · exact ⟨rfl, "-4".toList, rfl, Or.inr ⟨-4, by decide, by decide⟩⟩)⟩

/-- C11: take copies with pairwise distinct valid ids, a V1 directory holding
each copy as a child whose value is its V1 text, and a V2 directory holding
each copy as a child directory whose `reg` child holds its V2 text, the children
in any order; when for every copy id the two texts decode to the same
processor-to-endpoint mapping, both parsers reach `upServlist` with processor
indexes that have the same processor names and, for each of them, the same
sequence of endpoints in the same order. -/
theorem parse_V1_V2_same_processorIndex
    (unmarshalV1 : Str → Decoded (GoMap Str (Option ServInfo)))
    (unmarshalV2 : Str → Decoded (RegData ServInfo))
    (root1 root2 : Node) (cs1 cs2 : List (Int × Str))
    (hf1 : List.Forall₂ (fun n c => childId root1.Key n = .done (some c.1) ∧ n.Value = c.2)
      root1.Nodes cs1)
    (hf2 : List.Forall₂
      (fun n c => n.Dir = true ∧ childId root2.Key n = .done (some c.1) ∧ regOf n = some c.2)
      root2.Nodes cs2)
    (hnd : (cs1.map Prod.fst).Nodup)
    (hids : List.Perm (cs1.map Prod.fst) (cs2.map Prod.fst))
    (hdoc : ∀ i s1 s2, cs1.lookup i = some s1 → cs2.lookup i = some s2 →
      ∀ p, (unmarshalV1 s1).val.lookup p = (unmarshalV2 s2).val.Servs.lookup p) :
    ∃ sc1 sl1 sc2 sl2,
      parseV1 unmarshalV1 root1 = .continued (sc1, sl1) ∧
      parseV2 unmarshalV2 root2 = .continued (sc2, sl2) ∧
      ∀ p, sl1.lookup p = sl2.lookup p := by
  have hnd2 : (cs2.map Prod.fst).Nodup := hids.nodup_iff.mp hnd
  have h1 := parseV1_of_copies unmarshalV1 root1 cs1 hf1 hnd
  have h2 := parseV2_of_copies unmarshalV2 root2 cs2 hf2 hnd2
  refine ⟨_, _, _, _, h1, h2, ?_⟩
  intro p
  rw [buildWith_servList, buildWith_servList, sort_eq_of_perm _ _ hids]
  congr 1
  apply List.filterMap_congr
  intro i hi
  have hi2 : i ∈ cs2.map Prod.fst := (mem_sort_iff _ i).mp hi
  have hi1 : i ∈ cs1.map Prod.fst := hids.mem_iff.mpr hi2
  obtain ⟨s1, hs1⟩ := lookup_isSome_of_mem cs1 i hi1
  obtain ⟨s2, hs2⟩ := lookup_isSome_of_mem cs2 i hi2
  simp only [hs1, hs2, Option.getD_some]
  exact hdoc i s1 s2 hs1 hs2 p

/-- Witness for C11: the copies 5, 0, 2 stored as the V1 directory `demoTreeV1`
and, in another order, as the V2 directory `demoTreeV2Shuffled`. -/
theorem parse_V1_V2_same_processorIndex_witness :
    ∃ sc1 sl1 sc2 sl2,
      parseV1 demoUnmarshalV1 demoTreeV1 = .continued (sc1, sl1) ∧
      parseV2 demoUnmarshalV2 demoTreeV2Shuffled = .continued (sc2, sl2) ∧
      ∀ p, sl1.lookup p = sl2.lookup p :=
  parse_V1_V2_same_processorIndex demoUnmarshalV1 demoUnmarshalV2 demoTreeV1 demoTreeV2Shuffled
    [(5, "\x7b\"p\":5\x7d".toList), (0, "\x7b\"p\":0\x7d".toList),
     (2, "\x7b\"p\":2\x7d".toList)]
    [(2, "\x7b\"servs\":\x7b\"p\":2\x7d\x7d".toList),
     (5, "\x7b\"servs\":\x7b\"p\":5\x7d\x7d".toList),
     (0, "\x7b\"servs\":\x7b\"p\":0\x7d\x7d".toList)]
    (List.Forall₂.cons ⟨rfl, rfl⟩
      (List.Forall₂.cons ⟨rfl, rfl⟩ (List.Forall₂.cons ⟨rfl, rfl⟩ List.Forall₂.nil)))
    (List.Forall₂.cons ⟨rfl, rfl, rfl⟩
      (List.Forall₂.cons ⟨rfl, rfl, rfl⟩ (List.Forall₂.cons ⟨rfl, rfl, rfl⟩ List.Forall₂.nil)))
    (by decide) (by decide)
    (by
      intro i s1 s2 h1 h2 p
      by_cases h5 : i = 5
      · subst h5
        obtain rfl : "\x7b\"p\":5\x7d".toList = s1 := by simpa [List.lookup_cons] using h1
        obtain rfl : "\x7b\"servs\":\x7b\"p\":5\x7d\x7d".toList = s2 := by
          simpa [List.lookup_cons] using h2
        rfl
      · by_cases h0 : i = 0
        · subst h0
          obtain rfl : "\x7b\"p\":0\x7d".toList = s1 := by simpa [List.lookup_cons] using h1
          obtain rfl : "\x7b\"servs\":\x7b\"p\":0\x7d\x7d".toList = s2 := by
            simpa [List.lookup_cons] using h2
          rfl
        · by_cases h2' : i = 2
          · subst h2'
            obtain rfl : "\x7b\"p\":2\x7d".toList = s1 := by simpa [List.lookup_cons] using h1
            obtain rfl : "\x7b\"servs\":\x7b\"p\":2\x7d\x7d".toList = s2 := by
              simpa [List.lookup_cons] using h2
            rfl
          · have e5 : (i == 5) = false := by simpa using h5
            have e0 : (i == 0) = false := by simpa using h0
            have e2 : (i == 2) = false := by simpa using h2'
            simp [List.lookup_cons, e5, e0, e2] at h1)

/-- C12: a parse that reaches `upServlist` replaces the snapshot wholesale: the
processor index and the copy index of the resolver become exactly the two maps
built from the tree, whatever the resolver held before (two resolvers parsing
the same response end with the same indexes), and `confEtcd`, `servKey`,
`servPath` and `distLoc` are unchanged. -/
theorem parseResponse_replaces_snapshot
    (unmarshalV1 : Str → Decoded (GoMap Str (Option ServInfo)))
    (unmarshalV2 : Str → Decoded (RegData ServInfo)) (root : Node)
    (sc : servCopyCollect ServInfo) (sl : GoMap Str (List (Option ServInfo))) :
    (parseV1 unmarshalV1 root = .continued (sc, sl) →
      ∀ m : ClientEtcdV2 ServInfo, ∃ m2,
        parseResponseV1 unmarshalV1 m ⟨some root⟩ = .done m2 ∧
        m2.servList = sl ∧ m2.servCopy = sc ∧ m2.confEtcd = m.confEtcd ∧
        m2.servKey = m.servKey ∧ m2.servPath = m.servPath ∧ m2.distLoc = m.distLoc) ∧
    (parseV2 unmarshalV2 root = .continued (sc, sl) →
      ∀ m : ClientEtcdV2 ServInfo, ∃ m2,
        parseResponseV2 unmarshalV2 m ⟨some root⟩ = .done m2 ∧
        m2.servList = sl ∧ m2.servCopy = sc ∧ m2.confEtcd = m.confEtcd ∧
        m2.servKey = m.servKey ∧ m2.servPath = m.servPath ∧ m2.distLoc = m.distLoc) := by
  refine ⟨?_, ?_⟩
  · intro h m
    exact ⟨upServlist m sc sl, by simp only [parseResponseV1, h], rfl, rfl, rfl, rfl, rfl, rfl⟩
  · intro h m
    exact ⟨upServlist m sc sl, by simp only [parseResponseV2, h], rfl, rfl, rfl, rfl, rfl, rfl⟩

/-- Witness for C12: parsing the V1 and the V2 directory with copies 5, 0, 2
over `demoCache`, whose entry `[10, 12, 15]` for `p` and whose copy 2 are
replaced. -/
theorem parseResponse_replaces_snapshot_witness :
    (∃ m2, parseResponseV1 demoUnmarshalV1 demoCache ⟨some demoTreeV1⟩ = .done m2 ∧
      m2.servList.lookup "p".toList = some [some 0, some 2, some 5] ∧
      m2.servPath = demoCache.servPath) ∧
    (∃ m2, parseResponseV2 demoUnmarshalV2 demoCache ⟨some demoTreeV2⟩ = .done m2 ∧
      m2.servList.lookup "p".toList = some [some 0, some 2, some 5] ∧
      m2.servPath = demoCache.servPath) := by
  refine ⟨?_, ?_⟩
  · obtain ⟨m2, h, hsl, _, _, _, hp, _⟩ :=
      (parseResponse_replaces_snapshot demoUnmarshalV1 demoUnmarshalV2 demoTreeV1 _ _).1 rfl
        demoCache
    exact ⟨m2, h, by rw [hsl]; decide, hp⟩
  · obtain ⟨m2, h, hsl, _, _, _, hp, _⟩ :=
      (parseResponse_replaces_snapshot demoUnmarshalV1 demoUnmarshalV2 demoTreeV2 _ _).2 rfl
        demoCache
    exact ⟨m2, h, by rw [hsl]; decide, hp⟩

/-- C13: on a memory in which the resolver's map and its slices are allocated,
`GetAllServAddr` returns a map with exactly the keys of the processor index, each
with a sequence equal to the cached one element by element; the call leaves
what the cache holds unchanged; the returned map is a new map object and its
slices have new backing arrays, so that writing the returned map (adding,
removing, replacing entries) or the backing array of a returned slice
(replacing elements) does not change what the cache holds. The map of the value
embedding has the same content as the returned map, and a resolver value that
describes the memory before the call describes it after the call and after
such writes, so every later query answers as before. -/
theorem GetAllServAddr_independent_copy (h : Heap ServInfo) (servList : Option Nat)
    (hwf : h.allocated servList = true) :
    (∀ k, (GetAllServAddrH h servList).1.seqAt (some (GetAllServAddrH h servList).2) k =
      h.seqAt servList k) ∧
    (∀ k, (GetAllServAddrH h servList).1.seqAt servList k = h.seqAt servList k) ∧
    (∀ r, servList = some r → r < (GetAllServAddrH h servList).2) ∧
    (∀ mp k,
      ((GetAllServAddrH h servList).1.setMap (GetAllServAddrH h servList).2 mp).seqAt
        servList k = h.seqAt servList k) ∧
    (∀ rvm key a l k,
      (GetAllServAddrH h servList).1.maps[(GetAllServAddrH h servList).2]? = some rvm →
      rvm.lookup key = some a →
      h.arrays.length ≤ a ∧
        ((GetAllServAddrH h servList).1.setArray a l).seqAt servList k = h.seqAt servList k) ∧
    (∀ m : ClientEtcdV2 ServInfo, Represents m h servList →
      (∀ k, (GetAllServAddr m).lookup k =
        (GetAllServAddrH h servList).1.seqAt (some (GetAllServAddrH h servList).2) k) ∧
      Represents m (GetAllServAddrH h servList).1 servList ∧
      (∀ mp, Represents m
        ((GetAllServAddrH h servList).1.setMap (GetAllServAddrH h servList).2 mp) servList) ∧
      (∀ rvm key a l,
        (GetAllServAddrH h servList).1.maps[(GetAllServAddrH h servList).2]? = some rvm →
        rvm.lookup key = some a →
        Represents m ((GetAllServAddrH h servList).1.setArray a l) servList)) := by
  have main : (∀ k, (GetAllServAddrH h servList).1.seqAt (some (GetAllServAddrH h servList).2) k =
        h.seqAt servList k) ∧
      (∀ k, (GetAllServAddrH h servList).1.seqAt servList k = h.seqAt servList k) ∧
      (∀ r, servList = some r → r < (GetAllServAddrH h servList).2) ∧
      (∀ mp k,
        ((GetAllServAddrH h servList).1.setMap (GetAllServAddrH h servList).2 mp).seqAt
          servList k = h.seqAt servList k) ∧
      (∀ rvm key a l k,
        (GetAllServAddrH h servList).1.maps[(GetAllServAddrH h servList).2]? = some rvm →
        rvm.lookup key = some a →
        h.arrays.length ≤ a ∧
          ((GetAllServAddrH h servList).1.setArray a l).seqAt servList k =
            h.seqAt servList k) := by
    cases servList with
    | none =>
      refine ⟨?_, fun _ => rfl, fun r hr => (by cases hr), fun _ _ => rfl, ?_⟩
      · intro k
        simp [GetAllServAddrH, Heap.seqAt]
      · intro rvm key a l k hrv hk
        have hrvm : rvm = ∅ := by
          simpa [GetAllServAddrH] using hrv.symm
        subst hrvm
        simp at hk
    | some r =>
      cases hm : h.maps[r]? with
      | none => simp [Heap.allocated, hm] at hwf
      | some mp =>
        obtain ⟨e, rvm, hres, hk⟩ := GetAllServAddrH_facts h r mp hm hwf
        have hr : r < h.maps.length := by
          by_contra hge
          rw [List.getElem?_eq_none (Nat.le_of_not_lt hge)] at hm
          cases hm
        have hlt : ∀ k a, mp.lookup k = some a → a < h.arrays.length :=
          fun k a => allocated_lt h r mp hm hwf k a
        rw [hres]
        simp only
        have hmr : (h.maps ++ [rvm])[r]? = some mp := by
          rw [List.getElem?_append_left hr, hm]
        have hrv : (h.maps ++ [rvm])[h.maps.length]? = some rvm :=
          List.getElem?_concat_length _ _
        refine ⟨?_, ?_, ?_, ?_, ?_⟩
        · intro k
          simp only [Heap.seqAt, hrv, hm]
          cases hl : mp.lookup k with
          | none => simp [(hk k).2 hl]
          | some a =>
            obtain ⟨n, hn, _, hget⟩ := (hk k).1 a hl
            simp [hn, hget]
        · intro k
          exact seqAt_congr h _ r mp hm hmr
            (fun k a ha => List.getElem?_append_left (hlt k a ha)) k
        · intro r2 hr2
          simp only [Option.some.injEq] at hr2
          subst hr2
          exact hr
        · intro mp2 k
          refine seqAt_congr h _ r mp hm ?_
            (fun k a ha => List.getElem?_append_left (hlt k a ha)) k
          simp only [Heap.setMap]
          rw [List.getElem?_set_ne (Nat.ne_of_gt hr), hmr]
        · intro rvm2 key a l k hrv2 hkey
          rw [hrv] at hrv2
          simp only [Option.some.injEq] at hrv2
          subst hrv2
          have hge : h.arrays.length ≤ a := by
            cases hl : mp.lookup key with
            | none =>
              rw [(hk key).2 hl] at hkey
              cases hkey
            | some a2 =>
              obtain ⟨n, hn, hge, _⟩ := (hk key).1 a2 hl
              rw [hn] at hkey
              simp only [Option.some.injEq] at hkey
              subst hkey
              exact hge
          refine ⟨hge, seqAt_congr h _ r mp hm hmr ?_ k⟩
          intro k2 a2 ha2
          simp only [Heap.setArray]
          have hne : a ≠ a2 := by
            have := hlt k2 a2 ha2
            omega
          rw [List.getElem?_set_ne hne, List.getElem?_append_left (hlt k2 a2 ha2)]
  obtain ⟨h1, h2, h3, h4, h5⟩ := main
  refine ⟨h1, h2, h3, h4, h5, ?_⟩
  intro m hrep
  refine ⟨?_, ?_, ?_, ?_⟩
  · intro k
    rw [GetAllServAddr_lookup, h1 k]
    exact hrep k
  · intro k
    rw [h2 k]
    exact hrep k
  · intro mp k
    rw [h4 mp k]
    exact hrep k
  · intro rvm key a l hrv hkey k
    rw [(h5 rvm key a l k hrv hkey).2]
    exact hrep k

/-- Witness for C13: on `demoHeap`, which `demoCache` describes, the returned
map is the new map object 1, whose slice for `p` has the new backing array 1
with the elements `10, 12, 15`; overwriting that array leaves the cached
sequence of `p` as it was, and `demoCache` still describes the memory. -/
theorem GetAllServAddr_independent_copy_witness :
    (GetAllServAddrH demoHeap (some 0)).2 = 1 ∧
    (GetAllServAddrH demoHeap (some 0)).1.seqAt (some 1) "p".toList =
      some [some 10, some 12, some 15] ∧
    ((GetAllServAddrH demoHeap (some 0)).1.setArray 1 [none]).seqAt (some 0) "p".toList =
      some [some 10, some 12, some 15] ∧
    ((GetAllServAddrH demoHeap (some 0)).1.setArray 1 [none]).seqAt (some 1) "p".toList =
      some [none] ∧
    Represents demoCache ((GetAllServAddrH demoHeap (some 0)).1.setArray 1 [none]) (some 0) := by
  have hrep : Represents demoCache demoHeap (some 0) := by
    intro k
    by_cases hk : k = "p".toList
    · subst hk
      decide
    · have e1 : demoCache.servList.lookup k = none :=
        (AList.lookup_insert_ne hk).trans (AList.lookup_empty k)
      have e2 : ((∅ : GoMap Str Nat).insert "p".toList 0).lookup k = none :=
        (AList.lookup_insert_ne hk).trans (AList.lookup_empty k)
      rw [e1]
      show none = Option.map _ (AList.lookup k ((∅ : GoMap Str Nat).insert "p".toList 0))
      rw [e2]
      rfl
  exact ⟨rfl,
    ((GetAllServAddr_independent_copy demoHeap (some 0) rfl).1 "p".toList).trans (by decide),
    (((GetAllServAddr_independent_copy demoHeap (some 0) rfl).2.2.2.2.1
      ((∅ : GoMap Str Nat).insert "p".toList 1) "p".toList 1 [none] "p".toList rfl
      (by decide)).2).trans (by decide),
    by decide,
    ((GetAllServAddr_independent_copy demoHeap (some 0) rfl).2.2.2.2.2 demoCache hrep).2.2.2
      ((∅ : GoMap Str Nat).insert "p".toList 1) "p".toList 1 [none] rfl (by decide)⟩

/-- C14: `checkDistVersion` always returns one of the two schema tags. It
returns `BASE_LOC_DIST_V2` after reading the V2 path alone when that read
succeeds, `BASE_LOC_DIST` when the V2 read fails and the V1 read succeeds, and
`BASE_LOC_DIST_V2` when both fail; the two tags being different, it returns
`BASE_LOC_DIST` exactly when the V2 read fails and the V1 read succeeds. -/
theorem checkDistVersion_spec (BASE_LOC_DIST BASE_LOC_DIST_V2 : Str) (clientGet : Str → Bool)
    (prefloc servlocation : Str) :
    ((checkDistVersion BASE_LOC_DIST BASE_LOC_DIST_V2 clientGet prefloc servlocation).1 =
        BASE_LOC_DIST ∨
      (checkDistVersion BASE_LOC_DIST BASE_LOC_DIST_V2 clientGet prefloc servlocation).1 =
        BASE_LOC_DIST_V2) ∧
    (clientGet (sprintfPath prefloc BASE_LOC_DIST_V2 servlocation) = true →
      checkDistVersion BASE_LOC_DIST BASE_LOC_DIST_V2 clientGet prefloc servlocation =
        (BASE_LOC_DIST_V2, [sprintfPath prefloc BASE_LOC_DIST_V2 servlocation])) ∧
    (clientGet (sprintfPath prefloc BASE_LOC_DIST_V2 servlocation) = false →
      clientGet (sprintfPath prefloc BASE_LOC_DIST servlocation) = true →
      checkDistVersion BASE_LOC_DIST BASE_LOC_DIST_V2 clientGet prefloc servlocation =
        (BASE_LOC_DIST, [sprintfPath prefloc BASE_LOC_DIST_V2 servlocation,
          sprintfPath prefloc BASE_LOC_DIST servlocation])) ∧
    (clientGet (sprintfPath prefloc BASE_LOC_DIST_V2 servlocation) = false →
      clientGet (sprintfPath prefloc BASE_LOC_DIST servlocation) = false →
      checkDistVersion BASE_LOC_DIST BASE_LOC_DIST_V2 clientGet prefloc servlocation =
        (BASE_LOC_DIST_V2, [sprintfPath prefloc BASE_LOC_DIST_V2 servlocation,
          sprintfPath prefloc BASE_LOC_DIST servlocation])) ∧
    (BASE_LOC_DIST ≠ BASE_LOC_DIST_V2 →
      ((checkDistVersion BASE_LOC_DIST BASE_LOC_DIST_V2 clientGet prefloc servlocation).1 =
          BASE_LOC_DIST ↔
        clientGet (sprintfPath prefloc BASE_LOC_DIST_V2 servlocation) = false ∧
          clientGet (sprintfPath prefloc BASE_LOC_DIST servlocation) = true)) := by
  unfold checkDistVersion
  cases h2 : clientGet (sprintfPath prefloc BASE_LOC_DIST_V2 servlocation) <;>
    cases h1 : clientGet (sprintfPath prefloc BASE_LOC_DIST servlocation) <;>
    simp [h1, h2] <;> intro hne <;> exact fun e => hne e.symm

/-- Witness for C14: a store holding only the V1 directory of `svc`, a store
in which every read succeeds and a store in which every read fails. -/
theorem checkDistVersion_spec_witness :
    checkDistVersion "dist".toList "dist2".toList demoGetV1Only "/roc".toList "svc".toList =
      ("dist".toList, ["/roc/dist2/svc".toList, "/roc/dist/svc".toList]) ∧
    ((checkDistVersion "dist".toList "dist2".toList demoGetV1Only "/roc".toList
        "svc".toList).1 = "dist".toList ↔
      demoGetV1Only (sprintfPath "/roc".toList "dist2".toList "svc".toList) = false ∧
        demoGetV1Only (sprintfPath "/roc".toList "dist".toList "svc".toList) = true) ∧
    checkDistVersion "dist".toList "dist2".toList (fun _ => true) "/roc".toList "svc".toList =
      ("dist2".toList, ["/roc/dist2/svc".toList]) ∧
    checkDistVersion "dist".toList "dist2".toList (fun _ => false) "/roc".toList "svc".toList =
      ("dist2".toList, ["/roc/dist2/svc".toList, "/roc/dist/svc".toList]) :=
  ⟨(checkDistVersion_spec "dist".toList "dist2".toList demoGetV1Only "/roc".toList
      "svc".toList).2.2.1 (by decide) (by decide),
   (checkDistVersion_spec "dist".toList "dist2".toList demoGetV1Only "/roc".toList
      "svc".toList).2.2.2.2 (by decide),
   (checkDistVersion_spec "dist".toList "dist2".toList (fun _ => true) "/roc".toList
      "svc".toList).2.1 rfl,
   (checkDistVersion_spec "dist".toList "dist2".toList (fun _ => false) "/roc".toList
      "svc".toList).2.2.2.1 rfl rfl⟩

/-- C15: when `etcd.New` fails, or `etcd.NewKeysAPI` gives a nil client, the
constructor returns an error and no resolver; otherwise it returns a resolver
whose `ServPath()` is `useBaseloc + "/" + tag + "/" + servlocation` for the tag
`checkDistVersion` returns on the same base prefix and location, a path the
probe itself has read, and whose `ServKey()` is the location passed in. -/
theorem NewClientEtcdV2_spec {κ : Type} (BASE_LOC_DIST BASE_LOC_DIST_V2 : Str)
    (etcdNew : List Str → Option κ) (newKeysAPI : κ → Option (Str → Bool))
    (confEtcd : configEtcd) (servlocation : Str) :
    (etcdNew confEtcd.etcdAddrs = none →
      ∃ e, (NewClientEtcdV2 BASE_LOC_DIST BASE_LOC_DIST_V2 etcdNew newKeysAPI confEtcd
        servlocation : Except Str (ClientEtcdV2 ServInfo)) = .error e) ∧
    (∀ c, etcdNew confEtcd.etcdAddrs = some c → newKeysAPI c = none →
      ∃ e, (NewClientEtcdV2 BASE_LOC_DIST BASE_LOC_DIST_V2 etcdNew newKeysAPI confEtcd
        servlocation : Except Str (ClientEtcdV2 ServInfo)) = .error e) ∧
    (∀ c client, etcdNew confEtcd.etcdAddrs = some c → newKeysAPI c = some client →
      ∃ cli : ClientEtcdV2 ServInfo,
        NewClientEtcdV2 BASE_LOC_DIST BASE_LOC_DIST_V2 etcdNew newKeysAPI confEtcd
          servlocation = .ok cli ∧
        ServPath cli = confEtcd.useBaseloc ++ "/".toList ++
          (checkDistVersion BASE_LOC_DIST BASE_LOC_DIST_V2 client confEtcd.useBaseloc
            servlocation).1 ++ "/".toList ++ servlocation ∧
        ServPath cli ∈
          (checkDistVersion BASE_LOC_DIST BASE_LOC_DIST_V2 client confEtcd.useBaseloc
            servlocation).2 ∧
        ServKey cli = servlocation ∧
        cli.distLoc =
          (checkDistVersion BASE_LOC_DIST BASE_LOC_DIST_V2 client confEtcd.useBaseloc
            servlocation).1) ∧
    (∀ cli : ClientEtcdV2 ServInfo,
      NewClientEtcdV2 BASE_LOC_DIST BASE_LOC_DIST_V2 etcdNew newKeysAPI confEtcd
        servlocation = .ok cli →
      ∃ c client, etcdNew confEtcd.etcdAddrs = some c ∧ newKeysAPI c = some client) := by
  refine ⟨?_, ?_, ?_, ?_⟩
  · intro h
    exact ⟨"create etchd client cfg error".toList, by simp only [NewClientEtcdV2, h]⟩
  · intro c h1 h2
    exact ⟨"create etchd api error".toList, by simp only [NewClientEtcdV2, h1, h2]⟩
  · intro c client h1 h2
    refine ⟨{
        confEtcd := confEtcd
        servKey := servlocation
        distLoc := (checkDistVersion BASE_LOC_DIST BASE_LOC_DIST_V2 client confEtcd.useBaseloc
          servlocation).1
        servPath := sprintfPath confEtcd.useBaseloc
          (checkDistVersion BASE_LOC_DIST BASE_LOC_DIST_V2 client confEtcd.useBaseloc
            servlocation).1 servlocation
        servList := ∅
        servCopy := ∅ }, by simp only [NewClientEtcdV2, h1, h2], rfl, ?_, rfl, rfl⟩
    simp only [ServPath, checkDistVersion]
    cases clientGet2 : client (sprintfPath confEtcd.useBaseloc BASE_LOC_DIST_V2 servlocation) <;>
      cases clientGet1 : client (sprintfPath confEtcd.useBaseloc BASE_LOC_DIST servlocation) <;>
      simp
  · intro cli h
    cases h1 : etcdNew confEtcd.etcdAddrs with
    | none => simp [NewClientEtcdV2, h1] at h
    | some c =>
      cases h2 : newKeysAPI c with
      | none => simp [NewClientEtcdV2, h1, h2] at h
      | some client => exact ⟨c, client, rfl, h2⟩

/-- Witness for C15: construction over a store holding only the V1 directory
of `svc`, construction with a failing `etcd.New`, and construction with a nil
keys client. -/
theorem NewClientEtcdV2_spec_witness :
    (∃ cli : ClientEtcdV2 Nat,
      NewClientEtcdV2 "dist".toList "dist2".toList (fun _ => some ())
        (fun _ => some demoGetV1Only) ⟨[], "/roc".toList⟩ "svc".toList = .ok cli ∧
      ServPath cli = "/roc/dist/svc".toList ∧ ServKey cli = "svc".toList) ∧
    (∃ e, (NewClientEtcdV2 "dist".toList "dist2".toList (fun _ => (none : Option Unit))
        (fun _ => some demoGetV1Only) ⟨[], "/roc".toList⟩ "svc".toList :
          Except Str (ClientEtcdV2 Nat)) = .error e) ∧
    (∃ e, (NewClientEtcdV2 "dist".toList "dist2".toList (fun _ => some ())
        (fun _ => none) ⟨[], "/roc".toList⟩ "svc".toList :
          Except Str (ClientEtcdV2 Nat)) = .error e) := by
  refine ⟨?_, ?_, ?_⟩
  · obtain ⟨cli, h, hp, _, hk, _⟩ :=
      (NewClientEtcdV2_spec "dist".toList "dist2".toList (fun _ => some ())
        (fun _ => some demoGetV1Only) ⟨[], "/roc".toList⟩ "svc".toList).2.2.1 () demoGetV1Only
        rfl rfl
    exact ⟨cli, h, hp.trans (by decide), hk⟩
  · exact (NewClientEtcdV2_spec "dist".toList "dist2".toList (fun _ => (none : Option Unit))
      (fun _ => some demoGetV1Only) ⟨[], "/roc".toList⟩ "svc".toList).1 rfl
  · exact (NewClientEtcdV2_spec "dist".toList "dist2".toList (fun _ => some ())
      (fun _ => none) ⟨[], "/roc".toList⟩ "svc".toList).2.1 () rfl rfl

/-- C16 fails as stated when another child denotes the same copy id: in the V1
directory with the children `0`, holding the empty document `{}`, and `00`,
declaring `p`, the later child overwrites the registration of copy 0, so the
published copy index maps 0 to the document declaring `p`, the sequence of `p`
holds that endpoint twice and `GetServAddrWithServid` answers for copy 0. -/
theorem parse_empty_document_overwritten_by_duplicate_id :
    childId "/roc/dist/svc".toList (leaf "/roc/dist/svc/0" "\x7b\x7d") = .done (some 0) ∧
      (demoUnmarshalV1 "\x7b\x7d".toList).err = false ∧
      (demoUnmarshalV1 "\x7b\x7d".toList).val = ∅ ∧
      ∃ sc sl, parseV1 demoUnmarshalV1 demoTreeEmptyDocDup = .continued (sc, sl) ∧
        sc.lookup 0 =
          some (some ⟨0, some ⟨(∅ : GoMap Str (Option Nat)).insert "p".toList (some 5)⟩⟩) ∧
        sl.lookup "p".toList = some [some 5, some 5] ∧
        GetServAddrWithServid (upServlist demoCache sc sl) 0 "p".toList "a".toList = some 5 :=
  ⟨rfl, rfl, rfl, _, _, rfl, rfl, by decide, rfl⟩

/-- C16 (as amended): a copy whose registration string decodes without error to
the empty document is recorded as it is. Take a directory with a child `bad`
named by the valid copy id `i`, no other child denoting `i` (for
`parseResponseV2`: `bad` a directory with a `reg` child); whenever the parser
publishes a snapshot for the directory without `bad`, it publishes one for the
directory with it, in which the copy index maps `i` to the empty document and
agrees with the other snapshot on every other copy id and the processor index
is that of the other snapshot, and after the publication
`GetServAddrWithServid` returns nil for copy `i` and every processor. -/
theorem parse_records_empty_document
    (unmarshalV1 : Str → Decoded (GoMap Str (Option ServInfo)))
    (unmarshalV2 : Str → Decoded (RegData ServInfo))
    (key : Str) (isDir : Bool) (value : Str) (pre post : List Node) (bad : Node) (i : Int)
    (hid : childId key bad = .done (some i)) (huniq : i ∉ copyIds key (pre ++ post)) :
    ((unmarshalV1 bad.Value).err = false → (unmarshalV1 bad.Value).val = ∅ →
      ∀ sc0 sl0, parseV1 unmarshalV1 (.mk key isDir value (pre ++ post)) = .continued (sc0, sl0) →
      ∃ sc sl, parseV1 unmarshalV1 (.mk key isDir value (pre ++ bad :: post)) =
          .continued (sc, sl) ∧
        sc.lookup i = some (some ⟨i, some ⟨∅⟩⟩) ∧
        (∀ j, j ≠ i → sc.lookup j = sc0.lookup j) ∧
        (∀ p, sl.lookup p = sl0.lookup p) ∧
        ∀ m : ClientEtcdV2 ServInfo,
          parseResponseV1 unmarshalV1 m ⟨some (.mk key isDir value (pre ++ bad :: post))⟩ =
              .done (upServlist m sc sl) ∧
            ∀ processor k : Str,
              GetServAddrWithServid (upServlist m sc sl) i processor k = none) ∧
    (∀ s, bad.Dir = true → regOf bad = some s → (unmarshalV2 s).err = false →
      (unmarshalV2 s).val.Servs = ∅ →
      ∀ sc0 sl0, parseV2 unmarshalV2 (.mk key isDir value (pre ++ post)) = .continued (sc0, sl0) →
      ∃ sc sl, parseV2 unmarshalV2 (.mk key isDir value (pre ++ bad :: post)) =
          .continued (sc, sl) ∧
        sc.lookup i = some (some ⟨i, some ⟨∅⟩⟩) ∧
        (∀ j, j ≠ i → sc.lookup j = sc0.lookup j) ∧
        (∀ p, sl.lookup p = sl0.lookup p) ∧
        ∀ m : ClientEtcdV2 ServInfo,
          parseResponseV2 unmarshalV2 m ⟨some (.mk key isDir value (pre ++ bad :: post))⟩ =
              .done (upServlist m sc sl) ∧
            ∀ processor k : Str,
              GetServAddrWithServid (upServlist m sc sl) i processor k = none) := by
  refine ⟨?_, ?_⟩
  · intro he hempty sc0 sl0 h0
    obtain ⟨⟨sc, sl⟩, h⟩ := parseV1_add_child unmarshalV1 key isDir value pre post bad
      (by rw [hid]; simp) _ h0
    obtain ⟨h1, ⟨sc0', sl0', h0', h3, h2⟩, h4⟩ :=
      (empty_document_recorded unmarshalV1 unmarshalV2 key isDir value pre post bad i hid huniq
        sc sl).1 he hempty h
    rw [h0] at h0'
    injection h0' with h0'
    injection h0' with e1 e2
    subst e1 e2
    exact ⟨sc, sl, h, h1, h2, h3, fun m => ⟨by simp only [parseResponseV1, h], h4 m⟩⟩
  · intro s hdir hreg he hempty sc0 sl0 h0
    obtain ⟨⟨sc, sl⟩, h⟩ := parseV2_add_copy unmarshalV2 key isDir value pre post bad i s hid
      hdir hreg huniq _ h0
    obtain ⟨h1, ⟨sc0', sl0', h0', h3, h2⟩, h4⟩ :=
      (empty_document_recorded unmarshalV1 unmarshalV2 key isDir value pre post bad i hid huniq
        sc sl).2 s hreg he hempty h
    rw [h0] at h0'
    injection h0' with h0'
    injection h0' with e1 e2
    subst e1 e2
    have hval : (unmarshalV2 s).val = ⟨∅⟩ := by
      cases hv : (unmarshalV2 s).val with
      | mk servs =>
        rw [hv] at hempty
        exact congrArg RegData.mk hempty
    rw [hval] at h1
    exact ⟨sc, sl, h, h1, h2, h3, fun m => ⟨by simp only [parseResponseV2, h], h4 m⟩⟩

/-- Witness for C16 (as amended): copy 0 holding the empty document next to
copy 1, in a V1 and in a V2 directory. -/
theorem parse_records_empty_document_witness :
    (∃ sc sl, parseV1 demoUnmarshalV1 demoTreeEmptyDoc = .continued (sc, sl) ∧
      sc.lookup 0 = some (some ⟨0, some ⟨∅⟩⟩) ∧ sl.lookup "p".toList = some [some 1] ∧
      GetServAddrWithServid (upServlist demoCache sc sl) 0 "p".toList "a".toList = none) ∧
    (∃ sc sl, parseV2 demoUnmarshalV2 demoTreeEmptyDocV2 = .continued (sc, sl) ∧
      sc.lookup 0 = some (some ⟨0, some ⟨∅⟩⟩) ∧ sl.lookup "p".toList = some [some 1] ∧
      GetServAddrWithServid (upServlist demoCache sc sl) 0 "p".toList "a".toList = none) := by
  refine ⟨?_, ?_⟩
  · obtain ⟨sc, sl, h, h1, _, h3, h4⟩ :=
      (parse_records_empty_document demoUnmarshalV1 demoUnmarshalV2 "/roc/dist/svc".toList
        true [] [] [leaf "/roc/dist/svc/1" "\x7b\"p\":1\x7d"]
        (leaf "/roc/dist/svc/0" "\x7b\x7d") 0 rfl (by decide)).1 rfl rfl _ _ rfl
    exact ⟨sc, sl, h, h1, (h3 "p".toList).trans (by decide), (h4 demoCache).2 _ _⟩
  · obtain ⟨sc, sl, h, h1, _, h3, h4⟩ :=
      (parse_records_empty_document demoUnmarshalV1 demoUnmarshalV2 "/roc/dist2/svc".toList
        true [] []
        [dir "/roc/dist2/svc/1"
          [leaf "/roc/dist2/svc/1/reg" "\x7b\"servs\":\x7b\"p\":1\x7d\x7d"]]
        (dir "/roc/dist2/svc/0" [leaf "/roc/dist2/svc/0/reg" "\x7b\"servs\":\x7b\x7d\x7d"]) 0
        rfl (by decide)).2 "\x7b\"servs\":\x7b\x7d\x7d".toList rfl rfl rfl rfl _ _ rfl
    exact ⟨sc, sl, h, h1, (h3 "p".toList).trans (by decide), (h4 demoCache).2 _ _⟩

/-- C17: in every state `s` the goroutine of `watch` reaches from its start,
one iteration of the loop starts a new attempt exactly when `chg` is nil; on an
event (a non-nil response with a node) it calls `parseResponse` once on the
store as it is then and, when that returns, keeps the channel, stores the
parsed resolver and resets the backoff controller, which then waits the
initial 10 ms next and keeps the cap of 5000 ms; on the closure of the channel
it sets `chg` to nil and takes one backoff step, the resolver (hence the cache)
being untouched, so that the next iteration starts a fresh attempt. -/
theorem watch_loop_spec (BASE_LOC_DIST BASE_LOC_DIST_V2 : Str)
    (unmarshalV1 : Str → Decoded (GoMap Str (Option ServInfo)))
    (unmarshalV2 : Str → Decoded (RegData ServInfo)) (grow : Nat → Nat)
    (m : ClientEtcdV2 ServInfo) (inputs : List WatchInput) (s : WatchState ServInfo)
    (hrun : watchRun BASE_LOC_DIST BASE_LOC_DIST_V2 unmarshalV1 unmarshalV2 grow inputs
      (watchInit m) = .done s) :
    ((ensureAttempt s).attempts = s.attempts + 1 ↔ s.chg = none) ∧
    (s.chg = none → (ensureAttempt s).chg = some s.attempts) ∧
    (s.chg ≠ none → ensureAttempt s = s) ∧
    (∀ (resp : Response) (node : Node) (etcdGet : Str → Option Response)
        (m2 : ClientEtcdV2 ServInfo),
      resp.Node = some node →
      parseResponse BASE_LOC_DIST BASE_LOC_DIST_V2 unmarshalV1 unmarshalV2 etcdGet s.cli =
        .done m2 →
      watchStep BASE_LOC_DIST BASE_LOC_DIST_V2 unmarshalV1 unmarshalV2 grow
          (.event (some resp) etcdGet) s =
        .done { chg := (ensureAttempt s).chg, backoff := ⟨10, 5000, 10⟩,
                attempts := (ensureAttempt s).attempts, cli := m2 }) ∧
    (watchStep BASE_LOC_DIST BASE_LOC_DIST_V2 unmarshalV1 unmarshalV2 grow .closed s =
        .done { chg := none, backoff := ⟨10, 5000, min 5000 (grow s.backoff.cur)⟩,
                attempts := (ensureAttempt s).attempts, cli := s.cli }) ∧
    (∀ s2, watchStep BASE_LOC_DIST BASE_LOC_DIST_V2 unmarshalV1 unmarshalV2 grow .closed s =
        .done s2 →
      (ensureAttempt s2).chg = some s2.attempts ∧
        (ensureAttempt s2).attempts = s2.attempts + 1) := by
  obtain ⟨hstep, hceil⟩ := watchRun_backoff _ _ _ _ _ _ _ _ hrun
  have hstep' : s.backoff.step = 10 := hstep
  have hceil' : s.backoff.ceil = 5000 := hceil
  have hcli : (ensureAttempt s).cli = s.cli := by
    unfold ensureAttempt
    cases s.chg <;> rfl
  have hbo : (ensureAttempt s).backoff = s.backoff := by
    unfold ensureAttempt
    cases s.chg <;> rfl
  refine ⟨?_, ?_, ?_, ?_, ?_, ?_⟩
  · unfold ensureAttempt
    cases h : s.chg <;> simp
  · intro h
    simp [ensureAttempt, h]
  · intro h
    unfold ensureAttempt
    cases hc : s.chg with
    | none => exact absurd hc h
    | some c => rfl
  · intro resp node etcdGet m2 hn hp
    simp only [watchStep, hn, hcli, hp, hbo, BackOffCtrl.Reset, hstep', hceil']
  · simp only [watchStep, hcli, hbo, BackOffCtrl.BackOff, hstep', hceil']
  · intro s2 h2
    simp only [watchStep, Outcome.done.injEq] at h2
    subst h2
    simp [ensureAttempt]

/-- Witness for C17: from the start of the goroutine over `demoCache` (tag
`dist2`), after one closure of the channel, an event makes the loop parse the
V2 directory with copies 5, 0, 2 and reset the backoff. -/
theorem watch_loop_spec_witness :
    ∃ m2 : ClientEtcdV2 Nat,
      m2.servList.lookup "p".toList = some [some 0, some 2, some 5] ∧
      watchStep "dist".toList "dist2".toList demoUnmarshalV1 demoUnmarshalV2 (fun d => 2 * d)
          (.event (some ⟨some demoTreeV2⟩) (fun _ => some ⟨some demoTreeV2⟩))
          { chg := none, backoff := ⟨10, 5000, 20⟩, attempts := 1, cli := demoCache } =
        .done { chg := some 1, backoff := ⟨10, 5000, 10⟩, attempts := 2, cli := m2 } :=
  ⟨_, by decide,
    (watch_loop_spec "dist".toList "dist2".toList demoUnmarshalV1 demoUnmarshalV2
      (fun d => 2 * d) demoCache [.closed]
      { chg := none, backoff := ⟨10, 5000, 20⟩, attempts := 1, cli := demoCache } rfl).2.2.2.1
      ⟨some demoTreeV2⟩ demoTreeV2 (fun _ => some ⟨some demoTreeV2⟩) _ rfl rfl⟩

/-- C18: `startWatch` on a client whose `Watcher` gives a watcher, as the one of
`etcd.NewKeysAPI` always does. When the initial read fails the only operation
on the channel is its closure. When the initial read succeeds its response is
the first send. Whenever the function returns, its operations on the channel
are sends followed by one final closure, so every receive of the coordinating
loop up to and including the one that reports the closure returns; after a
successful initial read the first event is the response of that read and all
later events are results of `watcher.Next`. -/
theorem startWatch_closes_channel (get : Option Response × Bool)
    (watcher : Option (List (Option Response × Bool))) :
    (get.2 = true → startWatch get watcher = ([.close], .returned)) ∧
    (get.2 = false → (startWatch get watcher).1.head? = some (.send get.1)) ∧
    (watcher ≠ none → (startWatch get watcher).2 = .returned →
      ∃ evs : List (Option Response),
        (startWatch get watcher).1 = evs.map ChanOp.send ++ [.close] ∧
        (∀ k (hk : k < evs.length),
          recvAt (startWatch get watcher) k = .event (evs.get ⟨k, hk⟩)) ∧
        recvAt (startWatch get watcher) evs.length = .closed ∧
        (get.2 = false →
          ∃ rest, evs = get.1 :: rest ∧
            ∀ r ∈ rest, ∃ nexts, watcher = some nexts ∧ ∃ e ∈ nexts, e.1 = r)) := by
  obtain ⟨r, err⟩ := get
  have key : watcher ≠ none → (startWatch (r, err) watcher).2 = .returned →
      ∃ evs : List (Option Response),
        (startWatch (r, err) watcher).1 = evs.map ChanOp.send ++ [.close] ∧
        (err = false →
          ∃ rest, evs = r :: rest ∧
            ∀ q ∈ rest, ∃ nexts, watcher = some nexts ∧ ∃ e ∈ nexts, e.1 = q) := by
    intro hw hret
    cases err with
    | true => exact ⟨[], by simp [startWatch], by simp⟩
    | false =>
      cases r with
      | none => simp [startWatch] at hret
      | some resp =>
        cases hn : resp.Node with
        | none => simp [startWatch, hn] at hret
        | some n =>
          cases watcher with
          | none => exact absurd rfl hw
          | some nexts =>
            have h2 : (watchNext nexts).2 = .returned := by
              simpa [startWatch, hn] using hret
            obtain ⟨evs, he, hm⟩ := watchNext_returned nexts h2
            refine ⟨some resp :: evs, by simp [startWatch, hn, he], fun _ => ⟨evs, rfl, ?_⟩⟩
            intro q hq
            exact ⟨nexts, rfl, hm q hq⟩
  refine ⟨?_, ?_, ?_⟩
  · intro h
    simp only at h
    subst h
    rfl
  · intro h
    simp only at h
    subst h
    cases r with
    | none => rfl
    | some resp =>
      cases hn : resp.Node with
      | none => simp [startWatch, hn]
      | some n =>
        cases watcher with
        | none => simp [startWatch, hn]
        | some nexts => simp [startWatch, hn]
  · intro hw hret
    obtain ⟨evs, he, hfirst⟩ := key hw hret
    obtain ⟨h1, h2⟩ := recvAt_sends_close (startWatch (r, err) watcher).1
      (startWatch (r, err) watcher).2 evs he
    exact ⟨evs, he, h1, h2, hfirst⟩

/-- Witness for C18: the initial read gives the V2 directory, `watcher.Next`
gives one notification and then an error: two sends, then the closure. -/
theorem startWatch_closes_channel_witness :
    startWatch (some ⟨some demoTreeV2⟩, false)
        (some [(some ⟨some demoTreeV1⟩, false), (none, true)]) =
      ([.send (some ⟨some demoTreeV2⟩), .send (some ⟨some demoTreeV1⟩), .close], .returned) ∧
    ∃ evs : List (Option Response),
      (startWatch (some ⟨some demoTreeV2⟩, false)
          (some [(some ⟨some demoTreeV1⟩, false), (none, true)])).1 =
        evs.map ChanOp.send ++ [.close] ∧
      recvAt (startWatch (some ⟨some demoTreeV2⟩, false)
          (some [(some ⟨some demoTreeV1⟩, false), (none, true)])) evs.length = .closed :=
  ⟨rfl,
    let ⟨evs, h1, _, h3, _⟩ :=
      (startWatch_closes_channel (some ⟨some demoTreeV2⟩, false)
        (some [(some ⟨some demoTreeV1⟩, false), (none, true)])).2.2 (by simp) rfl
    ⟨evs, h1, h3⟩⟩

/-- The branch of `startWatch` for a nil watcher (lines 154-157): after a
successful initial read the function sends the response and returns without
closing the channel, so a second receive on it would not return; on the two
other exits (failed initial read, error of `watcher.Next`) the channel is
closed before the return. `Watcher` of the client that `etcd.NewKeysAPI` gives
always returns a watcher, so this branch is not taken. -/
theorem startWatch_nil_watcher_leaves_channel_open :
    startWatch (some ⟨some demoTreeV2⟩, false) none =
        ([.send (some ⟨some demoTreeV2⟩)], .returned) ∧
      recvAt (startWatch (some ⟨some demoTreeV2⟩, false) none) 0 =
        .event (some ⟨some demoTreeV2⟩) ∧
      recvAt (startWatch (some ⟨some demoTreeV2⟩, false) none) 1 = .never ∧
      startWatch (none, true) none = ([.close], .returned) ∧
      startWatch (some ⟨some demoTreeV2⟩, false) (some [(some ⟨some demoTreeV1⟩, false),
          (none, true)]) =
        ([.send (some ⟨some demoTreeV2⟩), .send (some ⟨some demoTreeV1⟩), .close],
          .returned) :=
  ⟨rfl, rfl, rfl, rfl, rfl⟩

/-- C19 (defect): the comment on the cache fields says the address list is
stored in descending order of service id, but both parsers sort the ids
ascending: for the directories with copies 5, 0, 2 the sequence of `p` is the
endpoint of copy 0, then that of copy 2, then that of copy 5, so an endpoint
precedes another although it comes from the smaller copy id. -/
theorem parse_order_is_ascending_not_descending :
    (∃ sc sl, parseV1 demoUnmarshalV1 demoTreeV1 = .continued (sc, sl) ∧
      sl.lookup "p".toList = some [some 0, some 2, some 5] ∧
      originates sc "p".toList 0 (some 0) ∧ originates sc "p".toList 2 (some 2) ∧
      originates sc "p".toList 5 (some 5)) ∧
    (∃ sc sl, parseV2 demoUnmarshalV2 demoTreeV2 = .continued (sc, sl) ∧
      sl.lookup "p".toList = some [some 0, some 2, some 5] ∧
      originates sc "p".toList 0 (some 0) ∧ originates sc "p".toList 2 (some 2) ∧
      originates sc "p".toList 5 (some 5)) :=
  ⟨⟨_, _, rfl, by decide, ⟨_, _, rfl, rfl, by decide⟩, ⟨_, _, rfl, rfl, by decide⟩,
      ⟨_, _, rfl, rfl, by decide⟩⟩,
    ⟨_, _, rfl, by decide, ⟨_, _, rfl, rfl, by decide⟩, ⟨_, _, rfl, rfl, by decide⟩,
      ⟨_, _, rfl, rfl, by decide⟩⟩⟩

/-- C20: in every snapshot a parser hands to `upServlist` the two indexes agree:
an endpoint occurs in the sequence of `p` only if some copy of the copy index
stores it for `p`; every endpoint a copy of the copy index stores for `p` occurs
in the sequence of `p`; no processor is mapped to the empty sequence; and
whenever `GetServAddr` returns an endpoint for `p`, `GetServAddrWithServid`
returns the same endpoint for `p` and some copy id. -/
theorem parse_indexes_agree
    (unmarshalV1 : Str → Decoded (GoMap Str (Option ServInfo)))
    (unmarshalV2 : Str → Decoded (RegData ServInfo)) (root : Node)
    (sc : servCopyCollect ServInfo) (sl : GoMap Str (List (Option ServInfo)))
    (h : parseV1 unmarshalV1 root = .continued (sc, sl) ∨
      parseV2 unmarshalV2 root = .continued (sc, sl)) :
    (∀ p l e, sl.lookup p = some l → e ∈ l → ∃ j, originates sc p j e) ∧
    (∀ p j e, originates sc p j e → ∃ l, sl.lookup p = some l ∧ e ∈ l) ∧
    (∀ p, sl.lookup p ≠ some []) ∧
    (∀ (m : ClientEtcdV2 ServInfo) (p key : Str) (e : ServInfo),
      GetServAddr (upServlist m sc sl) p key = .done (some e) →
      ∃ j, GetServAddrWithServid (upServlist m sc sl) j p key = some e) := by
  have hb : ∃ (doc : Int → RegData ServInfo) (ids : List Int),
      (sc, sl) = buildWith doc ids ∅ ∅ := by
    rcases h with h | h
    · exact ⟨_, _, parseV1_spec unmarshalV1 root _ h⟩
    · exact ⟨_, _, (parseV2_spec unmarshalV2 root _ h).2⟩
  obtain ⟨doc, ids, hsnap⟩ := hb
  obtain ⟨h1, h2, h3⟩ := buildWith_agree doc ids
  rw [← hsnap] at h1 h2 h3
  refine ⟨h1, h2, h3, ?_⟩
  intro m p key e hg
  obtain ⟨l, hl, he⟩ := GetServAddr_mem _ p key e hg
  obtain ⟨j, hj⟩ := h1 p l (some e) hl he
  exact ⟨j, GetServAddrWithServid_of_originates _ j p key e hj⟩

/-- Witness for C20: the V1 and the V2 directory with copies 5, 0, 2 parsed over
`demoCache`; for key `a` the hashed pick for `p` is the endpoint of copy 0. -/
theorem parse_indexes_agree_witness :
    (∃ sc sl, parseV1 demoUnmarshalV1 demoTreeV1 = .continued (sc, sl) ∧
      GetServAddr (upServlist demoCache sc sl) "p".toList "a".toList = .done (some 0) ∧
      ∃ j, GetServAddrWithServid (upServlist demoCache sc sl) j "p".toList "a".toList =
        some 0) ∧
    (∃ sc sl, parseV2 demoUnmarshalV2 demoTreeV2 = .continued (sc, sl) ∧
      GetServAddr (upServlist demoCache sc sl) "p".toList "a".toList = .done (some 0) ∧
      ∃ j, GetServAddrWithServid (upServlist demoCache sc sl) j "p".toList "a".toList =
        some 0) :=
  ⟨⟨_, _, rfl, by set_option maxRecDepth 100000 in rfl,
      (parse_indexes_agree demoUnmarshalV1 demoUnmarshalV2 demoTreeV1 _ _ (Or.inl rfl)).2.2.2
        demoCache "p".toList "a".toList 0 (by set_option maxRecDepth 100000 in rfl)⟩,
    ⟨_, _, rfl, by set_option maxRecDepth 100000 in rfl,
      (parse_indexes_agree demoUnmarshalV1 demoUnmarshalV2 demoTreeV2 _ _ (Or.inr rfl)).2.2.2
        demoCache "p".toList "a".toList 0 (by set_option maxRecDepth 100000 in rfl)⟩⟩

end Claims

end rocserv
